import Mathlib

/-!
The ECS core of 2DGameEngine (src/ECS/ECS.h, src/ECS/ECS.cpp)

A shallow embedding of the Registry / Entity / System / Pool classes.

* `std::bitset<MAX_COMPONENTS>` is a natural number below `2 ^ 32`; `set` and `test`
  throw `std::out_of_range` for a position that is not below `MAX_COMPONENTS`.
* `std::vector<T>` is a `List T`; `operator[]` outside the vector is undefined behaviour.
* `std::set<Entity>` is a list kept in ascending id order (the order of iteration).
* `std::unordered_map<std::type_index, std::shared_ptr<System>>` is an association list
  keyed by a natural number standing for the `type_index`.
* A member function that can fail returns `Except (Fault σ) _`: `Fault.outOfRange st` is
  the exception thrown by the bitset, `st` being the object the call leaves behind, and
  `Fault.undefined` is undefined behaviour (an index outside a vector, a null or
  past-the-end dereference, signed overflow).
* The template parameter `T` of the component functions is given by its id
  `Component<T>::GetId()`, and the component values of all types live in one type `V`.
-/

namespace ECS

/-- The constant `MAX_COMPONENTS` of ECS.h. -/
def MAX_COMPONENTS : Nat := 32

/-- Largest value of the C++ type `int` (32 bits). -/
def INT_MAX : Nat := 2147483647

/-- Ways a call can fail: the bitset exception (together with the object the call leaves
behind when the exception leaves it) or undefined behaviour. -/
inductive Fault (σ : Type) where
  | outOfRange (st : σ)
  | undefined
  deriving DecidableEq, Repr

deriving instance DecidableEq for Except

/-! ## Signature -/

/-- The type `Signature`, a `std::bitset<MAX_COMPONENTS>`: the bits of a number below
`2 ^ MAX_COMPONENTS`. -/
structure Signature where
  bits : Nat
  width : bits < 2 ^ MAX_COMPONENTS
  deriving DecidableEq

/-- A default-constructed bitset: all bits zero. -/
def Signature.zero : Signature := ⟨0, Nat.two_pow_pos _⟩

instance : Inhabited Signature := ⟨Signature.zero⟩

/-- The member `bitset::set(pos, val)`; `none` is the thrown `std::out_of_range`, which
leaves the bitset as it was. -/
def Signature.set (s : Signature) (pos : Nat) (val : Bool) : Option Signature :=
  if h : pos < MAX_COMPONENTS then
    if val then
      some ⟨s.bits ||| 2 ^ pos, Nat.or_lt_two_pow s.width (Nat.pow_lt_pow_right (by decide) h)⟩
    else
      some ⟨s.bits ^^^ (s.bits &&& 2 ^ pos),
        Nat.xor_lt_two_pow s.width
          (Nat.and_lt_two_pow _ (Nat.pow_lt_pow_right (by decide) h))⟩
  else none

/-- The member `bitset::test(pos)`; `none` is the thrown `std::out_of_range`. -/
def Signature.test (s : Signature) (pos : Nat) : Option Bool :=
  if pos < MAX_COMPONENTS then some (s.bits.testBit pos) else none

/-- The operator `&` of two bitsets. -/
def Signature.and (a b : Signature) : Signature :=
  ⟨a.bits &&& b.bits, Nat.and_lt_two_pow _ b.width⟩

/-! ## Entity -/

/-- The class `Entity`: an `int` id (the back pointer to the registry only forwards calls). -/
structure Entity where
  id : Int
  deriving DecidableEq, Repr

/-- The member `Entity::GetId`. -/
def Entity.GetId (e : Entity) : Int := e.id

/-- The member `Entity::operator==`: equality of ids. -/
def Entity.eq (e other : Entity) : Bool := decide (e.id = other.id)

/-- The member `Entity::operator<`: order of ids. -/
def Entity.lt (e other : Entity) : Bool := decide (e.id < other.id)

/-! ## Vectors and sets of the standard library -/

/-- The member `std::vector::resize(n, fill)`. -/
def vectorResize {α : Type} (v : List α) (n : Nat) (fill : α) : List α :=
  v.take n ++ List.replicate (n - v.length) fill

/-- The access `v[i]` with an index of type `int`, converted to the unsigned size type:
a negative index is out of range like one past the end. -/
def vectorAt {α : Type} (v : List α) (i : Int) : Option α :=
  if 0 ≤ i then v[i.toNat]? else none

/-- The member `std::set<Entity>::insert`: the elements stay in ascending order of
`operator<`, and an element equivalent to an existing one is not inserted. -/
def setInsert (e : Entity) : List Entity → List Entity
  | [] => [e]
  | x :: xs =>
    if e.lt x then e :: x :: xs
    else if x.lt e then x :: setInsert e xs
    else x :: xs

/-! ## System -/

/-- The class `System`: the required signature and the list of entities of interest. -/
structure System where
  componentSignature : Signature
  entities : List Entity
  deriving DecidableEq

/-- A default-constructed `System`. -/
def System.new : System := ⟨Signature.zero, []⟩

/-- The member `System::AddEntity`: `push_back`. -/
def System.AddEntity (s : System) (entity : Entity) : System :=
  { s with entities := s.entities ++ [entity] }

/-- The member `System::RemoveEntity`: erase and `remove_if` with `entity == other`. -/
def System.RemoveEntity (s : System) (entity : Entity) : System :=
  { s with entities := s.entities.filter (fun other => !(entity.eq other)) }

/-- The member `System::GetEntities`: a copy of the list. -/
def System.GetEntities (s : System) : List Entity := s.entities

/-- The member `System::GetComponentSignature`. -/
def System.GetComponentSignature (s : System) : Signature := s.componentSignature

/-- The member `System::RequireComponent<T>`, `componentId` being `Component<T>::GetId()`. -/
def System.RequireComponent (s : System) (componentId : Nat) : Except (Fault System) System :=
  match s.componentSignature.set componentId true with
  | none => .error (.outOfRange s)
  | some sig => .ok { s with componentSignature := sig }

/-! ## Pool -/

/-- The class template `Pool<T>`: a vector of objects. -/
structure Pool (T : Type) where
  data : List T
  deriving DecidableEq

/-- The constructor `Pool(int size = 100)`: `size` value-initialised objects. -/
def Pool.new {T : Type} [Inhabited T] (size : Nat) : Pool T :=
  ⟨vectorResize [] size default⟩

/-- The member `Pool::GetSize`. -/
def Pool.GetSize {T : Type} (p : Pool T) : Nat := p.data.length

/-- The member `Pool::Resize`: `data.resize(n)`. -/
def Pool.Resize {T : Type} [Inhabited T] (p : Pool T) (n : Nat) : Pool T :=
  ⟨vectorResize p.data n default⟩

/-- The member `Pool::Set`: `data[index] = object`. -/
def Pool.Set {T : Type} (p : Pool T) (index : Int) (object : T) : Option (Pool T) :=
  if 0 ≤ index ∧ index.toNat < p.data.length then some ⟨p.data.set index.toNat object⟩
  else none

/-- The member `Pool::Get`: `data[index]`. -/
def Pool.Get {T : Type} (p : Pool T) (index : Int) : Option T :=
  vectorAt p.data index

/-! ## Registry -/

/-- The class `Registry`. `numEntities` starts at zero and is only ever incremented, so
it is a natural number. -/
structure Registry (V : Type) where
  numEntities : Nat
  entitiesToBeAdded : List Entity
  entitiesToBeKilled : List Entity
  componentPools : List (Option (Pool V))
  entityComponentSignatures : List Signature
  systems : List (Nat × System)
  deriving DecidableEq

/-- A default-constructed `Registry`. -/
def Registry.new {V : Type} : Registry V := ⟨0, [], [], [], [], []⟩

/-- The member `Registry::CreateEntity`. Incrementing `numEntities` at `INT_MAX` is a
signed overflow. -/
def Registry.CreateEntity {V : Type} (r : Registry V) :
    Except (Fault (Registry V)) (Entity × Registry V) :=
  if r.numEntities < INT_MAX then
    let entityId := r.numEntities
    let signatures :=
      if entityId ≥ r.entityComponentSignatures.length then
        vectorResize r.entityComponentSignatures (entityId + 1) Signature.zero
      else r.entityComponentSignatures
    let entity : Entity := ⟨entityId⟩
    .ok (entity,
      { r with
        numEntities := r.numEntities + 1
        entityComponentSignatures := signatures
        entitiesToBeAdded := setInsert entity r.entitiesToBeAdded })
  else .error .undefined

/-- The member `Registry::AddComponent<T>`, `componentId` being `Component<T>::GetId()`
and `newComponent` the object built from the arguments. The pool is written before the
signature, so the bitset exception leaves the registry with the pool already changed. -/
def Registry.AddComponent {V : Type} [Inhabited V] (r : Registry V) (componentId : Nat)
    (entity : Entity) (newComponent : V) : Except (Fault (Registry V)) (Registry V) :=
  let entityId := entity.GetId
  let pools :=
    if componentId ≥ r.componentPools.length then
      vectorResize r.componentPools (componentId + 1) none
    else r.componentPools
  let componentPool : Pool V :=
    match pools[componentId]? with
    | some (some p) => p
    | _ => Pool.new 100
  let componentPool :=
    if entityId ≥ (componentPool.GetSize : Int) then componentPool.Resize r.numEntities
    else componentPool
  match componentPool.Set entityId newComponent with
  | none => .error .undefined
  | some componentPool =>
    let r1 := { r with componentPools := pools.set componentId (some componentPool) }
    match vectorAt r1.entityComponentSignatures entityId with
    | none => .error .undefined
    | some signature =>
      match signature.set componentId true with
      | none => .error (.outOfRange r1)
      | some signature =>
        .ok { r1 with
          entityComponentSignatures :=
            r1.entityComponentSignatures.set entityId.toNat signature }

/-- The member `Registry::RemoveComponent<T>`. -/
def Registry.RemoveComponent {V : Type} (r : Registry V) (componentId : Nat)
    (entity : Entity) : Except (Fault (Registry V)) (Registry V) :=
  let entityId := entity.GetId
  match vectorAt r.entityComponentSignatures entityId with
  | none => .error .undefined
  | some signature =>
    match signature.set componentId false with
    | none => .error (.outOfRange r)
    | some signature =>
      .ok { r with
        entityComponentSignatures :=
          r.entityComponentSignatures.set entityId.toNat signature }

/-- The member `Registry::HasComponent<T>` (const). -/
def Registry.HasComponent {V : Type} (r : Registry V) (componentId : Nat)
    (entity : Entity) : Except (Fault (Registry V)) Bool :=
  let entityId := entity.GetId
  match vectorAt r.entityComponentSignatures entityId with
  | none => .error .undefined
  | some signature =>
    match signature.test componentId with
    | none => .error (.outOfRange r)
    | some b => .ok b

/-- The member `Registry::GetComponent<T>` (const): the object in the pool slot. -/
def Registry.GetComponent {V : Type} (r : Registry V) (componentId : Nat)
    (entity : Entity) : Except (Fault (Registry V)) V :=
  let entityId := entity.GetId
  match r.componentPools[componentId]? with
  | some (some componentPool) =>
    match componentPool.Get entityId with
    | some v => .ok v
    | none => .error .undefined
  | _ => .error .undefined

/-- The lookup `systems.find(key)`: the instance stored under the key, if any. -/
def findSystem (systems : List (Nat × System)) (key : Nat) : Option System :=
  match systems with
  | [] => none
  | (k, s) :: rest => if k = key then some s else findSystem rest key

/-- The member `Registry::AddSystem<T>`, `key` being `type_index(typeid(T))` and
`newSystem` the object built by `make_shared<T>(args...)`. The map's `insert` does
nothing when the key is present. -/
def Registry.AddSystem {V : Type} (r : Registry V) (key : Nat) (newSystem : System) :
    Registry V :=
  match findSystem r.systems key with
  | some _ => r
  | none => { r with systems := r.systems ++ [(key, newSystem)] }

/-- The member `Registry::RemoveSystem<T>`: erasing the past-the-end iterator that
`find` returns for an absent key is undefined. The keys of the map are unique, so the
entry found is the only one under the key. -/
def Registry.RemoveSystem {V : Type} (r : Registry V) (key : Nat) :
    Except (Fault (Registry V)) (Registry V) :=
  match findSystem r.systems key with
  | none => .error .undefined
  | some _ => .ok { r with systems := r.systems.filter (fun p => !(decide (p.1 = key))) }

/-- The member `Registry::HasSystem<T>`. -/
def Registry.HasSystem {V : Type} (r : Registry V) (key : Nat) : Bool :=
  (findSystem r.systems key).isSome

/-- The member `Registry::GetSystem<T>`: dereferences what `find` returns. -/
def Registry.GetSystem {V : Type} (r : Registry V) (key : Nat) :
    Except (Fault (Registry V)) System :=
  match findSystem r.systems key with
  | none => .error .undefined
  | some s => .ok s

/-- The test `(entityComponentSignature & systemComponentSignature) ==
systemComponentSignature` of `AddEntityToSystems`. -/
def isInterested (entityComponentSignature systemComponentSignature : Signature) : Bool :=
  decide (entityComponentSignature.and systemComponentSignature = systemComponentSignature)

/-- The body of the loop over `systems` in `AddEntityToSystems`, for one map entry. -/
def visitSystem (entityComponentSignature : Signature) (entity : Entity)
    (entry : Nat × System) : Nat × System :=
  if isInterested entityComponentSignature entry.2.GetComponentSignature then
    (entry.1, entry.2.AddEntity entity)
  else entry

/-- The member `Registry::AddEntityToSystems`. -/
def Registry.AddEntityToSystems {V : Type} (r : Registry V) (entity : Entity) :
    Except (Fault (Registry V)) (Registry V) :=
  let entityId := entity.GetId
  match vectorAt r.entityComponentSignatures entityId with
  | none => .error .undefined
  | some entityComponentSignature =>
    .ok { r with systems := r.systems.map (visitSystem entityComponentSignature entity) }

/-- The loop `for (auto entity : entitiesToBeAdded) AddEntityToSystems(entity)` of
`Registry::Update`, over the entities still to visit. -/
def Registry.addPending {V : Type} (r : Registry V) :
    List Entity → Except (Fault (Registry V)) (Registry V)
  | [] => .ok r
  | entity :: rest =>
    match r.AddEntityToSystems entity with
    | .error f => .error f
    | .ok r1 => r1.addPending rest

/-- The member `Registry::Update`. -/
def Registry.Update {V : Type} (r : Registry V) : Except (Fault (Registry V)) (Registry V) :=
  match r.addPending r.entitiesToBeAdded with
  | .error f => .error f
  | .ok r1 => .ok { r1 with entitiesToBeAdded := [] }

/-! ## Calls on a registry -/

/-- The entry of `key` in the map replaced by `s`: what a write through the reference
returned by `GetSystem<T>()` does to the map. -/
def replaceSystem (systems : List (Nat × System)) (key : Nat) (s : System) :
    List (Nat × System) :=
  match systems with
  | [] => []
  | (k, old) :: rest =>
    if k = key then (k, s) :: rest else (k, old) :: replaceSystem rest key s

/-- A call of a public member function of a registry, or of a public member function of
`System` on the instance that `GetSystem<T>()` returns. -/
inductive Op (V : Type) where
  | createEntity
  | addComponent (componentId : Nat) (entity : Entity) (value : V)
  | removeComponent (componentId : Nat) (entity : Entity)
  | addSystem (key : Nat) (newSystem : System)
  | removeSystem (key : Nat)
  | addEntityToSystems (entity : Entity)
  | update
  | systemAddEntity (key : Nat) (entity : Entity)
  | systemRemoveEntity (key : Nat) (entity : Entity)
  | systemRequireComponent (key : Nat) (componentId : Nat)

/-- The registry after `GetSystem<T>().AddEntity(entity)`. -/
def Registry.systemAddEntity {V : Type} (r : Registry V) (key : Nat) (entity : Entity) :
    Except (Fault (Registry V)) (Registry V) :=
  match r.GetSystem key with
  | .error f => .error f
  | .ok s => .ok { r with systems := replaceSystem r.systems key (s.AddEntity entity) }

/-- The registry after `GetSystem<T>().RemoveEntity(entity)`. -/
def Registry.systemRemoveEntity {V : Type} (r : Registry V) (key : Nat) (entity : Entity) :
    Except (Fault (Registry V)) (Registry V) :=
  match r.GetSystem key with
  | .error f => .error f
  | .ok s => .ok { r with systems := replaceSystem r.systems key (s.RemoveEntity entity) }

/-- The registry after `GetSystem<T>().RequireComponent<U>()`. -/
def Registry.systemRequireComponent {V : Type} (r : Registry V) (key : Nat)
    (componentId : Nat) : Except (Fault (Registry V)) (Registry V) :=
  match r.GetSystem key with
  | .error f => .error f
  | .ok s =>
    match s.RequireComponent componentId with
    | .ok s1 => .ok { r with systems := replaceSystem r.systems key s1 }
    | .error (.outOfRange _) => .error (.outOfRange r)
    | .error .undefined => .error .undefined

/-- One call: the registry after it and the entity it returns, if it returns one. -/
def Registry.exec {V : Type} [Inhabited V] (r : Registry V) :
    Op V → Except (Fault (Registry V)) (Registry V × Option Entity)
  | .createEntity =>
    match r.CreateEntity with
    | .error f => .error f
    | .ok (entity, r1) => .ok (r1, some entity)
  | .addComponent componentId entity value =>
    (r.AddComponent componentId entity value).map (fun r1 => (r1, none))
  | .removeComponent componentId entity =>
    (r.RemoveComponent componentId entity).map (fun r1 => (r1, none))
  | .addSystem key newSystem => .ok (r.AddSystem key newSystem, none)
  | .removeSystem key => (r.RemoveSystem key).map (fun r1 => (r1, none))
  | .addEntityToSystems entity => (r.AddEntityToSystems entity).map (fun r1 => (r1, none))
  | .update => r.Update.map (fun r1 => (r1, none))
  | .systemAddEntity key entity => (r.systemAddEntity key entity).map (fun r1 => (r1, none))
  | .systemRemoveEntity key entity =>
    (r.systemRemoveEntity key entity).map (fun r1 => (r1, none))
  | .systemRequireComponent key componentId =>
    (r.systemRequireComponent key componentId).map (fun r1 => (r1, none))

/-- A sequence of calls, the caller catching the bitset exception and going on: the final
registry and the entities returned by the `CreateEntity` calls, in call order. `none`
when a call has undefined behaviour. -/
def Registry.run {V : Type} [Inhabited V] (r : Registry V) :
    List (Op V) → Option (Registry V × List Entity)
  | [] => some (r, [])
  | op :: ops =>
    match r.exec op with
    | .ok (r1, ret) =>
      match r1.run ops with
      | some (r2, created) => some (r2, ret.toList ++ created)
      | none => none
    | .error (.outOfRange r1) => r1.run ops
    | .error .undefined => none

/-- The registry states a program can reach from a default-constructed registry. -/
inductive Reachable {V : Type} [Inhabited V] : Registry V → Prop where
  | new : Reachable Registry.new
  | step (r r1 : Registry V) (op : Op V) (ret : Option Entity) :
      Reachable r → r.exec op = .ok (r1, ret) → Reachable r1
  | caught (r r1 : Registry V) (op : Op V) :
      Reachable r → r.exec op = .error (.outOfRange r1) → Reachable r1

/-- The entity handles a registry has returned: the ids `0 .. numEntities - 1`. -/
def Registry.created {V : Type} (r : Registry V) (e : Entity) : Prop :=
  0 ≤ e.id ∧ e.id < r.numEntities

instance {V : Type} (r : Registry V) (e : Entity) : Decidable (r.created e) := by
  unfold Registry.created; infer_instance

/-- What holds of every reachable registry: one signature per created entity, the
counter within `int`, and the pending set in ascending order and made of created
entities. -/
structure Registry.Inv {V : Type} (r : Registry V) : Prop where
  signatures : r.entityComponentSignatures.length = r.numEntities
  counter : r.numEntities ≤ INT_MAX
  pendingSorted : r.entitiesToBeAdded.Pairwise (fun a b => a.id < b.id)
  pendingCreated : ∀ e ∈ r.entitiesToBeAdded, r.created e


/-! ## Component type ids -/

/-- The static data behind `Component<T>::GetId`: the counter `IComponent::nextId` and,
for each component type whose function-local static `id` is initialised, that `id`, in
the order of initialisation. A component type is given by a number. -/
structure ComponentIds where
  nextId : Nat
  ids : List (Nat × Nat)
  deriving DecidableEq

/-- The static data at program start: `int IComponent::nextId = 0;` and no `id`
initialised. -/
def ComponentIds.start : ComponentIds := ⟨0, []⟩

/-- The function-local static `id` of `Component<T>::GetId`, if it is initialised. -/
def findId (ids : List (Nat × Nat)) (T : Nat) : Option Nat :=
  match ids with
  | [] => none
  | (t, id) :: rest => if t = T then some id else findId rest T

/-- The member `Component<T>::GetId`: `static auto id = nextId++; return id;`. The
initialiser runs on the first call for `T` only; incrementing `nextId` at `INT_MAX` is a
signed overflow (`none`). -/
def Component.GetId (s : ComponentIds) (T : Nat) : Option (Nat × ComponentIds) :=
  match findId s.ids T with
  | some id => some (id, s)
  | none =>
    if s.nextId < INT_MAX then
      some (s.nextId, ⟨s.nextId + 1, s.ids ++ [(T, s.nextId)]⟩)
    else none

/-- A sequence of `Component<T>::GetId` calls, for the types of the list in order: the
ids returned and the static data after the calls. -/
def Component.GetIds (s : ComponentIds) : List Nat → Option (List Nat × ComponentIds)
  | [] => some ([], s)
  | T :: rest =>
    match Component.GetId s T with
    | none => none
    | some (id, s1) =>
      match Component.GetIds s1 rest with
      | none => none
      | some (ids, s2) => some (id :: ids, s2)

/-! ## Vocabulary of the statements -/

/-- Every bit set in `required` is also set in `signature`. -/
def Signature.contains (signature required : Signature) : Prop :=
  ∀ c, c < MAX_COMPONENTS → required.test c = some true → signature.test c = some true

/-- The entities of `pending`, in their order, whose signature in the table `signatures`
passes the interest test against the required signature `required`. -/
def interestedPending (signatures : List Signature) (required : Signature)
    (pending : List Entity) : List Entity :=
  pending.filter (fun e =>
    match vectorAt signatures e.GetId with
    | some signature => isInterested signature required
    | none => false)

/-- The map entry of a system after the entities `added` were appended to its list. -/
def withAdded (added : List Entity) (entry : Nat × System) : Nat × System :=
  (entry.1, { entry.2 with entities := entry.2.entities ++ added })

/-- Whether the call is a call of `CreateEntity`. -/
def Op.isCreateEntity {V : Type} : Op V → Bool
  | .createEntity => true
  | _ => false

/-- The pool of the component type with id `componentId`, if the registry has one: the
slot of `componentPools` is in range and not null. -/
def Registry.poolOf {V : Type} (r : Registry V) (componentId : Nat) : Option (Pool V) :=
  r.componentPools[componentId]?.join

/-- The vector `componentPools` after the first `if` of `AddComponent<T>`. -/
def Registry.poolsFor {V : Type} (r : Registry V) (componentId : Nat) :
    List (Option (Pool V)) :=
  if componentId ≥ r.componentPools.length then
    vectorResize r.componentPools (componentId + 1) none
  else r.componentPools

/-- The pool `componentPool` of `AddComponent<T>` after the second `if`: the pool of the
type, a new one of 100 slots when the slot of `componentPools` is null. -/
def Registry.poolFor {V : Type} [Inhabited V] (r : Registry V) (componentId : Nat) : Pool V :=
  match (r.poolsFor componentId)[componentId]? with
  | some (some p) => p
  | _ => Pool.new 100

/-- The pool `componentPool` of `AddComponent<T>` after the third `if`, the conditional
`Resize(numEntities)`. -/
def Registry.grownPool {V : Type} [Inhabited V] (r : Registry V) (componentId : Nat)
    (entity : Entity) : Pool V :=
  if entity.GetId ≥ ((r.poolFor componentId).GetSize : Int) then
    (r.poolFor componentId).Resize r.numEntities
  else r.poolFor componentId

/-- Every pool of the registry has at least the 100 slots of a new pool. -/
def Registry.PoolsInv {V : Type} (r : Registry V) : Prop :=
  ∀ c p, r.poolOf c = some p → 100 ≤ p.data.length

/-- No pool of `r` is missing or shorter in `r1`. -/
def Registry.poolsGrow {V : Type} (r r1 : Registry V) : Prop :=
  ∀ c p, r.poolOf c = some p → ∃ p1, r1.poolOf c = some p1 ∧ p.data.length ≤ p1.data.length

/-- Whether the call is one of `CreateEntity`, `AddComponent`, `RemoveComponent`,
`AddSystem`, `RemoveSystem` and `Update`, with any arguments. -/
def Op.isRegistryCall {V : Type} : Op V → Bool
  | .createEntity => true
  | .addComponent _ _ _ => true
  | .removeComponent _ _ => true
  | .addSystem _ _ => true
  | .removeSystem _ => true
  | .update => true
  | _ => false

/-- The calls other than a direct `AddEntityToSystems` or `System::AddEntity`, with one
more condition: the system handed to `AddSystem` has an empty list of entities (it is
not a copy of a system that already lists entities). -/
def Op.isCore {V : Type} : Op V → Prop
  | .createEntity => True
  | .addComponent _ _ _ => True
  | .removeComponent _ _ => True
  | .addSystem _ newSystem => newSystem.GetEntities = []
  | .removeSystem _ => True
  | .update => True
  | .addEntityToSystems _ => False
  | .systemAddEntity _ _ => False
  | .systemRemoveEntity _ _ => True
  | .systemRequireComponent _ _ => True

instance {V : Type} (op : Op V) : Decidable op.isCore := by
  cases op <;> unfold Op.isCore <;> infer_instance

/-- The registry states reachable from a default-constructed registry without a direct
call of `AddEntityToSystems` or `System::AddEntity`. -/
inductive CoreReachable {V : Type} [Inhabited V] : Registry V → Prop where
  | new : CoreReachable Registry.new
  | step (r r1 : Registry V) (op : Op V) (ret : Option Entity) :
      CoreReachable r → op.isCore → r.exec op = .ok (r1, ret) → CoreReachable r1
  | caught (r r1 : Registry V) (op : Op V) :
      CoreReachable r → op.isCore → r.exec op = .error (.outOfRange r1) → CoreReachable r1

/-- The list of every system is in ascending id order and made of created entities that
are no longer pending: their ids are below the ids of the pending entities. -/
def Registry.MembersInv {V : Type} (r : Registry V) : Prop :=
  ∀ entry ∈ r.systems,
    entry.2.entities.Pairwise (fun a b => a.id < b.id) ∧
    ∀ x ∈ entry.2.entities, r.created x ∧ ∀ p ∈ r.entitiesToBeAdded, x.id < p.id

/-- The ids handed out so far are 0, 1, .. in the order of first use, one per type, and
`nextId` is their number. -/
structure ComponentIds.Inv (s : ComponentIds) : Prop where
  values : s.ids.map Prod.snd = List.range s.nextId
  types : (s.ids.map Prod.fst).Nodup

/-! ## Sample programs -/

/-- A system requiring the component types of the given ids: a default-constructed
system after `RequireComponent` for each id that is in range. -/
def systemRequiring (componentIds : List Nat) : System :=
  componentIds.foldl (fun s componentId =>
    match s.RequireComponent componentId with
    | .ok s1 => s1
    | .error _ => s) System.new

/-- The registry a sequence of calls on a default-constructed registry leads to (the
default-constructed registry itself when the sequence has undefined behaviour). -/
def registryAfter (ops : List (Op Nat)) : Registry Nat :=
  match (Registry.new : Registry Nat).run ops with
  | some (r, _) => r
  | none => Registry.new

/-- The calls of `Game::Setup` but the last: the tank gets a `TransformComponent` (type
id 0) and a `RigidbodyComponent` (type id 1). -/
def tankSetup : List (Op Nat) :=
  [.createEntity, .addComponent 0 ⟨0⟩ 10, .addComponent 1 ⟨0⟩ 50]

/-- One entity more than a new pool has slots, the first of them with a component of
type id 0. -/
def crowd : List (Op Nat) :=
  List.replicate 101 .createEntity ++ [.addComponent 0 ⟨0⟩ 7]

/-- Two updates with entities created before each, and systems registered before and
between them. -/
def twoUpdates : List (Op Nat) :=
  [.addSystem 7 (systemRequiring [0]), .createEntity, .createEntity,
    .addComponent 0 ⟨0⟩ 10, .addComponent 0 ⟨1⟩ 11, .update,
    .addSystem 8 (systemRequiring []), .createEntity, .addComponent 0 ⟨2⟩ 12,
    .removeComponent 0 ⟨0⟩, .update, .update]

/-- The tank of `Game::Setup` with two systems registered: one requiring the types 0 and
1 that the tank has, one requiring type 2 that it lacks. -/
def tankAndSystems : List (Op Nat) :=
  tankSetup ++ [.addSystem 7 (systemRequiring [0, 1]), .addSystem 8 (systemRequiring [2])]

/-- A system registered as a copy of a system that lists entity 0, as
`AddSystem<S>(other.GetSystem<S>())` does through the copy constructor, then an entity
created and `Update`. -/
def copiedSystem : List (Op Nat) :=
  [.addSystem 7 ⟨Signature.zero, [⟨0⟩]⟩, .createEntity, .update]

/-- Three entities created between other calls. -/
def threeEntities : List (Op Nat) :=
  [.createEntity, .addComponent 0 ⟨0⟩ 5, .createEntity, .update, .removeComponent 0 ⟨0⟩,
    .createEntity]


/-! ## Lemmas on signatures -/

theorem Signature.ext_bits {a b : Signature} (h : a.bits = b.bits) : a = b := by
  cases a; cases b; simp at h; subst h; rfl

theorem Signature.set_isSome (s : Signature) (pos : Nat) (val : Bool)
    (h : pos < MAX_COMPONENTS) : ∃ s1, s.set pos val = some s1 := by
  unfold Signature.set
  rw [dif_pos h]
  cases val <;> simp

theorem Signature.testBit_set {s s1 : Signature} {pos : Nat} {val : Bool}
    (h : s.set pos val = some s1) (j : Nat) :
    s1.bits.testBit j = if j = pos then val else s.bits.testBit j := by
  unfold Signature.set at h
  split at h
  · cases val
    · simp at h
      subst h
      simp only [Nat.testBit_xor, Nat.testBit_and, Nat.testBit_two_pow]
      by_cases hj : j = pos
      · subst hj; simp
      · have : ¬ pos = j := fun e => hj e.symm
        simp [hj, this]
    · simp at h
      subst h
      simp only [Nat.testBit_or, Nat.testBit_two_pow]
      by_cases hj : j = pos
      · subst hj; simp
      · have : ¬ pos = j := fun e => hj e.symm
        simp [hj, this]
  · simp at h

theorem Signature.set_lt {s s1 : Signature} {pos : Nat} {val : Bool}
    (h : s.set pos val = some s1) : pos < MAX_COMPONENTS := by
  unfold Signature.set at h
  split at h
  · assumption
  · simp at h

theorem Signature.set_eq_none {s : Signature} {pos : Nat} {val : Bool} :
    s.set pos val = none ↔ MAX_COMPONENTS ≤ pos := by
  unfold Signature.set
  split
  · cases val <;> simp <;> omega
  · simp; omega

theorem Signature.zero_testBit (j : Nat) : Signature.zero.bits.testBit j = false := by
  simp [Signature.zero]

theorem Signature.testBit_of_ge (s : Signature) {j : Nat} (h : MAX_COMPONENTS ≤ j) :
    s.bits.testBit j = false :=
  Nat.testBit_lt_two_pow (lt_of_lt_of_le s.width (Nat.pow_le_pow_right (by decide) h))

/-- The interest test is containment of the required bits. -/
theorem isInterested_iff (e req : Signature) :
    isInterested e req = true ↔ e.contains req := by
  unfold isInterested Signature.contains Signature.test
  rw [decide_eq_true_iff]
  constructor
  · intro h i hi
    simp only [hi, if_true, Option.some.injEq]
    intro hr
    have : (e.and req).bits.testBit i = true := by rw [h]; exact hr
    simp only [Signature.and, Nat.testBit_and, Bool.and_eq_true] at this
    exact this.1
  · intro h
    apply Signature.ext_bits
    apply Nat.eq_of_testBit_eq
    intro i
    simp only [Signature.and, Nat.testBit_and]
    by_cases hi : i < MAX_COMPONENTS
    · have := h i hi
      simp only [hi, if_true, Option.some.injEq] at this
      cases hr : req.bits.testBit i
      · simp
      · simp [this hr]
    · rw [Signature.testBit_of_ge req (not_lt.mp hi)]; simp


/-! ## Lemmas on vectors and sets -/

theorem vectorResize_length {α : Type} (v : List α) (n : Nat) (fill : α) :
    (vectorResize v n fill).length = n := by
  simp [vectorResize, List.length_take]
  omega

theorem vectorResize_of_le {α : Type} (v : List α) (n : Nat) (fill : α) (h : v.length ≤ n) :
    vectorResize v n fill = v ++ List.replicate (n - v.length) fill := by
  simp [vectorResize, List.take_of_length_le h]

theorem vectorResize_getElem?_old {α : Type} (v : List α) (n : Nat) (fill : α) (i : Nat)
    (h : v.length ≤ n) (hi : i < v.length) : (vectorResize v n fill)[i]? = v[i]? := by
  rw [vectorResize_of_le v n fill h, List.getElem?_append_left hi]

theorem vectorResize_getElem?_new {α : Type} (v : List α) (n : Nat) (fill : α) (i : Nat)
    (hi : v.length ≤ i) (hn : i < n) : (vectorResize v n fill)[i]? = some fill := by
  rw [vectorResize_of_le v n fill (by omega), List.getElem?_append_right hi,
    List.getElem?_replicate, if_pos (by omega)]

theorem vectorAt_natCast {α : Type} (v : List α) (n : Nat) : vectorAt v (n : Int) = v[n]? := by
  simp [vectorAt]

theorem vectorAt_eq_some {α : Type} {v : List α} {i : Int} {a : α} (h : vectorAt v i = some a) :
    0 ≤ i ∧ i.toNat < v.length ∧ v[i.toNat]? = some a := by
  unfold vectorAt at h
  split at h
  · rename_i h0
    refine ⟨h0, ?_, h⟩
    exact (List.getElem?_eq_some_iff.mp h).1
  · simp at h

theorem Entity.ext_id {a b : Entity} (h : a.id = b.id) : a = b := by
  cases a; cases b; simp at h; subst h; rfl

theorem mem_setInsert_self (e : Entity) (l : List Entity) : e ∈ setInsert e l := by
  induction l with
  | nil => simp [setInsert]
  | cons x xs ih =>
    unfold setInsert
    split
    · simp
    · split
      · simp [ih]
      · rename_i h1 h2
        simp only [Entity.lt, decide_eq_true_eq, not_lt] at h1 h2
        have : e = x := Entity.ext_id (le_antisymm h2 h1)
        simp [this]

theorem setInsert_of_gt (e : Entity) (l : List Entity) (h : ∀ x ∈ l, x.id < e.id) :
    setInsert e l = l ++ [e] := by
  induction l with
  | nil => simp [setInsert]
  | cons x xs ih =>
    have hx : x.id < e.id := h x (by simp)
    have hxs : ∀ y ∈ xs, y.id < e.id := fun y hy => h y (by simp [hy])
    unfold setInsert
    rw [if_neg (by simp [Entity.lt]; omega), if_pos (by simp [Entity.lt, hx]), ih hxs]
    rfl


/-! ## Lemmas on the member functions -/

theorem CreateEntity_ok {V : Type} {r r1 : Registry V} {e : Entity}
    (h : r.CreateEntity = .ok (e, r1)) :
    r.numEntities < INT_MAX ∧ e = ⟨r.numEntities⟩ ∧ r1.numEntities = r.numEntities + 1 ∧
      r1.systems = r.systems ∧ r1.componentPools = r.componentPools ∧
      r1.entitiesToBeAdded = setInsert e r.entitiesToBeAdded := by
  unfold Registry.CreateEntity at h
  split at h
  · rename_i hlt
    simp only [Except.ok.injEq, Prod.mk.injEq] at h
    obtain ⟨he, hr⟩ := h
    subst he; subst hr
    exact ⟨hlt, rfl, rfl, rfl, rfl, rfl⟩
  · simp at h

theorem CreateEntity_of_inv {V : Type} (r : Registry V) (hinv : r.Inv)
    (hlt : r.numEntities < INT_MAX) :
    r.CreateEntity = .ok (⟨r.numEntities⟩,
      { r with
        numEntities := r.numEntities + 1
        entityComponentSignatures := r.entityComponentSignatures ++ [Signature.zero]
        entitiesToBeAdded := r.entitiesToBeAdded ++ [⟨r.numEntities⟩] }) := by
  unfold Registry.CreateEntity
  rw [if_pos hlt]
  have h1 : r.numEntities ≥ r.entityComponentSignatures.length := by
    rw [hinv.signatures]
  have h2 : setInsert ⟨r.numEntities⟩ r.entitiesToBeAdded
      = r.entitiesToBeAdded ++ [⟨r.numEntities⟩] := by
    apply setInsert_of_gt
    intro x hx
    exact (hinv.pendingCreated x hx).2
  simp only [if_pos h1, h2]
  rw [vectorResize_of_le _ _ _ (by omega)]
  simp [hinv.signatures]

theorem CreateEntity_not_caught {V : Type} {r r1 : Registry V}
    (h : r.CreateEntity = .error (.outOfRange r1)) : False := by
  unfold Registry.CreateEntity at h
  split at h <;> simp at h

theorem AddComponent_ok {V : Type} [Inhabited V] {r r1 : Registry V} {c : Nat} {e : Entity}
    {v : V} (h : r.AddComponent c e v = .ok r1) :
    r1.numEntities = r.numEntities ∧ r1.entitiesToBeAdded = r.entitiesToBeAdded ∧
      r1.entitiesToBeKilled = r.entitiesToBeKilled ∧ r1.systems = r.systems ∧
      r1.entityComponentSignatures.length = r.entityComponentSignatures.length := by
  unfold Registry.AddComponent at h
  simp only at h
  split at h
  · simp at h
  · split at h
    · simp at h
    · split at h
      · simp at h
      · simp only [Except.ok.injEq] at h
        subst h
        simp

theorem AddComponent_caught {V : Type} [Inhabited V] {r r1 : Registry V} {c : Nat}
    {e : Entity} {v : V} (h : r.AddComponent c e v = .error (.outOfRange r1)) :
    r1.numEntities = r.numEntities ∧ r1.entitiesToBeAdded = r.entitiesToBeAdded ∧
      r1.entitiesToBeKilled = r.entitiesToBeKilled ∧ r1.systems = r.systems ∧
      r1.entityComponentSignatures = r.entityComponentSignatures := by
  unfold Registry.AddComponent at h
  simp only at h
  split at h
  · simp at h
  · split at h
    · simp at h
    · split at h
      · simp only [Except.error.injEq, Fault.outOfRange.injEq] at h
        subst h
        simp
      · simp at h

theorem RemoveComponent_ok {V : Type} {r r1 : Registry V} {c : Nat} {e : Entity}
    (h : r.RemoveComponent c e = .ok r1) :
    r1.numEntities = r.numEntities ∧ r1.entitiesToBeAdded = r.entitiesToBeAdded ∧
      r1.entitiesToBeKilled = r.entitiesToBeKilled ∧ r1.systems = r.systems ∧
      r1.componentPools = r.componentPools ∧
      r1.entityComponentSignatures.length = r.entityComponentSignatures.length := by
  unfold Registry.RemoveComponent at h
  simp only at h
  split at h
  · simp at h
  · split at h
    · simp at h
    · simp only [Except.ok.injEq] at h
      subst h
      simp

theorem RemoveComponent_caught {V : Type} {r r1 : Registry V} {c : Nat} {e : Entity}
    (h : r.RemoveComponent c e = .error (.outOfRange r1)) : r1 = r := by
  unfold Registry.RemoveComponent at h
  simp only at h
  split at h
  · simp at h
  · split at h
    · simp only [Except.error.injEq, Fault.outOfRange.injEq] at h
      exact h.symm
    · simp at h

theorem AddEntityToSystems_ok {V : Type} {r r1 : Registry V} {e : Entity}
    (h : r.AddEntityToSystems e = .ok r1) :
    ∃ sig, vectorAt r.entityComponentSignatures e.id = some sig ∧
      r1 = { r with systems := r.systems.map (visitSystem sig e) } := by
  unfold Registry.AddEntityToSystems at h
  simp only at h
  split at h
  · simp at h
  · rename_i sig hsig
    simp only [Except.ok.injEq] at h
    exact ⟨sig, hsig, h.symm⟩

theorem AddEntityToSystems_not_caught {V : Type} {r r1 : Registry V} {e : Entity}
    (h : r.AddEntityToSystems e = .error (.outOfRange r1)) : False := by
  unfold Registry.AddEntityToSystems at h
  simp only at h
  split at h <;> simp at h



theorem visitSystem_eq (sig : Signature) (e : Entity) (entry : Nat × System) :
    visitSystem sig e entry =
      withAdded (if isInterested sig entry.2.componentSignature then [e] else []) entry := by
  unfold visitSystem withAdded System.GetComponentSignature System.AddEntity
  split <;> simp

theorem withAdded_nil (entry : Nat × System) : withAdded [] entry = entry := by
  simp [withAdded]

theorem withAdded_withAdded (a b : List Entity) (entry : Nat × System) :
    withAdded b (withAdded a entry) = withAdded (a ++ b) entry := by
  simp [withAdded]

theorem addPending_ok {V : Type} (pending : List Entity) :
    ∀ r : Registry V, (∀ e ∈ pending, (vectorAt r.entityComponentSignatures e.id).isSome) →
      r.addPending pending = .ok
        { r with
          systems := r.systems.map (fun entry =>
            withAdded (interestedPending r.entityComponentSignatures
              entry.2.componentSignature pending) entry) } := by
  induction pending with
  | nil =>
    intro r _
    simp [Registry.addPending, interestedPending, withAdded_nil]
  | cons e rest ih =>
    intro r h
    have he := h e (by simp)
    obtain ⟨sig, hsig⟩ := Option.isSome_iff_exists.mp he
    have hstep : r.AddEntityToSystems e
        = .ok { r with systems := r.systems.map (visitSystem sig e) } := by
      simp [Registry.AddEntityToSystems, Entity.GetId, hsig]
    unfold Registry.addPending
    rw [hstep]
    simp only
    refine (ih { r with systems := r.systems.map (visitSystem sig e) }
      (fun x hx => h x (by simp [hx]))).trans ?_
    simp only [List.map_map]
    congr 2
    apply List.map_congr_left
    intro entry _
    simp only [Function.comp, visitSystem_eq, withAdded_withAdded]
    congr 1
    simp only [withAdded, interestedPending, List.filter_cons, Entity.GetId, hsig]
    split <;> simp

theorem addPending_error {V : Type} (pending : List Entity) :
    ∀ (r : Registry V) (f : Fault (Registry V)), r.addPending pending = .error f →
      f = .undefined ∧ ∃ e ∈ pending, vectorAt r.entityComponentSignatures e.id = none := by
  induction pending with
  | nil => intro r f h; simp [Registry.addPending] at h
  | cons e rest ih =>
    intro r f h
    unfold Registry.addPending at h
    split at h
    · rename_i f1 hf
      simp only [Except.error.injEq] at h
      subst h
      unfold Registry.AddEntityToSystems at hf
      simp only at hf
      split at hf
      · rename_i hnone
        simp only [Except.error.injEq] at hf
        exact ⟨hf.symm, e, by simp, hnone⟩
      · simp at hf
    · rename_i r1 hr1
      obtain ⟨sig, _, hr⟩ := AddEntityToSystems_ok hr1
      obtain ⟨hf, x, hx, hnone⟩ := ih r1 f h
      subst hr
      exact ⟨hf, x, by simp [hx], hnone⟩

theorem addPending_not_ok {V : Type} (pending : List Entity) :
    ∀ (r : Registry V) (e : Entity), e ∈ pending →
      vectorAt r.entityComponentSignatures e.id = none →
      ∀ r1, r.addPending pending ≠ .ok r1 := by
  induction pending with
  | nil => intro r e he; simp at he
  | cons x rest ih =>
    intro r e he hnone r1 h
    unfold Registry.addPending at h
    split at h
    · simp at h
    · rename_i r2 hr2
      obtain ⟨sig, hsig, hr⟩ := AddEntityToSystems_ok hr2
      rcases List.mem_cons.mp he with hx | hx
      · subst hx
        rw [hnone] at hsig
        simp at hsig
      · subst hr
        exact ih { r with systems := r.systems.map (visitSystem sig x) } e hx hnone r1 h

theorem Update_of_signatures {V : Type} (r : Registry V)
    (h : ∀ e ∈ r.entitiesToBeAdded, (vectorAt r.entityComponentSignatures e.id).isSome) :
    r.Update = .ok
      { r with
        entitiesToBeAdded := []
        systems := r.systems.map (fun entry =>
          withAdded (interestedPending r.entityComponentSignatures
            entry.2.componentSignature r.entitiesToBeAdded) entry) } := by
  unfold Registry.Update
  rw [addPending_ok _ r h]

theorem Update_ok {V : Type} {r r1 : Registry V} (h : r.Update = .ok r1) :
    r1 = { r with
        entitiesToBeAdded := []
        systems := r.systems.map (fun entry =>
          withAdded (interestedPending r.entityComponentSignatures
            entry.2.componentSignature r.entitiesToBeAdded) entry) } := by
  by_cases hs : ∀ e ∈ r.entitiesToBeAdded, (vectorAt r.entityComponentSignatures e.id).isSome
  · rw [Update_of_signatures r hs] at h
    simp only [Except.ok.injEq] at h
    exact h.symm
  · exfalso
    push_neg at hs
    obtain ⟨e, he, hnone⟩ := hs
    have hnone : vectorAt r.entityComponentSignatures e.id = none := by
      cases hv : vectorAt r.entityComponentSignatures e.id with
      | none => rfl
      | some a => rw [hv] at hnone; simp at hnone
    unfold Registry.Update at h
    split at h
    · simp at h
    · rename_i r2 hr2
      exact absurd hr2 (addPending_not_ok _ r e he hnone r2)

theorem Update_not_caught {V : Type} {r r1 : Registry V}
    (h : r.Update = .error (.outOfRange r1)) : False := by
  unfold Registry.Update at h
  split at h
  · rename_i f hf
    have := (addPending_error _ r f hf).1
    subst this
    simp at h
  · simp at h



theorem RemoveSystem_ok {V : Type} {r r1 : Registry V} {key : Nat}
    (h : r.RemoveSystem key = .ok r1) :
    r1 = { r with systems := r.systems.filter (fun p => !(decide (p.1 = key))) } := by
  unfold Registry.RemoveSystem at h
  split at h
  · simp at h
  · simp only [Except.ok.injEq] at h
    exact h.symm

theorem RemoveSystem_not_caught {V : Type} {r r1 : Registry V} {key : Nat}
    (h : r.RemoveSystem key = .error (.outOfRange r1)) : False := by
  unfold Registry.RemoveSystem at h
  split at h <;> simp at h

theorem GetSystem_not_caught {V : Type} {r r1 : Registry V} {key : Nat}
    (h : r.GetSystem key = .error (.outOfRange r1)) : False := by
  unfold Registry.GetSystem at h
  split at h <;> simp at h

theorem systemAddEntity_ok {V : Type} {r r1 : Registry V} {key : Nat} {e : Entity}
    (h : r.systemAddEntity key e = .ok r1) : ∃ systems, r1 = { r with systems := systems } := by
  unfold Registry.systemAddEntity at h
  split at h
  · simp at h
  · simp only [Except.ok.injEq] at h
    exact ⟨_, h.symm⟩

theorem systemAddEntity_not_caught {V : Type} {r r1 : Registry V} {key : Nat} {e : Entity}
    (h : r.systemAddEntity key e = .error (.outOfRange r1)) : False := by
  unfold Registry.systemAddEntity at h
  split at h
  · rename_i f hf
    simp only [Except.error.injEq] at h
    subst h
    exact GetSystem_not_caught hf
  · simp at h

theorem systemRemoveEntity_ok {V : Type} {r r1 : Registry V} {key : Nat} {e : Entity}
    (h : r.systemRemoveEntity key e = .ok r1) :
    ∃ systems, r1 = { r with systems := systems } := by
  unfold Registry.systemRemoveEntity at h
  split at h
  · simp at h
  · simp only [Except.ok.injEq] at h
    exact ⟨_, h.symm⟩

theorem systemRemoveEntity_not_caught {V : Type} {r r1 : Registry V} {key : Nat}
    {e : Entity} (h : r.systemRemoveEntity key e = .error (.outOfRange r1)) : False := by
  unfold Registry.systemRemoveEntity at h
  split at h
  · rename_i f hf
    simp only [Except.error.injEq] at h
    subst h
    exact GetSystem_not_caught hf
  · simp at h

theorem systemRequireComponent_ok {V : Type} {r r1 : Registry V} {key c : Nat}
    (h : r.systemRequireComponent key c = .ok r1) :
    ∃ systems, r1 = { r with systems := systems } := by
  unfold Registry.systemRequireComponent at h
  split at h
  · simp at h
  · split at h
    · simp only [Except.ok.injEq] at h
      exact ⟨_, h.symm⟩
    · simp at h
    · simp at h

theorem systemRequireComponent_caught {V : Type} {r r1 : Registry V} {key c : Nat}
    (h : r.systemRequireComponent key c = .error (.outOfRange r1)) : r1 = r := by
  unfold Registry.systemRequireComponent at h
  split at h
  · rename_i f hf
    simp only [Except.error.injEq] at h
    subst h
    exact (GetSystem_not_caught hf).elim
  · split at h
    · simp at h
    · simp only [Except.error.injEq, Fault.outOfRange.injEq] at h
      exact h.symm
    · simp at h

theorem AddSystem_eq {V : Type} (r : Registry V) (key : Nat) (s : System) :
    ∃ systems, r.AddSystem key s = { r with systems := systems } := by
  unfold Registry.AddSystem
  split
  · exact ⟨r.systems, rfl⟩
  · exact ⟨_, rfl⟩

theorem Except.map_eq_ok {ε α β : Type} {f : α → β} {x : Except ε α} {b : β}
    (h : x.map f = .ok b) : ∃ a, x = .ok a ∧ f a = b := by
  cases x with
  | error e => simp [Except.map] at h
  | ok a => simp only [Except.map, Except.ok.injEq] at h; exact ⟨a, rfl, h⟩

theorem Except.map_eq_error {ε α β : Type} {f : α → β} {x : Except ε α} {e : ε}
    (h : x.map f = .error e) : x = .error e := by
  cases x with
  | error e1 => simp only [Except.map, Except.error.injEq] at h; rw [h]
  | ok a => simp [Except.map] at h

/-- What a call that is not `CreateEntity` or `Update` leaves alone. -/
theorem exec_ok {V : Type} [Inhabited V] {r r1 : Registry V} {op : Op V}
    {ret : Option Entity} (h : r.exec op = .ok (r1, ret)) :
    (op = .createEntity ∧ ∃ e, ret = some e ∧ r.CreateEntity = .ok (e, r1)) ∨
    (op = .update ∧ ret = none ∧ r.Update = .ok r1) ∨
    (op.isCreateEntity = false ∧ ret = none ∧ r1.numEntities = r.numEntities ∧
      r1.entitiesToBeAdded = r.entitiesToBeAdded ∧
      r1.entityComponentSignatures.length = r.entityComponentSignatures.length) := by
  cases op with
  | createEntity =>
    left
    simp only [Registry.exec] at h
    split at h
    · simp at h
    · rename_i e r2 hc
      simp only [Except.ok.injEq, Prod.mk.injEq] at h
      obtain ⟨h1, h2⟩ := h
      subst h1; subst h2
      exact ⟨rfl, e, rfl, hc⟩
  | update =>
    right; left
    obtain ⟨a, ha, hf⟩ := Except.map_eq_ok h
    simp only [Prod.mk.injEq] at hf
    obtain ⟨h1, h2⟩ := hf
    subst h1; subst h2
    exact ⟨rfl, rfl, ha⟩
  | addComponent c e v =>
    right; right
    obtain ⟨a, ha, hf⟩ := Except.map_eq_ok h
    simp only [Prod.mk.injEq] at hf
    obtain ⟨h1, h2⟩ := hf
    subst h1; subst h2
    obtain ⟨q1, q2, -, -, q5⟩ := AddComponent_ok ha
    exact ⟨rfl, rfl, q1, q2, q5⟩
  | removeComponent c e =>
    right; right
    obtain ⟨a, ha, hf⟩ := Except.map_eq_ok h
    simp only [Prod.mk.injEq] at hf
    obtain ⟨h1, h2⟩ := hf
    subst h1; subst h2
    obtain ⟨q1, q2, -, -, -, q5⟩ := RemoveComponent_ok ha
    exact ⟨rfl, rfl, q1, q2, q5⟩
  | addSystem key s =>
    right; right
    simp only [Registry.exec, Except.ok.injEq, Prod.mk.injEq] at h
    obtain ⟨h1, h2⟩ := h
    subst h1; subst h2
    obtain ⟨systems, hs⟩ := AddSystem_eq r key s
    rw [hs]
    exact ⟨rfl, rfl, rfl, rfl, rfl⟩
  | removeSystem key =>
    right; right
    obtain ⟨a, ha, hf⟩ := Except.map_eq_ok h
    simp only [Prod.mk.injEq] at hf
    obtain ⟨h1, h2⟩ := hf
    subst h1; subst h2
    rw [RemoveSystem_ok ha]
    exact ⟨rfl, rfl, rfl, rfl, rfl⟩
  | addEntityToSystems e =>
    right; right
    obtain ⟨a, ha, hf⟩ := Except.map_eq_ok h
    simp only [Prod.mk.injEq] at hf
    obtain ⟨h1, h2⟩ := hf
    subst h1; subst h2
    obtain ⟨sig, -, hr⟩ := AddEntityToSystems_ok ha
    rw [hr]
    exact ⟨rfl, rfl, rfl, rfl, rfl⟩
  | systemAddEntity key e =>
    right; right
    obtain ⟨a, ha, hf⟩ := Except.map_eq_ok h
    simp only [Prod.mk.injEq] at hf
    obtain ⟨h1, h2⟩ := hf
    subst h1; subst h2
    obtain ⟨systems, hr⟩ := systemAddEntity_ok ha
    rw [hr]
    exact ⟨rfl, rfl, rfl, rfl, rfl⟩
  | systemRemoveEntity key e =>
    right; right
    obtain ⟨a, ha, hf⟩ := Except.map_eq_ok h
    simp only [Prod.mk.injEq] at hf
    obtain ⟨h1, h2⟩ := hf
    subst h1; subst h2
    obtain ⟨systems, hr⟩ := systemRemoveEntity_ok ha
    rw [hr]
    exact ⟨rfl, rfl, rfl, rfl, rfl⟩
  | systemRequireComponent key c =>
    right; right
    obtain ⟨a, ha, hf⟩ := Except.map_eq_ok h
    simp only [Prod.mk.injEq] at hf
    obtain ⟨h1, h2⟩ := hf
    subst h1; subst h2
    obtain ⟨systems, hr⟩ := systemRequireComponent_ok ha
    rw [hr]
    exact ⟨rfl, rfl, rfl, rfl, rfl⟩

/-- What a call that throws leaves alone. -/
theorem exec_caught {V : Type} [Inhabited V] {r r1 : Registry V} {op : Op V}
    (h : r.exec op = .error (.outOfRange r1)) :
    op.isCreateEntity = false ∧ r1.numEntities = r.numEntities ∧
      r1.entitiesToBeAdded = r.entitiesToBeAdded ∧
      r1.entityComponentSignatures = r.entityComponentSignatures ∧
      r1.systems = r.systems := by
  cases op with
  | createEntity =>
    simp only [Registry.exec] at h
    split at h
    · rename_i f hf
      simp only [Except.error.injEq] at h
      subst h
      exact (CreateEntity_not_caught hf).elim
    · simp at h
  | update => exact (Update_not_caught (Except.map_eq_error h)).elim
  | addComponent c e v =>
    obtain ⟨q1, q2, -, q4, q5⟩ := AddComponent_caught (Except.map_eq_error h)
    exact ⟨rfl, q1, q2, q5, q4⟩
  | removeComponent c e =>
    rw [RemoveComponent_caught (Except.map_eq_error h)]
    exact ⟨rfl, rfl, rfl, rfl, rfl⟩
  | addSystem key s => simp [Registry.exec] at h
  | removeSystem key => exact (RemoveSystem_not_caught (Except.map_eq_error h)).elim
  | addEntityToSystems e =>
    exact (AddEntityToSystems_not_caught (Except.map_eq_error h)).elim
  | systemAddEntity key e =>
    exact (systemAddEntity_not_caught (Except.map_eq_error h)).elim
  | systemRemoveEntity key e =>
    exact (systemRemoveEntity_not_caught (Except.map_eq_error h)).elim
  | systemRequireComponent key c =>
    rw [systemRequireComponent_caught (Except.map_eq_error h)]
    exact ⟨rfl, rfl, rfl, rfl, rfl⟩



/-! ## The invariant of reachable registries -/

theorem Inv_new {V : Type} : (Registry.new : Registry V).Inv := by
  constructor <;> simp [Registry.new]

theorem Inv_exec_ok {V : Type} [Inhabited V] {r r1 : Registry V} {op : Op V}
    {ret : Option Entity} (hinv : r.Inv) (h : r.exec op = .ok (r1, ret)) : r1.Inv := by
  rcases exec_ok h with ⟨-, e, -, hc⟩ | ⟨-, -, hu⟩ | ⟨-, -, h1, h2, h3⟩
  · have hlt := (CreateEntity_ok hc).1
    rw [CreateEntity_of_inv r hinv hlt] at hc
    simp only [Except.ok.injEq, Prod.mk.injEq] at hc
    obtain ⟨-, hr⟩ := hc
    subst hr
    constructor
    · simp [hinv.signatures]
    · show r.numEntities + 1 ≤ INT_MAX
      omega
    · show (r.entitiesToBeAdded ++ [Entity.mk r.numEntities]).Pairwise _
      rw [List.pairwise_append]
      refine ⟨hinv.pendingSorted, by simp, ?_⟩
      intro a ha b hb
      simp only [List.mem_singleton] at hb
      subst hb
      exact (hinv.pendingCreated a ha).2
    · intro x hx
      have hx : x ∈ r.entitiesToBeAdded ++ [Entity.mk r.numEntities] := hx
      simp only [List.mem_append, List.mem_singleton] at hx
      rcases hx with hx | hx
      · have := hinv.pendingCreated x hx
        exact ⟨this.1, by show x.id < ((r.numEntities + 1 : Nat) : Int); have := this.2; omega⟩
      · subst hx
        exact ⟨by simp, by show ((r.numEntities : Nat) : Int) < ((r.numEntities + 1 : Nat) : Int); omega⟩
  · rw [Update_ok hu]
    exact ⟨hinv.signatures, hinv.counter, by simp, by simp⟩
  · constructor
    · rw [h3, h1]; exact hinv.signatures
    · rw [h1]; exact hinv.counter
    · rw [h2]; exact hinv.pendingSorted
    · rw [h2]
      intro x hx
      have := hinv.pendingCreated x hx
      exact ⟨this.1, by rw [h1]; exact this.2⟩

theorem Inv_exec_caught {V : Type} [Inhabited V] {r r1 : Registry V} {op : Op V}
    (hinv : r.Inv) (h : r.exec op = .error (.outOfRange r1)) : r1.Inv := by
  obtain ⟨-, h1, h2, h3, -⟩ := exec_caught h
  constructor
  · rw [h3, h1]; exact hinv.signatures
  · rw [h1]; exact hinv.counter
  · rw [h2]; exact hinv.pendingSorted
  · rw [h2]
    intro x hx
    have := hinv.pendingCreated x hx
    exact ⟨this.1, by rw [h1]; exact this.2⟩

theorem Reachable.inv {V : Type} [Inhabited V] {r : Registry V} (h : Reachable r) : r.Inv := by
  induction h with
  | new => exact Inv_new
  | step r r1 op ret _ hs ih => exact Inv_exec_ok ih hs
  | caught r r1 op _ hs ih => exact Inv_exec_caught ih hs

/-- The signature table has an entry for every created entity. -/
theorem Registry.Inv.signature_of_created {V : Type} {r : Registry V} (hinv : r.Inv) {e : Entity}
    (he : r.created e) : ∃ sig, vectorAt r.entityComponentSignatures e.id = some sig ∧
      r.entityComponentSignatures[e.id.toNat]? = some sig ∧
      e.id.toNat < r.entityComponentSignatures.length := by
  have hlt : e.id.toNat < r.entityComponentSignatures.length := by
    rw [hinv.signatures]
    exact (Int.toNat_lt he.1).mpr he.2
  refine ⟨r.entityComponentSignatures[e.id.toNat], ?_, ?_, hlt⟩
  · simp [vectorAt, he.1, hlt]
  · simp [hlt]



/-! ## Sequences of calls -/

theorem exec_numEntities {V : Type} [Inhabited V] {r r1 : Registry V} {op : Op V}
    {ret : Option Entity} (h : r.exec op = .ok (r1, ret)) :
    (op.isCreateEntity = true ∧ ret = some ⟨r.numEntities⟩ ∧
      r1.numEntities = r.numEntities + 1) ∨
    (op.isCreateEntity = false ∧ ret = none ∧ r1.numEntities = r.numEntities) := by
  rcases exec_ok h with ⟨ho, e, hret, hc⟩ | ⟨ho, hret, hu⟩ | ⟨ho, hret, h1, -, -⟩
  · left
    obtain ⟨-, he, hn, -⟩ := CreateEntity_ok hc
    subst ho
    exact ⟨rfl, by rw [hret, he], hn⟩
  · right
    subst ho
    rw [Update_ok hu]
    exact ⟨rfl, hret, rfl⟩
  · right
    exact ⟨ho, hret, h1⟩

theorem run_created {V : Type} [Inhabited V] (ops : List (Op V)) :
    ∀ (r r1 : Registry V) (created : List Entity), r.run ops = some (r1, created) →
      r1.numEntities = r.numEntities + created.length ∧
      created = (List.range created.length).map
        (fun n => Entity.mk ((r.numEntities + n : Nat) : Int)) ∧
      created.length = (ops.filter Op.isCreateEntity).length := by
  induction ops with
  | nil =>
    intro r r1 created h
    simp only [Registry.run, Option.some.injEq, Prod.mk.injEq] at h
    obtain ⟨h1, h2⟩ := h
    subst h1; subst h2
    simp
  | cons op ops ih =>
    intro r r1 created h
    unfold Registry.run at h
    split at h
    · rename_i r2 ret hexec
      split at h
      · rename_i r3 c3 hrun
        simp only [Option.some.injEq, Prod.mk.injEq] at h
        obtain ⟨h1, h2⟩ := h
        subst h1; subst h2
        obtain ⟨i1, i2, i3⟩ := ih r2 r3 c3 hrun
        rcases exec_numEntities hexec with ⟨ho, hret, hn⟩ | ⟨ho, hret, hn⟩
        · subst hret
          refine ⟨?_, ?_, ?_⟩
          · simp only [Option.toList, List.singleton_append, List.length_cons]
            omega
          · simp only [Option.toList, List.singleton_append, List.length_cons]
            rw [List.range_succ_eq_map, List.map_cons, List.map_map]
            congr 1
            rw [i2, hn]
            simp only [List.length_map, List.length_range]
            apply List.map_congr_left
            intro n _
            simp only [Function.comp, Entity.mk.injEq]
            omega
          · simp [List.filter_cons, ho, i3]
        · subst hret
          refine ⟨?_, ?_, ?_⟩
          · simpa [hn] using i1
          · simpa [hn] using i2
          · simp [List.filter_cons, ho, i3]
      · simp at h
    · rename_i r2 hexec
      obtain ⟨ho, hn, -⟩ := exec_caught hexec
      obtain ⟨i1, i2, i3⟩ := ih r2 r1 created h
      refine ⟨?_, ?_, ?_⟩
      · rw [i1, hn]
      · rw [← hn]; exact i2
      · simp [List.filter_cons, ho, i3]
    · simp at h

/-- A registry that a sequence of calls leads to is reachable. -/
theorem run_reachable {V : Type} [Inhabited V] (ops : List (Op V)) :
    ∀ (r r1 : Registry V) (created : List Entity), Reachable r →
      r.run ops = some (r1, created) → Reachable r1 := by
  induction ops with
  | nil =>
    intro r r1 created hr h
    simp only [Registry.run, Option.some.injEq, Prod.mk.injEq] at h
    rw [← h.1]; exact hr
  | cons op ops ih =>
    intro r r1 created hr h
    unfold Registry.run at h
    split at h
    · rename_i r2 ret hexec
      split at h
      · rename_i r3 c3 hrun
        simp only [Option.some.injEq, Prod.mk.injEq] at h
        rw [← h.1]
        exact ih r2 r3 c3 (Reachable.step r r2 op ret hr hexec) hrun
      · simp at h
    · rename_i r2 hexec
      exact ih r2 r1 created (Reachable.caught r r2 op hr hexec) h
    · simp at h


/-! ## Adding and removing a component -/

theorem Pool.Set_of_lt {T : Type} (p : Pool T) (i : Int) (x : T) (h0 : 0 ≤ i)
    (h : i.toNat < p.data.length) : p.Set i x = some ⟨p.data.set i.toNat x⟩ := by
  unfold Pool.Set
  rw [if_pos ⟨h0, h⟩]

theorem Pool.Set_eq_some {T : Type} {p p1 : Pool T} {i : Int} {x : T} (h : p.Set i x = some p1) :
    0 ≤ i ∧ i.toNat < p.data.length ∧ p1 = ⟨p.data.set i.toNat x⟩ := by
  unfold Pool.Set at h
  split at h
  · rename_i hc
    simp only [Option.some.injEq] at h
    exact ⟨hc.1, hc.2, h.symm⟩
  · simp at h

/-- The pool that `AddComponent` writes to has a slot for a created entity. -/
theorem addComponent_pool_size {V : Type} [Inhabited V] (r : Registry V) (p : Pool V)
    (e : Entity) (he : r.created e) :
    e.id.toNat <
      (if e.GetId ≥ (p.GetSize : Int) then p.Resize r.numEntities else p).data.length := by
  have hn : e.id.toNat < r.numEntities := (Int.toNat_lt he.1).mpr he.2
  split
  · simp [Pool.Resize, vectorResize_length, hn]
  · rename_i hlt
    simp only [Entity.GetId, Pool.GetSize, ge_iff_le, not_le] at hlt
    exact (Int.toNat_lt he.1).mpr hlt

theorem addComponent_pools_length {V : Type} (pools : List (Option (Pool V))) (c : Nat) :
    c < (if c ≥ pools.length then vectorResize pools (c + 1) none else pools).length := by
  split
  · simp [vectorResize_length]
  · omega

/-- The call `AddComponent<T>(e, v)` on a created entity with a type id in range: the
registry it returns. -/
theorem AddComponent_created {V : Type} [Inhabited V] (r : Registry V) (hinv : r.Inv)
    (e : Entity) (he : r.created e) (c : Nat) (hc : c < MAX_COMPONENTS) (v : V) :
    ∃ (pools : List (Option (Pool V))) (p : Pool V) (sig sig1 : Signature),
      c < pools.length ∧ e.id.toNat < p.data.length ∧
      r.entityComponentSignatures[e.id.toNat]? = some sig ∧
      sig.set c true = some sig1 ∧
      r.AddComponent c e v = .ok
        { r with
          componentPools := pools.set c (some ⟨p.data.set e.id.toNat v⟩)
          entityComponentSignatures := r.entityComponentSignatures.set e.id.toNat sig1 } := by
  obtain ⟨sig, hsig, hsig2, hlt⟩ := hinv.signature_of_created he
  obtain ⟨sig1, hsig1⟩ := Signature.set_isSome sig c true hc
  unfold Registry.AddComponent
  simp only
  generalize hpools : (if c ≥ r.componentPools.length then
    vectorResize r.componentPools (c + 1) none else r.componentPools) = pools
  have hpl : c < pools.length := by
    rw [← hpools]; exact addComponent_pools_length _ _
  generalize hp0 : (match pools[c]? with
    | some (some p) => p
    | _ => Pool.new 100) = p0
  have hsize := addComponent_pool_size r p0 e he
  generalize hp1 : (if e.GetId ≥ (p0.GetSize : Int) then p0.Resize r.numEntities else p0) = p1
    at hsize ⊢
  refine ⟨pools, p1, sig, sig1, hpl, hsize, hsig2, hsig1, ?_⟩
  rw [Pool.Set_of_lt p1 e.GetId v he.1 hsize]
  simp only [Entity.GetId, hsig, hsig1]


theorem RemoveComponent_created {V : Type} (r : Registry V) (hinv : r.Inv)
    (e : Entity) (he : r.created e) (c : Nat) (hc : c < MAX_COMPONENTS) :
    ∃ (sig sig1 : Signature),
      r.entityComponentSignatures[e.id.toNat]? = some sig ∧
      sig.set c false = some sig1 ∧
      r.RemoveComponent c e = .ok
        { r with
          entityComponentSignatures := r.entityComponentSignatures.set e.id.toNat sig1 } := by
  obtain ⟨sig, hsig, hsig2, hlt⟩ := hinv.signature_of_created he
  obtain ⟨sig1, hsig1⟩ := Signature.set_isSome sig c false hc
  refine ⟨sig, sig1, hsig2, hsig1, ?_⟩
  unfold Registry.RemoveComponent
  simp only [Entity.GetId, hsig, hsig1]

theorem HasComponent_of_signature {V : Type} (r : Registry V) (e : Entity) (c : Nat)
    (sig : Signature) (h0 : 0 ≤ e.id) (hsig : r.entityComponentSignatures[e.id.toNat]? = some sig)
    (hc : c < MAX_COMPONENTS) : r.HasComponent c e = .ok (sig.bits.testBit c) := by
  unfold Registry.HasComponent
  simp only [Entity.GetId, vectorAt, h0, if_true, hsig, Signature.test, hc]

theorem GetComponent_of_slot {V : Type} (r : Registry V) (e : Entity) (c : Nat) (p : Pool V)
    (v : V) (h0 : 0 ≤ e.id) (hp : r.componentPools[c]? = some (some p))
    (hv : p.data[e.id.toNat]? = some v) : r.GetComponent c e = .ok v := by
  unfold Registry.GetComponent
  simp only [hp, Pool.Get, Entity.GetId, vectorAt, h0, if_true, hv]

/-- After `AddComponent<T>(e, v)` on a created entity, `HasComponent<T>(e)` is true and
`GetComponent<T>(e)` is `v`. -/
theorem AddComponent_then_get {V : Type} [Inhabited V] (r : Registry V) (hinv : r.Inv)
    (e : Entity) (he : r.created e) (c : Nat) (hc : c < MAX_COMPONENTS) (v : V) :
    ∃ r1, r.AddComponent c e v = .ok r1 ∧ r1.HasComponent c e = .ok true ∧
      r1.GetComponent c e = .ok v := by
  obtain ⟨pools, p, sig, sig1, hpl, hsize, hsig, hsig1, hadd⟩ :=
    AddComponent_created r hinv e he c hc v
  have hlt : e.id.toNat < r.entityComponentSignatures.length :=
    (List.getElem?_eq_some_iff.mp hsig).1
  refine ⟨_, hadd, ?_, ?_⟩
  · rw [HasComponent_of_signature _ e c sig1 he.1 (List.getElem?_set_self hlt) hc,
      Signature.testBit_set hsig1 c, if_pos rfl]
  · exact GetComponent_of_slot _ e c ⟨p.data.set e.id.toNat v⟩ v he.1
      (List.getElem?_set_self hpl) (List.getElem?_set_self hsize)

/-- After `RemoveComponent<T>(e)` on a created entity, `HasComponent<T>(e)` is false. -/
theorem RemoveComponent_then_has {V : Type} (r : Registry V) (hinv : r.Inv)
    (e : Entity) (he : r.created e) (c : Nat) (hc : c < MAX_COMPONENTS) :
    ∃ r1, r.RemoveComponent c e = .ok r1 ∧ r1.HasComponent c e = .ok false := by
  obtain ⟨sig, sig1, hsig, hsig1, hrem⟩ := RemoveComponent_created r hinv e he c hc
  have hlt : e.id.toNat < r.entityComponentSignatures.length :=
    (List.getElem?_eq_some_iff.mp hsig).1
  refine ⟨_, hrem, ?_⟩
  rw [HasComponent_of_signature _ e c sig1 he.1 (List.getElem?_set_self hlt) hc,
    Signature.testBit_set hsig1 c, if_pos rfl]



/-- C1: after any sequence of calls on a fresh registry in which `CreateEntity` was
called k times, those calls returned the ids 0, 1, .., k-1 in this order (the n-th call,
counted from 1, returned n-1), so the returned ids are strictly increasing and pairwise
distinct; and the next `CreateEntity` call returns the id k (below the `int` limit). -/
theorem C1_CreateEntity_returns_successive_ids {V : Type} [Inhabited V] (ops : List (Op V))
    (r : Registry V) (created : List Entity)
    (h : Registry.new.run ops = some (r, created)) :
    created.length = (ops.filter Op.isCreateEntity).length ∧
    (∀ n, 1 ≤ n → n ≤ created.length →
      created[n - 1]? = some (Entity.mk ((n - 1 : Nat) : Int))) ∧
    created.Pairwise (fun a b => a.GetId < b.GetId) ∧
    (created.map Entity.GetId).Nodup ∧
    (r.numEntities < INT_MAX →
      ∃ r1, r.CreateEntity = .ok (Entity.mk (created.length : Int), r1)) := by
  obtain ⟨h1, h2, h3⟩ := run_created ops Registry.new r created h
  have hinv : r.Inv := (run_reachable ops _ r created Reachable.new h).inv
  have h2 : created = (List.range created.length).map (fun (n : Nat) => Entity.mk (n : Int)) := by
    simpa [Registry.new] using h2
  have hsorted : created.Pairwise (fun a b => a.GetId < b.GetId) := by
    rw [h2, List.pairwise_map]
    refine (List.pairwise_lt_range _).imp ?_
    intro a b hab
    simp only [Entity.GetId]
    omega
  refine ⟨h3, ?_, hsorted, ?_, ?_⟩
  · intro n hn1 hn
    rw [h2, List.getElem?_map, List.getElem?_range (by omega)]
    rfl
  · rw [List.Nodup, List.pairwise_map]
    refine hsorted.imp ?_
    intro a b hab
    exact ne_of_lt hab
  · intro hlt
    have hn : r.numEntities = created.length := by simpa [Registry.new] using h1
    rw [CreateEntity_of_inv r hinv hlt, hn]
    exact ⟨_, rfl⟩

/-- C1 on three `CreateEntity` calls between other calls: the ids 0, 1, 2. -/
theorem C1_witness :
    (Registry.new : Registry Nat).run threeEntities
        = some (registryAfter threeEntities, [⟨0⟩, ⟨1⟩, ⟨2⟩]) ∧
    (([⟨0⟩, ⟨1⟩, ⟨2⟩] : List Entity).length = (threeEntities.filter Op.isCreateEntity).length ∧
    (∀ n, 1 ≤ n → n ≤ ([⟨0⟩, ⟨1⟩, ⟨2⟩] : List Entity).length →
      ([⟨0⟩, ⟨1⟩, ⟨2⟩] : List Entity)[n - 1]? = some (Entity.mk ((n - 1 : Nat) : Int))) ∧
    ([⟨0⟩, ⟨1⟩, ⟨2⟩] : List Entity).Pairwise (fun a b => a.GetId < b.GetId) ∧
    (([⟨0⟩, ⟨1⟩, ⟨2⟩] : List Entity).map Entity.GetId).Nodup ∧
    ((registryAfter threeEntities).numEntities < INT_MAX →
      ∃ r1, (registryAfter threeEntities).CreateEntity
        = .ok (Entity.mk (([⟨0⟩, ⟨1⟩, ⟨2⟩] : List Entity).length : Int), r1))) :=
  ⟨by decide, C1_CreateEntity_returns_successive_ids threeEntities
    (registryAfter threeEntities) [⟨0⟩, ⟨1⟩, ⟨2⟩] (by decide)⟩



/-- The entities that the `CreateEntity` calls of a sequence of calls on a fresh registry
returned are the entities `created` of the registry reached. -/
theorem mem_created_iff {V : Type} [Inhabited V] (ops : List (Op V)) (r : Registry V)
    (created : List Entity) (h : Registry.new.run ops = some (r, created)) (e : Entity) :
    e ∈ created ↔ r.created e := by
  obtain ⟨h1, h2, -⟩ := run_created ops Registry.new r created h
  have hn : r.numEntities = created.length := by simpa [Registry.new] using h1
  have h2 : created = (List.range created.length).map (fun (n : Nat) => Entity.mk (n : Int)) := by
    simpa [Registry.new] using h2
  unfold Registry.created
  rw [hn]
  constructor
  · intro he
    rw [h2] at he
    simp only [List.mem_map, List.mem_range, List.length_map, List.length_range] at he
    obtain ⟨n, hn, hne⟩ := he
    subst hne
    simp only [List.length_map, List.length_range]
    exact ⟨by simp, by simpa using hn⟩
  · intro ⟨h0, hlt⟩
    rw [h2]
    simp only [List.mem_map, List.mem_range]
    refine ⟨e.id.toNat, (Int.toNat_lt h0).mpr hlt, ?_⟩
    apply Entity.ext_id
    simp [h0]

theorem reachable_threeEntities : Reachable (registryAfter threeEntities) :=
  run_reachable threeEntities Registry.new (registryAfter threeEntities) [⟨0⟩, ⟨1⟩, ⟨2⟩]
    Reachable.new (by decide)

/-- C2: in a reachable registry, for an entity the registry created, a component type
with id below `MAX_COMPONENTS` and any value `v`, the call `AddComponent<T>(e, v)` returns,
and right after it `HasComponent<T>(e)` is true and `GetComponent<T>(e)` is `v`. -/
theorem C2_AddComponent_then_Has_and_Get {V : Type} [Inhabited V] (r : Registry V)
    (hr : Reachable r) (e : Entity) (he : r.created e) (componentId : Nat)
    (hc : componentId < MAX_COMPONENTS) (v : V) :
    ∃ r1, r.AddComponent componentId e v = .ok r1 ∧
      r1.HasComponent componentId e = .ok true ∧
      r1.GetComponent componentId e = .ok v :=
  AddComponent_then_get r hr.inv e he componentId hc v

/-- C2 on the third entity of a registry with three entities. -/
theorem C2_witness :
    Reachable (registryAfter threeEntities) ∧ (registryAfter threeEntities).created ⟨2⟩ ∧
    1 < MAX_COMPONENTS ∧
    ∃ r1, (registryAfter threeEntities).AddComponent 1 ⟨2⟩ 7 = .ok r1 ∧
      r1.HasComponent 1 ⟨2⟩ = .ok true ∧ r1.GetComponent 1 ⟨2⟩ = .ok 7 :=
  ⟨reachable_threeEntities, by decide, by decide,
    C2_AddComponent_then_Has_and_Get (registryAfter threeEntities) reachable_threeEntities
      ⟨2⟩ (by decide) 1 (by decide) 7⟩

/-- C3: in a reachable registry, for an entity the registry created and a component type
with id below `MAX_COMPONENTS`, the call `RemoveComponent<T>(e)` returns and after it
`HasComponent<T>(e)` is false, whatever the bit was before. -/
theorem C3_RemoveComponent_then_not_Has {V : Type} [Inhabited V] (r : Registry V)
    (hr : Reachable r) (e : Entity) (he : r.created e) (componentId : Nat)
    (hc : componentId < MAX_COMPONENTS) :
    ∃ r1, r.RemoveComponent componentId e = .ok r1 ∧
      r1.HasComponent componentId e = .ok false :=
  RemoveComponent_then_has r hr.inv e he componentId hc


theorem reachable_tankSetup : Reachable (registryAfter tankSetup) :=
  run_reachable tankSetup Registry.new (registryAfter tankSetup) [⟨0⟩] Reachable.new (by decide)

/-- C3 on the tank of `Game::Setup`, which has the component removed. -/
theorem C3_witness :
    Reachable (registryAfter tankSetup) ∧ (registryAfter tankSetup).created ⟨0⟩ ∧
    0 < MAX_COMPONENTS ∧
    ∃ r1, (registryAfter tankSetup).RemoveComponent 0 ⟨0⟩ = .ok r1 ∧
      r1.HasComponent 0 ⟨0⟩ = .ok false :=
  ⟨reachable_tankSetup, by decide, by decide,
    C3_RemoveComponent_then_not_Has (registryAfter tankSetup) reachable_tankSetup
      ⟨0⟩ (by decide) 0 (by decide)⟩

/-! ## Interest of systems -/

theorem visitSystem_interested (sig : Signature) (e : Entity) (key : Nat) (s : System)
    (h : sig.contains s.GetComponentSignature) :
    visitSystem sig e (key, s) = (key, s.AddEntity e) := by
  unfold visitSystem
  rw [if_pos ((isInterested_iff _ _).mpr h)]

theorem visitSystem_not_interested (sig : Signature) (e : Entity) (key : Nat) (s : System)
    (h : ¬ sig.contains s.GetComponentSignature) : visitSystem sig e (key, s) = (key, s) := by
  unfold visitSystem
  rw [if_neg (fun hi => h ((isInterested_iff _ _).mp hi))]

/-- C4: for any registry and an entity with a signature entry, `AddEntityToSystems(e)`
returns and changes nothing but the systems: a registered system whose required bits are
all set in the signature of `e` gets `e` appended to its list, any other system is left
as it was, so the list of a system becomes the old list followed by `e` exactly when the
containment holds. With required bits {0, 1}, an entity having {0, 1, 2} is appended and
an entity having only {0} is not. -/
theorem C4_AddEntityToSystems_containment {V : Type} (r : Registry V) (e : Entity)
    (sig : Signature) (hsig : vectorAt r.entityComponentSignatures e.GetId = some sig) :
    (∃ r1, r.AddEntityToSystems e = .ok r1 ∧
      r1.numEntities = r.numEntities ∧ r1.entitiesToBeAdded = r.entitiesToBeAdded ∧
      r1.componentPools = r.componentPools ∧
      r1.entityComponentSignatures = r.entityComponentSignatures ∧
      r1.systems.length = r.systems.length ∧
      ∀ (i key : Nat) (s : System), r.systems[i]? = some (key, s) →
        ∃ s1, r1.systems[i]? = some (key, s1) ∧
          s1.GetComponentSignature = s.GetComponentSignature ∧
          (sig.contains s.GetComponentSignature → s1 = s.AddEntity e) ∧
          (¬ sig.contains s.GetComponentSignature → s1 = s) ∧
          (s1.GetEntities = s.GetEntities ++ [e] ↔ sig.contains s.GetComponentSignature)) ∧
    (registryAfter [.createEntity, .addComponent 0 ⟨0⟩ 1, .addComponent 1 ⟨0⟩ 2,
        .addComponent 2 ⟨0⟩ 3, .addSystem 7 (systemRequiring [0, 1]),
        .addEntityToSystems ⟨0⟩]).systems
      = [(7, ⟨(systemRequiring [0, 1]).componentSignature, [⟨0⟩]⟩)] ∧
    (registryAfter [.createEntity, .addComponent 0 ⟨0⟩ 1,
        .addSystem 7 (systemRequiring [0, 1]), .addEntityToSystems ⟨0⟩]).systems
      = [(7, ⟨(systemRequiring [0, 1]).componentSignature, []⟩)] := by
  refine ⟨?_, by decide, by decide⟩
  have hstep : r.AddEntityToSystems e
      = .ok { r with systems := r.systems.map (visitSystem sig e) } := by
    simp [Registry.AddEntityToSystems, hsig]
  refine ⟨_, hstep, rfl, rfl, rfl, rfl, by simp, ?_⟩
  intro i key s hi
  by_cases hcon : sig.contains s.GetComponentSignature
  · refine ⟨s.AddEntity e, ?_, rfl, fun _ => rfl, fun h => absurd hcon h, ?_⟩
    · simp only [List.getElem?_map, hi, Option.map_some', visitSystem_interested _ _ _ _ hcon]
    · simp [System.AddEntity, System.GetEntities, hcon]
  · refine ⟨s, ?_, rfl, fun h => absurd h hcon, fun _ => rfl, ?_⟩
    · simp only [List.getElem?_map, hi, Option.map_some',
        visitSystem_not_interested _ _ _ _ hcon]
    · simp [hcon]


/-- C4 on the tank of `Game::Setup`, whose signature has bits 0 and 1, in a registry with
two systems: the system requiring types 0 and 1 gets the tank appended, the system
requiring type 2 is left as it was. -/
theorem C4_witness :
    vectorAt (registryAfter tankAndSystems).entityComponentSignatures (Entity.mk 0).GetId
      = some (systemRequiring [0, 1]).componentSignature ∧
    (registryAfter tankAndSystems).systems
      = [(7, systemRequiring [0, 1]), (8, systemRequiring [2])] ∧
    ∃ r1, (registryAfter tankAndSystems).AddEntityToSystems ⟨0⟩ = .ok r1 ∧
      r1.systems.length = 2 ∧
      r1.systems[0]? = some (7, (systemRequiring [0, 1]).AddEntity ⟨0⟩) ∧
      r1.systems[1]? = some (8, systemRequiring [2]) ∧
      ((systemRequiring [0, 1]).AddEntity ⟨0⟩).GetEntities = [⟨0⟩] ∧
      (systemRequiring [2]).GetEntities = [] := by
  refine ⟨by decide, by decide, ?_⟩
  obtain ⟨r1, hok, -, -, -, -, hlen, hper⟩ :=
    (C4_AddEntityToSystems_containment (registryAfter tankAndSystems) ⟨0⟩
      (systemRequiring [0, 1]).componentSignature (by decide)).1
  obtain ⟨s7, h7, -, hgain, -, -⟩ := hper 0 7 (systemRequiring [0, 1]) (by decide)
  obtain ⟨s8, h8, -, -, hkeep, -⟩ := hper 1 8 (systemRequiring [2]) (by decide)
  have hin : (systemRequiring [0, 1]).componentSignature.contains
      (systemRequiring [0, 1]).GetComponentSignature :=
    (isInterested_iff _ _).mp (by decide)
  have hout : ¬ (systemRequiring [0, 1]).componentSignature.contains
      (systemRequiring [2]).GetComponentSignature :=
    fun h => absurd ((isInterested_iff _ _).mpr h) (by decide)
  refine ⟨r1, hok, ?_, ?_, ?_, by decide, by decide⟩
  · rw [hlen]; decide
  · rw [h7, hgain hin]
  · rw [h8, hkeep hout]

theorem mem_interestedPending (signatures : List Signature) (required : Signature)
    (pending : List Entity) (e : Entity) :
    e ∈ interestedPending signatures required pending ↔
      e ∈ pending ∧ ∃ sig, vectorAt signatures e.GetId = some sig ∧ sig.contains required := by
  unfold interestedPending
  rw [List.mem_filter]
  constructor
  · rintro ⟨hmem, h⟩
    refine ⟨hmem, ?_⟩
    split at h
    · rename_i sig hsig
      exact ⟨sig, hsig, (isInterested_iff _ _).mp h⟩
    · simp at h
  · rintro ⟨hmem, sig, hsig, hcon⟩
    refine ⟨hmem, ?_⟩
    simp only [hsig]
    exact (isInterested_iff _ _).mpr hcon

theorem interestedPending_sublist (signatures : List Signature) (required : Signature)
    (pending : List Entity) :
    (interestedPending signatures required pending).Sublist pending :=
  List.filter_sublist _

theorem Update_of_inv {V : Type} (r : Registry V) (hinv : r.Inv) :
    r.Update = .ok
      { r with
        entitiesToBeAdded := []
        systems := r.systems.map (fun entry =>
          withAdded (interestedPending r.entityComponentSignatures
            entry.2.componentSignature r.entitiesToBeAdded) entry) } := by
  apply Update_of_signatures
  intro e he
  obtain ⟨sig, hsig, -⟩ := hinv.signature_of_created (hinv.pendingCreated e he)
  simp [hsig]

/-- C5: in a reachable registry `Update` returns, leaves the pending set empty and the
rest of the registry but the systems as it was, and gives each registered system its old
list followed by the pending entities whose signature at the call contains the required
signature of the system, in ascending id order. So what is attached before the call is
what the test sees: create e0, attach type 0, register a system requiring type 0, and
`Update` gives the list [e0]; a system requiring types 0 and 1 stays empty. -/
theorem C5_Update_adds_interested_pending {V : Type} [Inhabited V] (r : Registry V)
    (hr : Reachable r) :
    (∃ r1, r.Update = .ok r1 ∧ r1.entitiesToBeAdded = [] ∧
      r1.numEntities = r.numEntities ∧ r1.componentPools = r.componentPools ∧
      r1.entityComponentSignatures = r.entityComponentSignatures ∧
      r1.systems.length = r.systems.length ∧
      r.entitiesToBeAdded.Pairwise (fun a b => a.GetId < b.GetId) ∧
      ∀ (i key : Nat) (s : System), r.systems[i]? = some (key, s) →
        ∃ added : List Entity,
          r1.systems[i]? = some (key, ⟨s.componentSignature, s.GetEntities ++ added⟩) ∧
          added.Sublist r.entitiesToBeAdded ∧
          added.Pairwise (fun a b => a.GetId < b.GetId) ∧
          ∀ e, e ∈ added ↔ e ∈ r.entitiesToBeAdded ∧
            ∃ sig, vectorAt r.entityComponentSignatures e.GetId = some sig ∧
              sig.contains s.GetComponentSignature) ∧
    (registryAfter [.createEntity, .addComponent 0 ⟨0⟩ 10,
        .addSystem 7 (systemRequiring [0]), .update]).systems
      = [(7, ⟨(systemRequiring [0]).componentSignature, [⟨0⟩]⟩)] ∧
    (registryAfter [.createEntity, .addComponent 0 ⟨0⟩ 10,
        .addSystem 7 (systemRequiring [0, 1]), .update]).systems
      = [(7, ⟨(systemRequiring [0, 1]).componentSignature, []⟩)] := by
  refine ⟨?_, by decide, by decide⟩
  have hinv := hr.inv
  refine ⟨_, Update_of_inv r hinv, rfl, rfl, rfl, rfl, by simp, hinv.pendingSorted, ?_⟩
  intro i key s hi
  refine ⟨interestedPending r.entityComponentSignatures s.componentSignature
    r.entitiesToBeAdded, ?_, interestedPending_sublist _ _ _,
    hinv.pendingSorted.sublist (interestedPending_sublist _ _ _),
    fun e => mem_interestedPending _ _ _ e⟩
  simp only [List.getElem?_map, hi, Option.map_some', withAdded, System.GetEntities]


theorem reachable_registryAfter (ops : List (Op Nat)) : Reachable (registryAfter ops) := by
  unfold registryAfter
  split
  · rename_i r created h
    exact run_reachable ops Registry.new r created Reachable.new h
  · exact Reachable.new

/-- C5 on a registry with one pending entity and one system. -/
theorem C5_witness :
    Reachable (registryAfter [.createEntity, .addComponent 0 ⟨0⟩ 10,
      .addSystem 7 (systemRequiring [0])]) ∧
    ∃ r1, (registryAfter [.createEntity, .addComponent 0 ⟨0⟩ 10,
        .addSystem 7 (systemRequiring [0])]).Update = .ok r1 ∧ r1.entitiesToBeAdded = [] :=
  ⟨reachable_registryAfter _,
    (C5_Update_adds_interested_pending (registryAfter [.createEntity,
      .addComponent 0 ⟨0⟩ 10, .addSystem 7 (systemRequiring [0])])
      (reachable_registryAfter _)).1.imp (fun _ h => ⟨h.1, h.2.1⟩)⟩



/-! ## Frame of the entity and component calls, idempotence of `Update` -/

theorem Update_of_no_pending {V : Type} (r : Registry V) (h : r.entitiesToBeAdded = []) :
    r.Update = .ok r := by
  rw [Update_of_signatures r (by simp [h])]
  have hmap : r.systems.map (fun entry =>
      withAdded (interestedPending r.entityComponentSignatures
        entry.2.componentSignature r.entitiesToBeAdded) entry) = r.systems := by
    rw [h]
    simp [interestedPending, withAdded_nil]
  rw [hmap]
  cases r
  simp only at h
  subst h
  rfl

/-- C7: `Update` is idempotent: on every registry, `Update` twice is `Update` once (the
same registry, or the same undefined behaviour); `Update` on a registry with an empty
pending set returns and changes nothing; and in a reachable registry `Update` returns. -/
theorem C7_Update_idempotent {V : Type} [Inhabited V] (r : Registry V) :
    (r.Update.bind Registry.Update = r.Update) ∧
    (∀ r1, r.Update = .ok r1 → r1.Update = .ok r1) ∧
    (r.entitiesToBeAdded = [] → r.Update = .ok r) ∧
    (Reachable r → ∃ r1, r.Update = .ok r1 ∧ r1.Update = .ok r1) := by
  have h2 : ∀ r1, r.Update = .ok r1 → r1.Update = .ok r1 := by
    intro r1 h
    apply Update_of_no_pending
    rw [Update_ok h]
  refine ⟨?_, h2, Update_of_no_pending r, ?_⟩
  · cases h : r.Update with
    | error f => rfl
    | ok r1 => exact h2 r1 h
  · intro hr
    exact ⟨_, Update_of_inv r hr.inv, h2 _ (Update_of_inv r hr.inv)⟩

/-- C7 on a registry with one pending entity and one system. -/
theorem C7_witness :
    Reachable (registryAfter [.addSystem 7 (systemRequiring [0]), .createEntity,
      .addComponent 0 ⟨0⟩ 10]) ∧
    ∃ r1, (registryAfter [.addSystem 7 (systemRequiring [0]), .createEntity,
        .addComponent 0 ⟨0⟩ 10]).Update = .ok r1 ∧ r1.Update = .ok r1 :=
  ⟨reachable_registryAfter _,
    (C7_Update_idempotent (registryAfter [.addSystem 7 (systemRequiring [0]), .createEntity,
      .addComponent 0 ⟨0⟩ 10])).2.2.2 (reachable_registryAfter _)⟩



/-! ## Systems registered late, new entities, removal of a component -/

theorem findSystem_append_new (systems : List (Nat × System)) (key : Nat) (s : System)
    (h : findSystem systems key = none) : findSystem (systems ++ [(key, s)]) key = some s := by
  induction systems with
  | nil => simp [findSystem]
  | cons p rest ih =>
    obtain ⟨k, s0⟩ := p
    simp only [findSystem, List.cons_append] at h ⊢
    split at h
    · simp at h
    · rename_i hk
      rw [if_neg hk]
      exact ih h

theorem findSystem_map_withAdded (systems : List (Nat × System)) (key : Nat)
    (added : Signature → List Entity) :
    findSystem (systems.map (fun entry => withAdded (added entry.2.componentSignature) entry)) key
      = (findSystem systems key).map
          (fun s => ⟨s.componentSignature, s.entities ++ added s.componentSignature⟩) := by
  induction systems with
  | nil => simp [findSystem]
  | cons p rest ih =>
    obtain ⟨k, s0⟩ := p
    simp only [List.map_cons, findSystem, withAdded]
    split
    · simp
    · exact ih

theorem HasComponent_eq {V : Type} (r : Registry V) (e : Entity) (c : Nat)
    (hc : c < MAX_COMPONENTS) :
    r.HasComponent c e =
      match vectorAt r.entityComponentSignatures e.GetId with
      | none => .error .undefined
      | some sig => .ok (sig.bits.testBit c) := by
  unfold Registry.HasComponent
  simp only [Signature.test, hc, if_true]

theorem vectorAt_set_ne {α : Type} (v : List α) (n : Nat) (x : α) (i : Int)
    (h : i ≠ (n : Int)) : vectorAt (v.set n x) i = vectorAt v i := by
  unfold vectorAt
  split
  · rename_i h0
    rw [List.getElem?_set_ne]
    intro hn
    apply h
    rw [hn, Int.toNat_of_nonneg h0]
  · rfl

theorem vectorAt_append_left {α : Type} (v w : List α) (i : Int)
    (hi : i < (v.length : Int)) : vectorAt (v ++ w) i = vectorAt v i := by
  unfold vectorAt
  split
  · rename_i h0
    rw [List.getElem?_append_left ((Int.toNat_lt h0).mpr hi)]
  · rfl

/-- C8 as stated fails: e0 is created, gets type 0 and is made active by `Update`; a
system requiring type 0 is registered afterwards; after the next `Update` the list of
the system is empty although the signature of e0 contains the required signature. -/
theorem C8_counterexample :
    (registryAfter [.createEntity, .addComponent 0 ⟨0⟩ 10, .update]).entitiesToBeAdded = [] ∧
    (vectorAt (registryAfter [.createEntity, .addComponent 0 ⟨0⟩ 10,
        .update]).entityComponentSignatures 0).map
      (fun sig => isInterested sig (systemRequiring [0]).GetComponentSignature) = some true ∧
    (registryAfter [.createEntity, .addComponent 0 ⟨0⟩ 10, .update]).HasSystem 7 = false ∧
    ((registryAfter [.createEntity, .addComponent 0 ⟨0⟩ 10, .update,
        .addSystem 7 (systemRequiring [0]), .update]).GetSystem 7).map System.GetEntities
      = .ok [] := by
  decide

/-- C8 (amended): a system takes part in the interest evaluation of an `Update` only for
the entities pending at that call. In a reachable registry, for a system registered under
a new key and an entity that is not pending (one made active by an earlier `Update`), the
next `Update` returns and leaves the system with the list it was built with followed by
pending entities only, whose signature contains its requirement: the entity is not
added, whatever its signature. -/
theorem C8_Update_evaluates_pending_only {V : Type} [Inhabited V] (r : Registry V)
    (hr : Reachable r) (key : Nat) (newSystem : System) (hnew : r.HasSystem key = false)
    (e : Entity) (he : e ∉ r.entitiesToBeAdded) :
    ∃ r1, (r.AddSystem key newSystem).Update = .ok r1 ∧
      ∃ added : List Entity,
        r1.GetSystem key
          = .ok ⟨newSystem.GetComponentSignature, newSystem.GetEntities ++ added⟩ ∧
        e ∉ added ∧ added.Sublist r.entitiesToBeAdded ∧
        ∀ x, x ∈ added ↔ x ∈ r.entitiesToBeAdded ∧
          ∃ sig, vectorAt r.entityComponentSignatures x.GetId = some sig ∧
            sig.contains newSystem.GetComponentSignature := by
  have hfind : findSystem r.systems key = none := by
    simpa [Registry.HasSystem] using hnew
  have hadd : r.AddSystem key newSystem
      = { r with systems := r.systems ++ [(key, newSystem)] } := by
    simp [Registry.AddSystem, hfind]
  have hr1 : Reachable (r.AddSystem key newSystem) :=
    Reachable.step r _ (.addSystem key newSystem) none hr rfl
  refine ⟨_, Update_of_inv _ hr1.inv, ?_⟩
  refine ⟨interestedPending r.entityComponentSignatures newSystem.componentSignature
    r.entitiesToBeAdded, ?_, ?_, interestedPending_sublist _ _ _,
    fun x => mem_interestedPending _ _ _ x⟩
  · rw [hadd]
    simp only [Registry.GetSystem]
    rw [findSystem_map_withAdded _ key (fun req =>
      interestedPending r.entityComponentSignatures req r.entitiesToBeAdded),
      findSystem_append_new _ _ _ hfind]
    rfl
  · intro hmem
    exact he ((interestedPending_sublist _ _ _).subset hmem)

/-- C8 (amended) on an entity made active before the system is registered. -/
theorem C8_witness :
    Reachable (registryAfter [.createEntity, .addComponent 0 ⟨0⟩ 10, .update]) ∧
    (registryAfter [.createEntity, .addComponent 0 ⟨0⟩ 10, .update]).HasSystem 7 = false ∧
    (⟨0⟩ : Entity) ∉ (registryAfter [.createEntity, .addComponent 0 ⟨0⟩ 10,
      .update]).entitiesToBeAdded ∧
    ∃ r1, ((registryAfter [.createEntity, .addComponent 0 ⟨0⟩ 10, .update]).AddSystem 7
        (systemRequiring [0])).Update = .ok r1 ∧
      ∃ added : List Entity,
        r1.GetSystem 7 = .ok ⟨(systemRequiring [0]).GetComponentSignature,
          (systemRequiring [0]).GetEntities ++ added⟩ ∧ (⟨0⟩ : Entity) ∉ added :=
  ⟨reachable_registryAfter _, by decide, by decide,
    (C8_Update_evaluates_pending_only
      (registryAfter [.createEntity, .addComponent 0 ⟨0⟩ 10, .update])
      (reachable_registryAfter _) 7 (systemRequiring [0]) (by decide) ⟨0⟩ (by decide)).imp
      (fun _ h => ⟨h.1, h.2.imp (fun _ g => ⟨g.1, g.2.1⟩)⟩)⟩



/-- C9: in a reachable registry (below the `int` limit) `CreateEntity` returns a new
entity whose signature is all zero, so `HasComponent<T>` is false for every type id
below `MAX_COMPONENTS`; the entity is in the pending set; and the signature of every
entity created before is as it was. -/
theorem C9_CreateEntity_zero_signature_and_pending {V : Type} [Inhabited V] (r : Registry V)
    (hr : Reachable r) (hlt : r.numEntities < INT_MAX) :
    ∃ e r1, r.CreateEntity = .ok (e, r1) ∧
      ¬ r.created e ∧ r1.created e ∧
      vectorAt r1.entityComponentSignatures e.GetId = some Signature.zero ∧
      (∀ c, c < MAX_COMPONENTS → r1.HasComponent c e = .ok false) ∧
      e ∈ r1.entitiesToBeAdded ∧
      (∀ e2, r.created e2 →
        vectorAt r1.entityComponentSignatures e2.GetId
          = vectorAt r.entityComponentSignatures e2.GetId) ∧
      (∀ e2 c, r.created e2 → c < MAX_COMPONENTS →
        r1.HasComponent c e2 = r.HasComponent c e2) := by
  have hinv := hr.inv
  have hold : ∀ e2, r.created e2 →
      vectorAt (r.entityComponentSignatures ++ [Signature.zero]) e2.GetId
        = vectorAt r.entityComponentSignatures e2.GetId := by
    intro e2 he2
    apply vectorAt_append_left
    rw [hinv.signatures]
    exact he2.2
  have hnew : vectorAt (r.entityComponentSignatures ++ [Signature.zero])
      (Entity.mk (r.numEntities : Int)).GetId = some Signature.zero := by
    simp only [Entity.GetId, vectorAt_natCast]
    rw [List.getElem?_append_right (by rw [hinv.signatures]), hinv.signatures]
    simp
  refine ⟨⟨r.numEntities⟩, _, CreateEntity_of_inv r hinv hlt, ?_, ?_, hnew, ?_, ?_, hold, ?_⟩
  · intro h
    exact lt_irrefl _ h.2
  · exact ⟨by simp, by simp⟩
  · intro c hc
    rw [HasComponent_eq _ _ c hc]
    simp only [hnew, Signature.zero_testBit]
  · simp
  · intro e2 c he2 hc
    rw [HasComponent_eq _ _ c hc, HasComponent_eq _ _ c hc]
    simp only [hold e2 he2]

/-- C9 on the registry of `Game::Setup`. -/
theorem C9_witness :
    Reachable (registryAfter tankSetup) ∧ (registryAfter tankSetup).numEntities < INT_MAX ∧
    ∃ e r1, (registryAfter tankSetup).CreateEntity = .ok (e, r1) ∧
      vectorAt r1.entityComponentSignatures e.GetId = some Signature.zero ∧
      e ∈ r1.entitiesToBeAdded :=
  ⟨reachable_registryAfter _, by decide,
    (C9_CreateEntity_zero_signature_and_pending (registryAfter tankSetup)
      (reachable_registryAfter _) (by decide)).imp
      (fun _ h => h.imp (fun _ g => ⟨g.1, g.2.2.2.1, g.2.2.2.2.2.1⟩))⟩

/-- C10: in a reachable registry, for a created entity and a type id below
`MAX_COMPONENTS`, `RemoveComponent<T>(e)` returns and clears bit T of the signature of
`e` only: the other bits of that signature, the signatures of the other entities, the
component pools with all their slots, and the rest of the registry are as before, so
`HasComponent<U>(e)` is unchanged for any other type U and `GetComponent` reads what it
read before. After `AddComponent<T>(e, v)` and `RemoveComponent<T>(e)` the pool slot of
T at the index of `e` still holds `v`. -/
theorem C10_RemoveComponent_clears_one_bit {V : Type} [Inhabited V] (r : Registry V)
    (hr : Reachable r) (e : Entity) (he : r.created e) (c : Nat) (hc : c < MAX_COMPONENTS) :
    (∃ r1 sig sig1, r.RemoveComponent c e = .ok r1 ∧
      vectorAt r.entityComponentSignatures e.GetId = some sig ∧
      vectorAt r1.entityComponentSignatures e.GetId = some sig1 ∧
      sig1.test c = some false ∧
      (∀ u, u ≠ c → sig1.test u = sig.test u) ∧
      (∀ u, u ≠ c → u < MAX_COMPONENTS → r1.HasComponent u e = r.HasComponent u e) ∧
      (∀ e2 : Entity, e2.GetId ≠ e.GetId →
        vectorAt r1.entityComponentSignatures e2.GetId
          = vectorAt r.entityComponentSignatures e2.GetId) ∧
      (∀ (e2 : Entity) (u : Nat), e2.GetId ≠ e.GetId → u < MAX_COMPONENTS →
        r1.HasComponent u e2 = r.HasComponent u e2) ∧
      r1.componentPools = r.componentPools ∧
      (∀ u e2, r1.GetComponent u e2 = r.GetComponent u e2) ∧
      r1.numEntities = r.numEntities ∧ r1.entitiesToBeAdded = r.entitiesToBeAdded ∧
      r1.systems = r.systems) ∧
    (∀ v, ∃ r1 r2, r.AddComponent c e v = .ok r1 ∧ r1.RemoveComponent c e = .ok r2 ∧
      r2.HasComponent c e = .ok false ∧ r2.GetComponent c e = .ok v ∧
      r2.componentPools = r1.componentPools) := by
  have hinv := hr.inv
  constructor
  · obtain ⟨sig, sig1, hsig, hsig1, hrem⟩ := RemoveComponent_created r hinv e he c hc
    have hlt : e.id.toNat < r.entityComponentSignatures.length :=
      (List.getElem?_eq_some_iff.mp hsig).1
    have hat : vectorAt r.entityComponentSignatures e.GetId = some sig := by
      simp only [vectorAt, Entity.GetId, he.1, if_true, hsig]
    have hat1 : vectorAt (r.entityComponentSignatures.set e.id.toNat sig1) e.GetId
        = some sig1 := by
      simp only [vectorAt, Entity.GetId, he.1, if_true, List.getElem?_set_self hlt]
    have hbits : ∀ u, u ≠ c → sig1.test u = sig.test u := by
      intro u hu
      simp only [Signature.test, Signature.testBit_set hsig1 u, if_neg hu]
    have hothers : ∀ e2 : Entity, e2.GetId ≠ e.GetId →
        vectorAt (r.entityComponentSignatures.set e.id.toNat sig1) e2.GetId
          = vectorAt r.entityComponentSignatures e2.GetId := by
      intro e2 hne
      apply vectorAt_set_ne
      rw [Int.toNat_of_nonneg he.1]
      exact hne
    refine ⟨_, sig, sig1, hrem, hat, hat1, ?_, hbits, ?_, hothers, ?_, rfl, ?_, rfl, rfl, rfl⟩
    · simp only [Signature.test, hc, if_true, Signature.testBit_set hsig1 c]
    · intro u hu hu32
      rw [HasComponent_eq _ _ u hu32, HasComponent_eq _ _ u hu32]
      simp only [hat, hat1, Signature.testBit_set hsig1 u, if_neg hu]
    · intro e2 u hne hu32
      rw [HasComponent_eq _ _ u hu32, HasComponent_eq _ _ u hu32]
      simp only [hothers e2 hne]
    · intro u e2
      rfl
  · intro v
    obtain ⟨r1, hadd, -, hget⟩ := AddComponent_then_get r hinv e he c hc v
    obtain ⟨q1, -, -, -, q5⟩ := AddComponent_ok hadd
    have hinv1 : r1.Inv := @Inv_exec_ok V _ r r1 (.addComponent c e v) none hinv (by
      simp [Registry.exec, hadd, Except.map])
    have he1 : r1.created e := ⟨he.1, by rw [q1]; exact he.2⟩
    obtain ⟨r2, hrem, hhas⟩ := RemoveComponent_then_has r1 hinv1 e he1 c hc
    have hpools := (RemoveComponent_ok hrem).2.2.2.2.1
    refine ⟨r1, r2, hadd, hrem, hhas, ?_, hpools⟩
    rw [← hget]
    unfold Registry.GetComponent
    rw [hpools]

/-- C10 on the tank of `Game::Setup`. -/
theorem C10_witness :
    Reachable (registryAfter tankSetup) ∧ (registryAfter tankSetup).created ⟨0⟩ ∧
    0 < MAX_COMPONENTS ∧
    ∃ r1 r2, (registryAfter tankSetup).AddComponent 0 ⟨0⟩ 33 = .ok r1 ∧
      r1.RemoveComponent 0 ⟨0⟩ = .ok r2 ∧
      r2.HasComponent 0 ⟨0⟩ = .ok false ∧ r2.GetComponent 0 ⟨0⟩ = .ok 33 ∧
      r2.componentPools = r1.componentPools :=
  ⟨reachable_registryAfter _, by decide, by decide,
    (C10_RemoveComponent_clears_one_bit (registryAfter tankSetup)
      (reachable_registryAfter _) ⟨0⟩ (by decide) 0 (by decide)).2 33⟩



/-! ## The pools through `AddComponent` -/

theorem AddComponent_eq {V : Type} [Inhabited V] (r : Registry V) (c : Nat) (e : Entity)
    (v : V) :
    r.AddComponent c e v =
      match (r.grownPool c e).Set e.GetId v with
      | none => .error .undefined
      | some p =>
        match vectorAt r.entityComponentSignatures e.GetId with
        | none => .error .undefined
        | some sig =>
          match sig.set c true with
          | none => .error (.outOfRange { r with componentPools := (r.poolsFor c).set c (some p) })
          | some sig1 =>
            .ok { r with
              componentPools := (r.poolsFor c).set c (some p)
              entityComponentSignatures :=
                r.entityComponentSignatures.set e.GetId.toNat sig1 } := rfl

theorem GetComponent_eq {V : Type} (r : Registry V) (c : Nat) (e : Entity) :
    r.GetComponent c e =
      match r.poolOf c with
      | some p =>
        match p.Get e.GetId with
        | some v => .ok v
        | none => .error .undefined
      | none => .error .undefined := by
  unfold Registry.GetComponent Registry.poolOf
  cases h : r.componentPools[c]? with
  | none => rfl
  | some o => cases o <;> rfl

theorem poolsFor_length {V : Type} (r : Registry V) (c : Nat) :
    c < (r.poolsFor c).length := addComponent_pools_length _ _

theorem poolsFor_join {V : Type} (r : Registry V) (c i : Nat) :
    (r.poolsFor c)[i]?.join = r.componentPools[i]?.join := by
  unfold Registry.poolsFor
  split
  · rename_i h
    by_cases hi : i < r.componentPools.length
    · rw [vectorResize_getElem?_old _ _ _ _ (by omega) hi]
    · by_cases hic : i < c + 1
      · rw [vectorResize_getElem?_new _ _ _ _ (by omega) hic,
          List.getElem?_eq_none (by omega)]
        rfl
      · rw [List.getElem?_eq_none (by rw [vectorResize_length]; omega),
          List.getElem?_eq_none (by omega)]
  · rfl

theorem poolFor_of_poolOf {V : Type} [Inhabited V] (r : Registry V) (c : Nat) (p : Pool V)
    (h : r.poolOf c = some p) : r.poolFor c = p := by
  have hj : (r.poolsFor c)[c]?.join = some p := by rw [poolsFor_join]; exact h
  unfold Registry.poolFor
  cases hq : (r.poolsFor c)[c]? with
  | none => rw [hq] at hj; simp at hj
  | some o =>
    rw [hq] at hj
    cases o with
    | none => simp at hj
    | some q => simp at hj; simp [hj]

theorem poolFor_of_none {V : Type} [Inhabited V] (r : Registry V) (c : Nat)
    (h : r.poolOf c = none) : r.poolFor c = Pool.new 100 := by
  have hj : (r.poolsFor c)[c]?.join = none := by rw [poolsFor_join]; exact h
  unfold Registry.poolFor
  cases hq : (r.poolsFor c)[c]? with
  | none => rfl
  | some o =>
    rw [hq] at hj
    cases o with
    | none => rfl
    | some q => simp at hj

/-- The pools after the write of `AddComponent<T>`. -/
theorem poolOf_set_poolsFor {V : Type} (r : Registry V) (c : Nat) (p : Pool V) (i : Nat) :
    Registry.poolOf { r with componentPools := (r.poolsFor c).set c (some p) } i
      = if i = c then some p else r.poolOf i := by
  unfold Registry.poolOf
  simp only
  by_cases hi : i = c
  · subst hi
    rw [List.getElem?_set_self (poolsFor_length r i), if_pos rfl]
    rfl
  · rw [List.getElem?_set_ne (fun h => hi h.symm), if_neg hi, poolsFor_join]


/-- What `AddComponent<T>` does when its behaviour is defined: the entity has a pool slot
and a signature, the pool is written, and the call returns or throws on the bit. -/
theorem AddComponent_outcome {V : Type} [Inhabited V] (r : Registry V) (c : Nat) (e : Entity)
    (v : V) (hdef : r.AddComponent c e v ≠ .error .undefined) :
    ∃ sig, 0 ≤ e.id ∧ e.id.toNat < (r.grownPool c e).data.length ∧
      vectorAt r.entityComponentSignatures e.GetId = some sig ∧
      ((sig.set c true = none ∧
          r.AddComponent c e v = .error (.outOfRange
            { r with
              componentPools := (r.poolsFor c).set c
                (some ⟨(r.grownPool c e).data.set e.id.toNat v⟩) })) ∨
        (∃ sig1, sig.set c true = some sig1 ∧
          r.AddComponent c e v = .ok
            { r with
              componentPools := (r.poolsFor c).set c
                (some ⟨(r.grownPool c e).data.set e.id.toNat v⟩)
              entityComponentSignatures :=
                r.entityComponentSignatures.set e.id.toNat sig1 })) := by
  rw [AddComponent_eq] at hdef ⊢
  cases hset : (r.grownPool c e).Set e.GetId v with
  | none => rw [hset] at hdef; exact absurd rfl hdef
  | some p =>
    obtain ⟨h0, hlt, hp⟩ := Pool.Set_eq_some hset
    rw [hset] at hdef
    simp only at hdef ⊢
    cases hsig : vectorAt r.entityComponentSignatures e.GetId with
    | none => rw [hsig] at hdef; exact absurd rfl hdef
    | some sig =>
      refine ⟨sig, h0, hlt, rfl, ?_⟩
      subst hp
      cases hs1 : sig.set c true with
      | none => left; exact ⟨rfl, by simp only [hs1, Entity.GetId]⟩
      | some sig1 => right; exact ⟨sig1, rfl, by simp only [hs1, Entity.GetId]⟩

theorem Registry.Inv.created_of_signature {V : Type} {r : Registry V} (hinv : r.Inv)
    {e : Entity} {sig : Signature}
    (h : vectorAt r.entityComponentSignatures e.GetId = some sig) : r.created e := by
  obtain ⟨h0, hlt, -⟩ := vectorAt_eq_some h
  rw [hinv.signatures] at hlt
  exact ⟨h0, (Int.toNat_lt h0).mp hlt⟩

/-- For a created entity the conditional `Resize(numEntities)` of `AddComponent<T>` does
not make the pool shorter and keeps the slots the pool had. -/
theorem grownPool_of_created {V : Type} [Inhabited V] (r : Registry V) (c : Nat) (e : Entity)
    (he : r.created e) :
    (r.poolFor c).data.length ≤ (r.grownPool c e).data.length ∧
    e.id.toNat < (r.grownPool c e).data.length ∧
    ∀ i, i < (r.poolFor c).data.length →
      (r.grownPool c e).data[i]? = (r.poolFor c).data[i]? := by
  have hn : e.id.toNat < r.numEntities := (Int.toNat_lt he.1).mpr he.2
  unfold Registry.grownPool
  split
  · rename_i hge
    simp only [Entity.GetId, Pool.GetSize, ge_iff_le] at hge
    have hle : (r.poolFor c).data.length ≤ r.numEntities := by
      have := he.2
      omega
    refine ⟨?_, ?_, ?_⟩
    · simp only [Pool.Resize, vectorResize_length]; exact hle
    · simp only [Pool.Resize, vectorResize_length]; exact hn
    · intro i hi
      exact vectorResize_getElem?_old _ _ _ _ hle hi
  · rename_i hlt
    simp only [Entity.GetId, Pool.GetSize, ge_iff_le, not_le] at hlt
    exact ⟨le_refl _, (Int.toNat_lt he.1).mpr hlt, fun _ _ => rfl⟩

theorem GetComponent_eq_ok {V : Type} {r : Registry V} {c : Nat} {e : Entity} {v : V}
    (h : r.GetComponent c e = .ok v) :
    ∃ p, r.poolOf c = some p ∧ 0 ≤ e.id ∧ e.id.toNat < p.data.length ∧
      p.data[e.id.toNat]? = some v := by
  rw [GetComponent_eq] at h
  cases hp : r.poolOf c with
  | none => rw [hp] at h; simp at h
  | some p =>
    rw [hp] at h
    simp only at h
    cases hg : p.Get e.GetId with
    | none => rw [hg] at h; simp at h
    | some w =>
      rw [hg] at h
      simp only [Except.ok.injEq] at h
      subst h
      obtain ⟨h0, hlt, hv⟩ := vectorAt_eq_some hg
      exact ⟨p, rfl, h0, hlt, hv⟩

theorem GetComponent_of_poolOf {V : Type} (r : Registry V) (c : Nat) (e : Entity) (p : Pool V)
    (v : V) (hp : r.poolOf c = some p) (h0 : 0 ≤ e.id) (hv : p.data[e.id.toNat]? = some v) :
    r.GetComponent c e = .ok v := by
  rw [GetComponent_eq, hp]
  simp only [Pool.Get, vectorAt, Entity.GetId, h0, if_true, hv]

theorem HasComponent_eq_ok {V : Type} {r : Registry V} {c : Nat} {e : Entity} {b : Bool}
    (h : r.HasComponent c e = .ok b) :
    c < MAX_COMPONENTS ∧ ∃ sig, vectorAt r.entityComponentSignatures e.GetId = some sig ∧
      sig.bits.testBit c = b := by
  unfold Registry.HasComponent at h
  simp only at h
  cases hs : vectorAt r.entityComponentSignatures e.GetId with
  | none => rw [hs] at h; simp at h
  | some sig =>
    rw [hs] at h
    by_cases hc : c < MAX_COMPONENTS
    · simp only [Signature.test, hc, if_true, Except.ok.injEq] at h
      exact ⟨hc, sig, rfl, h⟩
    · simp [Signature.test, hc] at h



/-! ## Persistence of component values -/

/-- A value read by `GetComponent` with its bit set stays through `AddComponent<U>(e2, w)`
on another slot. -/
theorem AddComponent_keeps_other {V : Type} [Inhabited V] (r : Registry V) (hinv : r.Inv)
    (e : Entity) (T : Nat) (v : V) (hhas : r.HasComponent T e = .ok true)
    (hget : r.GetComponent T e = .ok v) (U : Nat) (e2 : Entity) (w : V) (he2 : r.created e2)
    (hU : U < MAX_COMPONENTS) (hne : U ≠ T ∨ e2.GetId ≠ e.GetId) :
    ∃ r1, r.AddComponent U e2 w = .ok r1 ∧ r1.HasComponent T e = .ok true ∧
      r1.GetComponent T e = .ok v := by
  obtain ⟨hT, sig, hsig, hbit⟩ := HasComponent_eq_ok hhas
  obtain ⟨p, hp, h0, hlt, hv⟩ := GetComponent_eq_ok hget
  have hdef : r.AddComponent U e2 w ≠ .error .undefined := by
    obtain ⟨_, _, _, _, _, _, _, _, hadd⟩ := AddComponent_created r hinv e2 he2 U hU w
    rw [hadd]
    simp
  obtain ⟨sig2, h20, h2lt, hsig2, hcase⟩ := AddComponent_outcome r U e2 w hdef
  obtain ⟨s1, hs1⟩ := Signature.set_isSome sig2 U true hU
  rcases hcase with ⟨hnone, -⟩ | ⟨sig1, hsig1, hadd⟩
  · rw [hs1] at hnone; simp at hnone
  refine ⟨_, hadd, ?_, ?_⟩
  · rw [HasComponent_eq _ _ T hT]
    simp only
    by_cases hid : e2.GetId = e.GetId
    · have hUT : U ≠ T := by
        rcases hne with h | h
        · exact h
        · exact absurd hid h
      simp only [Entity.GetId] at hid hsig hsig2
      rw [hid] at hsig2 ⊢
      rw [hsig] at hsig2
      simp only [Option.some.injEq] at hsig2
      subst hsig2
      have hl := (vectorAt_eq_some hsig).2.1
      simp only [vectorAt, Entity.GetId, h0, if_true, List.getElem?_set_self hl]
      rw [Signature.testBit_set hsig1 T, if_neg (fun h => hUT h.symm), hbit]
    · rw [vectorAt_set_ne _ _ _ _ (by
        rw [Int.toNat_of_nonneg h20]
        exact fun h => hid h.symm), hsig]
      simp only [hbit]
  · by_cases hUT : U = T
    · subst hUT
      have hid : e2.GetId ≠ e.GetId := by
        rcases hne with h | h
        · exact absurd rfl h
        · exact h
      have hpf : r.poolFor U = p := poolFor_of_poolOf r U p hp
      obtain ⟨-, -, hold⟩ := grownPool_of_created r U e2 he2
      refine GetComponent_of_poolOf _ U e ⟨(r.grownPool U e2).data.set e2.id.toNat w⟩ v
        ?_ h0 ?_
      · exact (poolOf_set_poolsFor r U _ U).trans (if_pos rfl)
      · simp only
        rw [List.getElem?_set_ne, hold _ (by rw [hpf]; exact hlt), hpf, hv]
        intro h
        apply hid
        simp only [Entity.GetId]
        rw [← Int.toNat_of_nonneg h20, ← Int.toNat_of_nonneg h0, h]
    · refine GetComponent_of_poolOf _ T e p v ?_ h0 hv
      have := poolOf_set_poolsFor r U ⟨(r.grownPool U e2).data.set e2.id.toNat w⟩ T
      rw [if_neg (fun h => hUT h.symm)] at this
      rw [← hp, ← this]
      rfl



/-- C11: in a reachable registry, when `HasComponent<T>(e)` is true and
`GetComponent<T>(e)` is `v` (so `e` is a created entity and the id of T is below
`MAX_COMPONENTS`), both still hold after `AddComponent<U>(e2, w)` for a created entity
`e2` and a type id U below `MAX_COMPONENTS` with (U, e2) other than (T, e), after
`CreateEntity` and after `Update`, and these calls return. With 101 entities, the value
of the first entity stays when `AddComponent` for the last one resizes the pool from 100
to 101 slots. -/
theorem C11_component_value_persists {V : Type} [Inhabited V] (r : Registry V)
    (hr : Reachable r) (e : Entity) (T : Nat) (v : V)
    (hhas : r.HasComponent T e = .ok true) (hget : r.GetComponent T e = .ok v) :
    (r.created e ∧ T < MAX_COMPONENTS) ∧
    (∀ (U : Nat) (e2 : Entity) (w : V), r.created e2 → U < MAX_COMPONENTS →
      (U ≠ T ∨ e2.GetId ≠ e.GetId) →
      ∃ r1, r.AddComponent U e2 w = .ok r1 ∧ r1.HasComponent T e = .ok true ∧
        r1.GetComponent T e = .ok v) ∧
    (∀ e3 r1, r.CreateEntity = .ok (e3, r1) →
      r1.HasComponent T e = .ok true ∧ r1.GetComponent T e = .ok v) ∧
    (r.numEntities < INT_MAX → ∃ e3 r1, r.CreateEntity = .ok (e3, r1)) ∧
    (∃ r1, r.Update = .ok r1 ∧ r1.HasComponent T e = .ok true ∧
      r1.GetComponent T e = .ok v) ∧
    (((registryAfter crowd).poolOf 0).map Pool.GetSize = some 100 ∧
      ((registryAfter (crowd ++ [.addComponent 0 ⟨100⟩ 9])).poolOf 0).map Pool.GetSize
        = some 101 ∧
      (registryAfter (crowd ++ [.addComponent 0 ⟨100⟩ 9])).HasComponent 0 ⟨0⟩ = .ok true ∧
      (registryAfter (crowd ++ [.addComponent 0 ⟨100⟩ 9])).GetComponent 0 ⟨0⟩ = .ok 7) := by
  have hinv := hr.inv
  obtain ⟨hT, sig, hsig, hbit⟩ := HasComponent_eq_ok hhas
  have he : r.created e := hinv.created_of_signature hsig
  refine ⟨⟨he, hT⟩, ?_, ?_, ?_, ?_, ?_⟩
  · intro U e2 w he2 hU hne
    exact AddComponent_keeps_other r hinv e T v hhas hget U e2 w he2 hU hne
  · intro e3 r1 hc
    have hlt := (CreateEntity_ok hc).1
    rw [CreateEntity_of_inv r hinv hlt] at hc
    simp only [Except.ok.injEq, Prod.mk.injEq] at hc
    obtain ⟨-, hr1⟩ := hc
    subst hr1
    constructor
    · rw [HasComponent_eq _ _ T hT]
      simp only
      rw [vectorAt_append_left _ _ _ (by rw [hinv.signatures]; exact he.2), hsig]
      simp only [hbit]
    · rw [← hget]
      rfl
  · intro hlt
    exact ⟨_, _, CreateEntity_of_inv r hinv hlt⟩
  · refine ⟨_, Update_of_inv r hinv, ?_, ?_⟩
    · rw [HasComponent_eq _ _ T hT]
      simp only [hsig, hbit]
    · rw [← hget]
      rfl
  · set_option maxRecDepth 100000 in decide

/-- C11 on the tank of `Game::Setup`: its transform value stays when the rigid body is
written again. -/
theorem C11_witness :
    Reachable (registryAfter tankSetup) ∧
    (registryAfter tankSetup).HasComponent 0 ⟨0⟩ = .ok true ∧
    (registryAfter tankSetup).GetComponent 0 ⟨0⟩ = .ok 10 ∧
    ∃ r1, (registryAfter tankSetup).AddComponent 1 ⟨0⟩ 51 = .ok r1 ∧
      r1.HasComponent 0 ⟨0⟩ = .ok true ∧ r1.GetComponent 0 ⟨0⟩ = .ok 10 :=
  ⟨reachable_registryAfter _, by decide, by decide,
    (C11_component_value_persists (registryAfter tankSetup) (reachable_registryAfter _)
      ⟨0⟩ 0 10 (by decide) (by decide)).2.1 1 ⟨0⟩ 51 (by decide) (by decide)
      (Or.inl (by decide))⟩


/-! ## The map of systems -/

theorem findSystem_eq_none_iff (systems : List (Nat × System)) (key : Nat) :
    findSystem systems key = none ↔ key ∉ systems.map Prod.fst := by
  induction systems with
  | nil => simp [findSystem]
  | cons p rest ih =>
    obtain ⟨k, s⟩ := p
    simp only [findSystem, List.map_cons, List.mem_cons, not_or]
    split
    · rename_i hk
      simp [hk]
    · rename_i hk
      rw [ih]
      constructor
      · intro h
        exact ⟨fun e => hk e.symm, h⟩
      · intro h
        exact h.2

theorem findSystem_append (l : List (Nat × System)) (k : Nat) (s : System) (key : Nat) :
    findSystem (l ++ [(k, s)]) key =
      match findSystem l key with
      | some x => some x
      | none => if k = key then some s else none := by
  induction l with
  | nil => simp [findSystem]
  | cons p rest ih =>
    obtain ⟨k0, s0⟩ := p
    simp only [findSystem, List.cons_append]
    split
    · rfl
    · exact ih

theorem findSystem_filter (l : List (Nat × System)) (T key : Nat) :
    findSystem (l.filter (fun p => !(decide (p.1 = T)))) key =
      if key = T then none else findSystem l key := by
  induction l with
  | nil => simp [findSystem]
  | cons p rest ih =>
    obtain ⟨k0, s0⟩ := p
    by_cases h0 : k0 = T
    · subst h0
      simp only [List.filter_cons, decide_True, Bool.not_true, Bool.false_eq_true, if_false, ih,
        findSystem]
      by_cases hk : key = k0
      · simp [hk]
      · have hk1 : ¬ k0 = key := fun e => hk e.symm
        simp [hk, hk1]
    · simp only [List.filter_cons, h0, decide_False, Bool.not_false, if_true, findSystem, ih]
      by_cases hk : key = T
      · subst hk
        simp [h0]
      · simp [hk]

theorem findSystem_replaceSystem (l : List (Nat × System)) (T : Nat) (s : System)
    (key : Nat) :
    findSystem (replaceSystem l T s) key =
      if key = T then (findSystem l T).map (fun _ => s) else findSystem l key := by
  induction l with
  | nil => simp [findSystem, replaceSystem]
  | cons p rest ih =>
    obtain ⟨k0, s0⟩ := p
    simp only [replaceSystem]
    by_cases h0 : k0 = T
    · subst h0
      simp only [if_true, findSystem]
      by_cases hk : key = k0
      · simp [hk]
      · have hk1 : ¬ k0 = key := fun e => hk e.symm
        simp [hk, hk1]
    · simp only [h0, if_false, findSystem, ih]
      by_cases hk : key = T
      · subst hk
        simp [h0]
      · simp [hk]

theorem keys_replaceSystem (l : List (Nat × System)) (T : Nat) (s : System) :
    (replaceSystem l T s).map Prod.fst = l.map Prod.fst := by
  induction l with
  | nil => rfl
  | cons p rest ih =>
    obtain ⟨k0, s0⟩ := p
    simp only [replaceSystem]
    split
    · rfl
    · simp [ih]

theorem keys_visitSystem (sig : Signature) (e : Entity) (l : List (Nat × System)) :
    (l.map (visitSystem sig e)).map Prod.fst = l.map Prod.fst := by
  rw [List.map_map]
  apply List.map_congr_left
  intro p _
  simp only [Function.comp, visitSystem]
  split <;> rfl

theorem keys_withAdded (added : Signature → List Entity) (l : List (Nat × System)) :
    (l.map (fun entry => withAdded (added entry.2.componentSignature) entry)).map Prod.fst
      = l.map Prod.fst := by
  rw [List.map_map]
  apply List.map_congr_left
  intro p _
  rfl

theorem keys_filter_nodup (l : List (Nat × System)) (T : Nat)
    (h : (l.map Prod.fst).Nodup) :
    ((l.filter (fun p => !(decide (p.1 = T)))).map Prod.fst).Nodup :=
  h.sublist ((List.filter_sublist l).map Prod.fst)

theorem filter_length_of_nodup (l : List (Nat × System)) (T : Nat) (s : System)
    (h : (l.map Prod.fst).Nodup) (hf : findSystem l T = some s) :
    (l.filter (fun p => !(decide (p.1 = T)))).length + 1 = l.length := by
  induction l with
  | nil => simp [findSystem] at hf
  | cons p rest ih =>
    obtain ⟨k0, s0⟩ := p
    simp only [List.map_cons, List.nodup_cons] at h
    by_cases h0 : k0 = T
    · subst h0
      have hrest : rest.filter (fun p => !(decide (p.1 = k0))) = rest := by
        rw [List.filter_eq_self]
        intro q hq
        have : q.1 ≠ k0 := by
          intro hqe
          apply h.1
          rw [← hqe]
          exact List.mem_map_of_mem Prod.fst hq
        simp [this]
      simp [List.filter_cons, hrest]
    · simp only [findSystem, h0, if_false] at hf
      simp [List.filter_cons, h0, ih h.2 hf]


theorem systemAddEntity_keys {V : Type} {r r1 : Registry V} {key : Nat} {e : Entity}
    (h : r.systemAddEntity key e = .ok r1) :
    r1.systems.map Prod.fst = r.systems.map Prod.fst := by
  unfold Registry.systemAddEntity at h
  split at h
  · simp at h
  · simp only [Except.ok.injEq] at h
    rw [← h]
    exact keys_replaceSystem _ _ _

theorem systemRemoveEntity_keys {V : Type} {r r1 : Registry V} {key : Nat} {e : Entity}
    (h : r.systemRemoveEntity key e = .ok r1) :
    r1.systems.map Prod.fst = r.systems.map Prod.fst := by
  unfold Registry.systemRemoveEntity at h
  split at h
  · simp at h
  · simp only [Except.ok.injEq] at h
    rw [← h]
    exact keys_replaceSystem _ _ _

theorem systemRequireComponent_keys {V : Type} {r r1 : Registry V} {key c : Nat}
    (h : r.systemRequireComponent key c = .ok r1) :
    r1.systems.map Prod.fst = r.systems.map Prod.fst := by
  unfold Registry.systemRequireComponent at h
  split at h
  · simp at h
  · split at h
    · simp only [Except.ok.injEq] at h
      rw [← h]
      exact keys_replaceSystem _ _ _
    · simp at h
    · simp at h

theorem AddSystem_keys_nodup {V : Type} (r : Registry V) (key : Nat) (s : System)
    (h : (r.systems.map Prod.fst).Nodup) :
    ((r.AddSystem key s).systems.map Prod.fst).Nodup := by
  unfold Registry.AddSystem
  cases hf : findSystem r.systems key with
  | some x => exact h
  | none =>
    simp only [List.map_append, List.map_cons, List.map_nil]
    rw [List.nodup_append]
    refine ⟨h, by simp, ?_⟩
    intro a ha hb
    simp only [List.mem_singleton] at hb
    subst hb
    exact (findSystem_eq_none_iff _ _).mp hf ha

/-- The keys of the map of systems stay pairwise distinct through a call. -/
theorem exec_ok_keys {V : Type} [Inhabited V] {r r1 : Registry V} {op : Op V}
    {ret : Option Entity} (hn : (r.systems.map Prod.fst).Nodup)
    (h : r.exec op = .ok (r1, ret)) : (r1.systems.map Prod.fst).Nodup := by
  cases op with
  | createEntity =>
    rcases exec_ok h with ⟨-, e, -, hc⟩ | ⟨ho, -⟩ | ⟨ho, -⟩
    · rw [(CreateEntity_ok hc).2.2.2.1]; exact hn
    · cases ho
    · simp [Op.isCreateEntity] at ho
  | update =>
    obtain ⟨a, ha, hf⟩ := Except.map_eq_ok h
    simp only [Prod.mk.injEq] at hf
    rw [← hf.1, Update_ok ha]
    simp only
    rw [keys_withAdded (fun req =>
      interestedPending r.entityComponentSignatures req r.entitiesToBeAdded)]
    exact hn
  | addComponent c e v =>
    obtain ⟨a, ha, hf⟩ := Except.map_eq_ok h
    simp only [Prod.mk.injEq] at hf
    rw [← hf.1, (AddComponent_ok ha).2.2.2.1]; exact hn
  | removeComponent c e =>
    obtain ⟨a, ha, hf⟩ := Except.map_eq_ok h
    simp only [Prod.mk.injEq] at hf
    rw [← hf.1, (RemoveComponent_ok ha).2.2.2.1]; exact hn
  | addSystem key s =>
    simp only [Registry.exec, Except.ok.injEq, Prod.mk.injEq] at h
    rw [← h.1]
    exact AddSystem_keys_nodup r key s hn
  | removeSystem key =>
    obtain ⟨a, ha, hf⟩ := Except.map_eq_ok h
    simp only [Prod.mk.injEq] at hf
    rw [← hf.1, RemoveSystem_ok ha]
    exact keys_filter_nodup _ _ hn
  | addEntityToSystems e =>
    obtain ⟨a, ha, hf⟩ := Except.map_eq_ok h
    simp only [Prod.mk.injEq] at hf
    obtain ⟨sig, -, hr⟩ := AddEntityToSystems_ok ha
    rw [← hf.1, hr]
    simp only
    rw [keys_visitSystem]
    exact hn
  | systemAddEntity key e =>
    obtain ⟨a, ha, hf⟩ := Except.map_eq_ok h
    simp only [Prod.mk.injEq] at hf
    rw [← hf.1, systemAddEntity_keys ha]; exact hn
  | systemRemoveEntity key e =>
    obtain ⟨a, ha, hf⟩ := Except.map_eq_ok h
    simp only [Prod.mk.injEq] at hf
    rw [← hf.1, systemRemoveEntity_keys ha]; exact hn
  | systemRequireComponent key c =>
    obtain ⟨a, ha, hf⟩ := Except.map_eq_ok h
    simp only [Prod.mk.injEq] at hf
    rw [← hf.1, systemRequireComponent_keys ha]; exact hn

/-- In a reachable registry the map of systems has one entry per key. -/
theorem Reachable.keys_nodup {V : Type} [Inhabited V] {r : Registry V} (h : Reachable r) :
    (r.systems.map Prod.fst).Nodup := by
  induction h with
  | new => simp [Registry.new]
  | step r r1 op ret _ hs ih => exact exec_ok_keys ih hs
  | caught r r1 op _ hs ih =>
    rw [(exec_caught hs).2.2.2.2]; exact ih



/-- C12: on a registry that has a system under the key of type T, `AddSystem<T>(args)`
changes nothing, so `GetSystem<T>` returns the first instance with its required
signature and its list of entities; registering twice under a new key keeps the first
object; and a reachable registry has at most one instance per key. -/
theorem C12_duplicate_AddSystem_keeps_first {V : Type} [Inhabited V] (r : Registry V)
    (key : Nat) (first newSystem : System) (h : r.GetSystem key = .ok first) :
    r.HasSystem key = true ∧
    r.AddSystem key newSystem = r ∧
    (r.AddSystem key newSystem).GetSystem key = .ok first ∧
    (∀ (r0 : Registry V) (s1 s2 : System), r0.HasSystem key = false →
      ((r0.AddSystem key s1).AddSystem key s2).GetSystem key = .ok s1 ∧
      (r0.AddSystem key s1).AddSystem key s2 = r0.AddSystem key s1) ∧
    (Reachable r → (r.systems.map Prod.fst).Nodup) := by
  have hf : findSystem r.systems key = some first := by
    unfold Registry.GetSystem at h
    cases hq : findSystem r.systems key with
    | none => rw [hq] at h; simp at h
    | some s => rw [hq] at h; simp only [Except.ok.injEq] at h; rw [h]
  have hadd : r.AddSystem key newSystem = r := by
    simp [Registry.AddSystem, hf]
  refine ⟨by simp [Registry.HasSystem, hf], hadd, by rw [hadd]; exact h, ?_,
    fun hr => hr.keys_nodup⟩
  intro r0 s1 s2 h0
  have hf0 : findSystem r0.systems key = none := by
    simpa [Registry.HasSystem] using h0
  have h1 : findSystem (r0.AddSystem key s1).systems key = some s1 := by
    simp only [Registry.AddSystem, hf0]
    exact findSystem_append_new _ _ _ hf0
  have h2 : (r0.AddSystem key s1).AddSystem key s2 = r0.AddSystem key s1 := by
    generalize r0.AddSystem key s1 = r2 at h1 ⊢
    simp [Registry.AddSystem, h1]
  refine ⟨?_, h2⟩
  rw [h2]
  simp only [Registry.GetSystem, h1]

/-- C12 on a system that has a required signature and an entity in its list. -/
theorem C12_witness :
    (registryAfter [.addSystem 7 (systemRequiring [0]), .createEntity,
      .addComponent 0 ⟨0⟩ 10, .update]).GetSystem 7
      = .ok ⟨(systemRequiring [0]).componentSignature, [⟨0⟩]⟩ ∧
    (registryAfter [.addSystem 7 (systemRequiring [0]), .createEntity,
      .addComponent 0 ⟨0⟩ 10, .update]).AddSystem 7 (systemRequiring [1])
      = registryAfter [.addSystem 7 (systemRequiring [0]), .createEntity,
        .addComponent 0 ⟨0⟩ 10, .update] :=
  ⟨by decide,
    (C12_duplicate_AddSystem_keeps_first (registryAfter [.addSystem 7 (systemRequiring [0]),
      .createEntity, .addComponent 0 ⟨0⟩ 10, .update]) 7
      ⟨(systemRequiring [0]).componentSignature, [⟨0⟩]⟩ (systemRequiring [1])
      (by decide)).2.1⟩

/-- C13: after `AddSystem<T>`, `HasSystem<T>` is true; after `RemoveSystem<T>` on a
registry with `HasSystem<T>`, which returns, `HasSystem<T>` is false; and for another
type U neither call changes `HasSystem<U>` or what `GetSystem<U>` returns. In a reachable
registry `RemoveSystem<T>` takes exactly one entry out of the map. -/
theorem C13_AddSystem_RemoveSystem_HasSystem {V : Type} [Inhabited V] (r : Registry V)
    (T : Nat) (newSystem : System) :
    (r.AddSystem T newSystem).HasSystem T = true ∧
    (r.HasSystem T = true → ∃ r1, r.RemoveSystem T = .ok r1 ∧ r1.HasSystem T = false) ∧
    (∀ U, U ≠ T →
      (r.AddSystem T newSystem).HasSystem U = r.HasSystem U ∧
      (r.AddSystem T newSystem).GetSystem U = r.GetSystem U) ∧
    (∀ U r1, U ≠ T → r.RemoveSystem T = .ok r1 →
      r1.HasSystem U = r.HasSystem U ∧ r1.GetSystem U = r.GetSystem U) ∧
    (Reachable r → ∀ r1, r.RemoveSystem T = .ok r1 →
      r1.systems.length + 1 = r.systems.length) := by
  refine ⟨?_, ?_, ?_, ?_, ?_⟩
  · unfold Registry.AddSystem Registry.HasSystem
    cases hf : findSystem r.systems T with
    | some s => simp [hf]
    | none => simp [findSystem_append_new _ _ _ hf]
  · intro h
    unfold Registry.HasSystem at h
    cases hf : findSystem r.systems T with
    | none => rw [hf] at h; simp at h
    | some s =>
      refine ⟨{ r with systems := r.systems.filter (fun p => !(decide (p.1 = T))) },
        by simp only [Registry.RemoveSystem, hf], ?_⟩
      simp only [Registry.HasSystem, findSystem_filter, if_true, Option.isSome_none]
  · intro U hU
    have hsame : findSystem (r.AddSystem T newSystem).systems U = findSystem r.systems U := by
      unfold Registry.AddSystem
      cases hf : findSystem r.systems T with
      | some s => rfl
      | none =>
        simp only [findSystem_append, if_neg (fun e : T = U => hU e.symm)]
        cases findSystem r.systems U <;> rfl
    exact ⟨by simp only [Registry.HasSystem, hsame],
      by simp only [Registry.GetSystem, hsame]⟩
  · intro U r1 hU hrem
    rw [RemoveSystem_ok hrem]
    exact ⟨by simp only [Registry.HasSystem, findSystem_filter, if_neg hU],
      by simp only [Registry.GetSystem, findSystem_filter, if_neg hU]⟩
  · intro hr r1 hrem
    have hk := hr.keys_nodup
    rw [RemoveSystem_ok hrem]
    unfold Registry.RemoveSystem at hrem
    cases hf : findSystem r.systems T with
    | none => rw [hf] at hrem; simp at hrem
    | some s => exact filter_length_of_nodup _ T s hk hf

/-- C13 on a registry with two systems: removing one leaves the other. -/
theorem C13_witness :
    (registryAfter [.addSystem 7 (systemRequiring [0]),
      .addSystem 8 (systemRequiring [1])]).HasSystem 7 = true ∧
    ∃ r1, (registryAfter [.addSystem 7 (systemRequiring [0]),
        .addSystem 8 (systemRequiring [1])]).RemoveSystem 7 = .ok r1 ∧
      r1.HasSystem 7 = false :=
  ⟨by decide,
    (C13_AddSystem_RemoveSystem_HasSystem (registryAfter [.addSystem 7 (systemRequiring [0]),
      .addSystem 8 (systemRequiring [1])]) 7 System.new).2.1 (by decide)⟩



/-! ## The list of entities of a system -/

theorem RemoveEntity_entities (s : System) (e : Entity) :
    (s.RemoveEntity e).entities = s.entities.filter (fun x => decide (x.GetId ≠ e.GetId)) := by
  unfold System.RemoveEntity
  simp only
  apply List.filter_congr
  intro x _
  simp only [Entity.eq, Entity.GetId]
  by_cases h : e.id = x.id
  · simp [h]
  · have h1 : ¬ x.id = e.id := fun q => h q.symm
    simp [h, h1]

/-- C15: `System::RemoveEntity(e)` keeps exactly the entities whose id differs from the
id of `e`, in their order and with their multiplicity: no entity with the id of `e` is
left, the list is unchanged when no entity has that id, `AddEntity(e)` followed by
`RemoveEntity(e)` gives back a list that had no entity with that id, and the required
signature is not touched. -/
theorem C15_RemoveEntity_by_id (s : System) (e : Entity) :
    (s.RemoveEntity e).GetEntities
      = s.GetEntities.filter (fun x => decide (x.GetId ≠ e.GetId)) ∧
    (∀ x ∈ (s.RemoveEntity e).GetEntities, x.GetId ≠ e.GetId) ∧
    (∀ x : Entity, x.GetId ≠ e.GetId →
      ((s.RemoveEntity e).GetEntities.count x = s.GetEntities.count x ∧
        (x ∈ (s.RemoveEntity e).GetEntities ↔ x ∈ s.GetEntities))) ∧
    (s.RemoveEntity e).GetEntities.Sublist s.GetEntities ∧
    ((∀ x ∈ s.GetEntities, x.GetId ≠ e.GetId) → s.RemoveEntity e = s) ∧
    ((∀ x ∈ s.GetEntities, x.GetId ≠ e.GetId) → (s.AddEntity e).RemoveEntity e = s) ∧
    (s.RemoveEntity e).GetComponentSignature = s.GetComponentSignature := by
  have hent := RemoveEntity_entities s e
  have hsame : (∀ x ∈ s.GetEntities, x.GetId ≠ e.GetId) → s.RemoveEntity e = s := by
    intro h
    have : (s.RemoveEntity e).entities = s.entities := by
      rw [hent, List.filter_eq_self]
      intro x hx
      simpa using h x hx
    cases s
    simp only [System.RemoveEntity] at this ⊢
    rw [this]
  refine ⟨hent, ?_, ?_, ?_, hsame, ?_, rfl⟩
  · intro x hx
    simp only [System.GetEntities, hent, List.mem_filter, decide_eq_true_eq] at hx
    exact hx.2
  · intro x hx
    simp only [System.GetEntities, hent]
    constructor
    · exact List.count_filter (by simpa using hx)
    · simp only [List.mem_filter, decide_eq_true_eq]
      exact ⟨fun h => h.1, fun h => ⟨h, hx⟩⟩
  · simp only [System.GetEntities, hent]
    exact List.filter_sublist _
  · intro h
    have hent2 := RemoveEntity_entities (s.AddEntity e) e
    have : ((s.AddEntity e).RemoveEntity e).entities = s.entities := by
      rw [hent2]
      simp only [System.AddEntity, List.filter_append, List.filter_cons, List.filter_nil,
        ne_eq, not_true_eq_false, decide_False, Bool.false_eq_true, if_false, List.append_nil]
      rw [List.filter_eq_self]
      intro x hx
      simpa using h x hx
    cases s
    simp only [System.RemoveEntity, System.AddEntity] at this ⊢
    rw [this]

/-- C15 on a list with the entity twice among others. -/
theorem C15_witness :
    (∀ x ∈ (System.mk Signature.zero [⟨1⟩, ⟨2⟩]).GetEntities, x.GetId ≠ (Entity.mk 5).GetId) ∧
    ((System.mk Signature.zero [⟨1⟩, ⟨2⟩]).AddEntity ⟨5⟩).RemoveEntity ⟨5⟩
      = System.mk Signature.zero [⟨1⟩, ⟨2⟩] ∧
    ((System.mk Signature.zero [⟨5⟩, ⟨1⟩, ⟨5⟩, ⟨2⟩, ⟨1⟩]).RemoveEntity ⟨5⟩).GetEntities
      = [⟨1⟩, ⟨2⟩, ⟨1⟩] :=
  ⟨by decide,
    (C15_RemoveEntity_by_id (System.mk Signature.zero [⟨1⟩, ⟨2⟩]) ⟨5⟩).2.2.2.2.2.1
      (by decide), by decide⟩



/-! ## Sizes of the pools -/

theorem Pool.new_length {T : Type} [Inhabited T] (n : Nat) :
    (Pool.new n : Pool T).data.length = n := by
  simp [Pool.new, vectorResize_length]

theorem Pool.Resize_length {T : Type} [Inhabited T] (p : Pool T) (n : Nat) :
    (p.Resize n).data.length = n := by
  simp [Pool.Resize, vectorResize_length]

theorem vectorResize_getElem?_kept {α : Type} (v : List α) (n : Nat) (fill : α) (i : Nat)
    (hn : i < n) (hi : i < v.length) : (vectorResize v n fill)[i]? = v[i]? := by
  unfold vectorResize
  rw [List.getElem?_append_left (by simp [List.length_take]; omega), List.getElem?_take,
    if_pos hn]

theorem vectorResize_getElem?_beyond {α : Type} (v : List α) (n : Nat) (fill : α) (i : Nat)
    (hn : n ≤ i) : (vectorResize v n fill)[i]? = none := by
  rw [List.getElem?_eq_none]
  rw [vectorResize_length]
  exact hn

/-- The pools after a call: as before, or as `AddComponent<T>` on a created entity writes
them. -/
theorem exec_pools {V : Type} [Inhabited V] {r r1 : Registry V} {op : Op V} (hinv : r.Inv)
    (h : (∃ ret, r.exec op = .ok (r1, ret)) ∨ r.exec op = .error (.outOfRange r1)) :
    r1.componentPools = r.componentPools ∨
    ∃ c e v, r.created e ∧ e.id.toNat < (r.grownPool c e).data.length ∧
      r1.componentPools = (r.poolsFor c).set c
        (some ⟨(r.grownPool c e).data.set e.id.toNat v⟩) := by
  cases op with
  | addComponent c e v =>
    right
    have hdef : r.AddComponent c e v ≠ .error .undefined := by
      rcases h with ⟨ret, h⟩ | h
      · obtain ⟨a, ha, -⟩ := Except.map_eq_ok h
        rw [ha]; simp
      · rw [Except.map_eq_error h]; simp
    obtain ⟨sig, -, hlt, hsig, hcase⟩ := AddComponent_outcome r c e v hdef
    refine ⟨c, e, v, hinv.created_of_signature hsig, hlt, ?_⟩
    rcases hcase with ⟨-, hadd⟩ | ⟨sig1, -, hadd⟩
    · rcases h with ⟨ret, h⟩ | h
      · obtain ⟨a, ha, -⟩ := Except.map_eq_ok h
        rw [ha] at hadd; simp at hadd
      · have := Except.map_eq_error h
        rw [this] at hadd
        simp only [Except.error.injEq, Fault.outOfRange.injEq] at hadd
        rw [hadd]
    · rcases h with ⟨ret, h⟩ | h
      · obtain ⟨a, ha, hf⟩ := Except.map_eq_ok h
        simp only [Prod.mk.injEq] at hf
        rw [ha] at hadd
        simp only [Except.ok.injEq] at hadd
        rw [← hf.1, hadd]
      · have := Except.map_eq_error h
        rw [this] at hadd; simp at hadd
  | createEntity =>
    left
    rcases h with ⟨ret, h⟩ | h
    · rcases exec_ok h with ⟨-, e, -, hc⟩ | ⟨ho, -⟩ | ⟨ho, -⟩
      · exact (CreateEntity_ok hc).2.2.2.2.1
      · cases ho
      · simp [Op.isCreateEntity] at ho
    · exact absurd (exec_caught h).1 (by simp [Op.isCreateEntity])
  | update =>
    left
    rcases h with ⟨ret, h⟩ | h
    · obtain ⟨a, ha, hf⟩ := Except.map_eq_ok h
      simp only [Prod.mk.injEq] at hf
      rw [← hf.1, Update_ok ha]
    · exact (Update_not_caught (Except.map_eq_error h)).elim
  | removeComponent c e =>
    left
    rcases h with ⟨ret, h⟩ | h
    · obtain ⟨a, ha, hf⟩ := Except.map_eq_ok h
      simp only [Prod.mk.injEq] at hf
      rw [← hf.1]
      exact (RemoveComponent_ok ha).2.2.2.2.1
    · rw [RemoveComponent_caught (Except.map_eq_error h)]
  | addSystem key s =>
    left
    rcases h with ⟨ret, h⟩ | h
    · simp only [Registry.exec, Except.ok.injEq, Prod.mk.injEq] at h
      obtain ⟨systems, hs⟩ := AddSystem_eq r key s
      rw [← h.1, hs]
    · simp [Registry.exec] at h
  | removeSystem key =>
    left
    rcases h with ⟨ret, h⟩ | h
    · obtain ⟨a, ha, hf⟩ := Except.map_eq_ok h
      simp only [Prod.mk.injEq] at hf
      rw [← hf.1, RemoveSystem_ok ha]
    · exact (RemoveSystem_not_caught (Except.map_eq_error h)).elim
  | addEntityToSystems e =>
    left
    rcases h with ⟨ret, h⟩ | h
    · obtain ⟨a, ha, hf⟩ := Except.map_eq_ok h
      simp only [Prod.mk.injEq] at hf
      obtain ⟨sig, -, hr⟩ := AddEntityToSystems_ok ha
      rw [← hf.1, hr]
    · exact (AddEntityToSystems_not_caught (Except.map_eq_error h)).elim
  | systemAddEntity key e =>
    left
    rcases h with ⟨ret, h⟩ | h
    · obtain ⟨a, ha, hf⟩ := Except.map_eq_ok h
      simp only [Prod.mk.injEq] at hf
      obtain ⟨systems, hr⟩ := systemAddEntity_ok ha
      rw [← hf.1, hr]
    · exact (systemAddEntity_not_caught (Except.map_eq_error h)).elim
  | systemRemoveEntity key e =>
    left
    rcases h with ⟨ret, h⟩ | h
    · obtain ⟨a, ha, hf⟩ := Except.map_eq_ok h
      simp only [Prod.mk.injEq] at hf
      obtain ⟨systems, hr⟩ := systemRemoveEntity_ok ha
      rw [← hf.1, hr]
    · exact (systemRemoveEntity_not_caught (Except.map_eq_error h)).elim
  | systemRequireComponent key c =>
    left
    rcases h with ⟨ret, h⟩ | h
    · obtain ⟨a, ha, hf⟩ := Except.map_eq_ok h
      simp only [Prod.mk.injEq] at hf
      obtain ⟨systems, hr⟩ := systemRequireComponent_ok ha
      rw [← hf.1, hr]
    · rw [systemRequireComponent_caught (Except.map_eq_error h)]

theorem poolOf_congr {V : Type} {r r1 : Registry V}
    (h : r1.componentPools = r.componentPools) (c : Nat) : r1.poolOf c = r.poolOf c := by
  unfold Registry.poolOf
  rw [h]

theorem poolOf_of_componentPools {V : Type} (r r1 : Registry V) (c : Nat) (p : Pool V)
    (h : r1.componentPools = (r.poolsFor c).set c (some p)) (i : Nat) :
    r1.poolOf i = if i = c then some p else r.poolOf i := by
  rw [← poolOf_set_poolsFor r c p i]
  exact poolOf_congr h i

/-- The pool that `AddComponent<T>` starts from has at least 100 slots. -/
theorem poolFor_length {V : Type} [Inhabited V] (r : Registry V) (hp : r.PoolsInv) (c : Nat) :
    100 ≤ (r.poolFor c).data.length := by
  cases h : r.poolOf c with
  | none => rw [poolFor_of_none r c h, Pool.new_length]
  | some p => rw [poolFor_of_poolOf r c p h]; exact hp c p h

/-- Through a call no pool is lost or gets shorter, and every pool keeps at least 100
slots. -/
theorem exec_pools_grow {V : Type} [Inhabited V] {r r1 : Registry V} {op : Op V}
    (hinv : r.Inv) (hp : r.PoolsInv)
    (h : (∃ ret, r.exec op = .ok (r1, ret)) ∨ r.exec op = .error (.outOfRange r1)) :
    r1.PoolsInv ∧ r.poolsGrow r1 := by
  rcases exec_pools hinv h with hsame | ⟨c, e, v, he, hlt, hpools⟩
  · constructor
    · intro i p hi
      rw [poolOf_congr hsame] at hi
      exact hp i p hi
    · intro i p hi
      exact ⟨p, by rw [poolOf_congr hsame]; exact hi, le_refl _⟩
  · have hof := poolOf_of_componentPools r r1 c _ hpools
    obtain ⟨hge, -, -⟩ := grownPool_of_created r c e he
    have h100 := poolFor_length r hp c
    constructor
    · intro i p hi
      rw [hof] at hi
      split at hi
      · simp only [Option.some.injEq] at hi
        rw [← hi]
        simp only [List.length_set]
        omega
      · exact hp i p hi
    · intro i p hi
      rw [hof]
      split
      · rename_i hic
        subst hic
        refine ⟨_, rfl, ?_⟩
        simp only [List.length_set]
        rw [poolFor_of_poolOf r i p hi] at hge
        exact hge
      · exact ⟨p, hi, le_refl _⟩

theorem PoolsInv_new {V : Type} : (Registry.new : Registry V).PoolsInv := by
  intro c p h
  simp [Registry.poolOf, Registry.new] at h

theorem Reachable.poolsInv {V : Type} [Inhabited V] {r : Registry V} (h : Reachable r) :
    r.PoolsInv := by
  induction h with
  | new => exact PoolsInv_new
  | step r r1 op ret hr hs ih => exact (exec_pools_grow hr.inv ih (Or.inl ⟨ret, hs⟩)).1
  | caught r r1 op hr hs ih => exact (exec_pools_grow hr.inv ih (Or.inr hs)).1



/-- C17 as stated fails: with 101 entities, `AddComponent` of type 0 for the first
entity creates a pool of 100 slots and does not resize it, so the pool has fewer slots
than `numEntities`. -/
theorem C17_counterexample :
    (registryAfter (List.replicate 101 .createEntity)).created ⟨0⟩ ∧
    (registryAfter (List.replicate 101 .createEntity)).AddComponent 0 ⟨0⟩ 7
      = .ok (registryAfter crowd) ∧
    (registryAfter crowd).numEntities = 101 ∧
    ((registryAfter crowd).poolOf 0).map Pool.GetSize = some 100 := by
  set_option maxRecDepth 100000 in decide

/-- C17 (amended): in a reachable registry, for a created entity and a type id below
`MAX_COMPONENTS`, `AddComponent<T>(e, v)` returns and leaves the pool of T with at least
100 slots, with more slots than the id of `e`, and not shorter than before. The pool is
resized to `numEntities` slots only when the id of `e` is not below the size the pool had
(100 for a new pool); otherwise it keeps that size. -/
theorem C17_AddComponent_pool_size {V : Type} [Inhabited V] (r : Registry V)
    (hr : Reachable r) (e : Entity) (he : r.created e) (c : Nat) (hc : c < MAX_COMPONENTS)
    (v : V) :
    ∃ r1 p, r.AddComponent c e v = .ok r1 ∧ r1.poolOf c = some p ∧
      r1.numEntities = r.numEntities ∧
      100 ≤ p.GetSize ∧ e.GetId < (p.GetSize : Int) ∧
      (r.poolFor c).GetSize ≤ p.GetSize ∧
      (e.GetId < ((r.poolFor c).GetSize : Int) → p.GetSize = (r.poolFor c).GetSize) ∧
      (((r.poolFor c).GetSize : Int) ≤ e.GetId → p.GetSize = r1.numEntities) := by
  have hinv := hr.inv
  have hdef : r.AddComponent c e v ≠ .error .undefined := by
    obtain ⟨_, _, _, _, _, _, _, _, hadd⟩ := AddComponent_created r hinv e he c hc v
    rw [hadd]
    simp
  obtain ⟨sig, h0, hlt, hsig, hcase⟩ := AddComponent_outcome r c e v hdef
  obtain ⟨s1, hs1⟩ := Signature.set_isSome sig c true hc
  rcases hcase with ⟨hnone, -⟩ | ⟨sig1, hsig1, hadd⟩
  · rw [hs1] at hnone; simp at hnone
  obtain ⟨hge, -, -⟩ := grownPool_of_created r c e he
  have h100 := poolFor_length r hr.poolsInv c
  refine ⟨_, ⟨(r.grownPool c e).data.set e.id.toNat v⟩, hadd,
    (poolOf_set_poolsFor r c _ c).trans (if_pos rfl), rfl, ?_, ?_, ?_, ?_, ?_⟩
  · simp only [Pool.GetSize, List.length_set]
    omega
  · simp only [Pool.GetSize, List.length_set, Entity.GetId]
    exact (Int.toNat_lt h0).mp hlt
  · simp only [Pool.GetSize, List.length_set]
    exact hge
  · intro hl
    simp only [Pool.GetSize, List.length_set]
    unfold Registry.grownPool
    rw [if_neg (not_le.mpr hl)]
  · intro hl
    simp only [Pool.GetSize, List.length_set]
    unfold Registry.grownPool
    rw [if_pos hl, Pool.Resize_length]

/-- C17 (amended) on the tank of `Game::Setup`. -/
theorem C17_witness :
    Reachable (registryAfter tankSetup) ∧ (registryAfter tankSetup).created ⟨0⟩ ∧
    2 < MAX_COMPONENTS ∧
    ∃ r1 p, (registryAfter tankSetup).AddComponent 2 ⟨0⟩ 3 = .ok r1 ∧
      r1.poolOf 2 = some p ∧ r1.numEntities = (registryAfter tankSetup).numEntities ∧
      100 ≤ p.GetSize :=
  ⟨reachable_registryAfter _, by decide, by decide,
    (C17_AddComponent_pool_size (registryAfter tankSetup) (reachable_registryAfter _)
      ⟨0⟩ (by decide) 2 (by decide) 3).imp
      (fun _ h => h.imp (fun _ g => ⟨g.1, g.2.1, g.2.2.1, g.2.2.2.1⟩))⟩

/-- C18 as stated fails: `Resize(1)` on a pool of three slots leaves one slot, so the
pool has fewer slots than before and the slot of index 2 has lost its value. -/
theorem C18_counterexample :
    (Pool.mk [10, 20, 30]).GetSize = 3 ∧
    ((Pool.mk [10, 20, 30]).Resize 1).GetSize = 1 ∧
    (Pool.mk [10, 20, 30]).Get 2 = some 30 ∧
    ((Pool.mk [10, 20, 30]).Resize 1).Get 2 = none := by
  decide

/-- C18 (amended): `Pool::Resize(n)` sets the number of slots to `n`. A slot with an
index below both `n` and the old size keeps its value, a slot from the old size up to
`n` holds a default-constructed value, and there is no slot from `n` on. So the pool only
grows, keeping every slot, when `n` is at least the old size, and it loses the slots
from `n` on when `n` is below the old size. -/
theorem C18_Resize_sets_size {T : Type} [Inhabited T] (p : Pool T) (n : Nat) :
    (p.Resize n).GetSize = n ∧
    (∀ i : Nat, i < n → i < p.GetSize → (p.Resize n).Get i = p.Get i) ∧
    (∀ i : Nat, p.GetSize ≤ i → i < n → (p.Resize n).Get i = some default) ∧
    (∀ i : Nat, n ≤ i → (p.Resize n).Get i = none) ∧
    (p.GetSize ≤ n →
      p.GetSize ≤ (p.Resize n).GetSize ∧
      ∀ i : Nat, i < p.GetSize → (p.Resize n).Get i = p.Get i) ∧
    (n < p.GetSize → (p.Resize n).GetSize < p.GetSize) := by
  have hsize : (p.Resize n).GetSize = n := Pool.Resize_length p n
  have hkept : ∀ i : Nat, i < n → i < p.GetSize → (p.Resize n).Get i = p.Get i := by
    intro i hn hi
    simp only [Pool.Get, vectorAt_natCast, Pool.Resize]
    exact vectorResize_getElem?_kept _ _ _ _ hn hi
  refine ⟨hsize, hkept, ?_, ?_, ?_, ?_⟩
  · intro i hi hn
    simp only [Pool.Get, vectorAt_natCast, Pool.Resize]
    exact vectorResize_getElem?_new _ _ _ _ hi hn
  · intro i hn
    simp only [Pool.Get, vectorAt_natCast, Pool.Resize]
    exact vectorResize_getElem?_beyond _ _ _ _ hn
  · intro hle
    exact ⟨by rw [hsize]; exact hle, fun i hi => hkept i (by omega) hi⟩
  · intro hlt
    rw [hsize]; exact hlt

/-- C18 (amended) on a pool of three slots resized to five. -/
theorem C18_witness :
    (Pool.mk [10, 20, 30]).GetSize ≤ 5 ∧
    (Pool.mk [10, 20, 30]).GetSize ≤ ((Pool.mk [10, 20, 30]).Resize 5).GetSize ∧
    (∀ i : Nat, i < (Pool.mk [10, 20, 30]).GetSize →
      ((Pool.mk [10, 20, 30]).Resize 5).Get i = (Pool.mk [10, 20, 30]).Get i) :=
  ⟨by decide, (C18_Resize_sets_size (Pool.mk [10, 20, 30]) 5).2.2.2.2.1 (by decide)⟩



/-! ## Type ids out of range -/

theorem Signature.test_eq_none {s : Signature} {pos : Nat} (h : MAX_COMPONENTS ≤ pos) :
    s.test pos = none := by
  unfold Signature.test
  rw [if_neg (by omega)]

/-- C16: for a component type whose id is `MAX_COMPONENTS` or more, `RequireComponent<T>`
throws the bitset exception and leaves the system as it was; `AddComponent<T>`,
`RemoveComponent<T>` and `HasComponent<T>` never return, on any registry and entity; and
in a reachable registry, for a created entity, each of them throws the bitset exception
with every entity signature, the systems, the entity counter and the pending set as
before. `RemoveComponent<T>` and `HasComponent<T>` leave the whole registry as it was;
`AddComponent<T>` throws after its pool write, so the pool of T holds the value. -/
theorem C16_type_id_out_of_range_throws {V : Type} [Inhabited V] (c : Nat)
    (hc : MAX_COMPONENTS ≤ c) :
    (∀ s : System, s.RequireComponent c = .error (.outOfRange s)) ∧
    (∀ (r : Registry V) (e : Entity) (v : V) (r1 : Registry V),
      r.AddComponent c e v ≠ .ok r1) ∧
    (∀ (r : Registry V) (e : Entity) (r1 : Registry V), r.RemoveComponent c e ≠ .ok r1) ∧
    (∀ (r : Registry V) (e : Entity) (b : Bool), r.HasComponent c e ≠ .ok b) ∧
    (∀ (r : Registry V) (e : Entity), Reachable r → r.created e →
      r.RemoveComponent c e = .error (.outOfRange r) ∧
      r.HasComponent c e = .error (.outOfRange r) ∧
      ∀ v : V, ∃ r1, r.AddComponent c e v = .error (.outOfRange r1) ∧
        r1.entityComponentSignatures = r.entityComponentSignatures ∧
        r1.systems = r.systems ∧ r1.numEntities = r.numEntities ∧
        r1.entitiesToBeAdded = r.entitiesToBeAdded ∧
        r1.GetComponent c e = .ok v) := by
  have hset : ∀ (s : Signature) (b : Bool), s.set c b = none :=
    fun s b => Signature.set_eq_none.mpr hc
  refine ⟨?_, ?_, ?_, ?_, ?_⟩
  · intro s
    simp only [System.RequireComponent, hset]
  · intro r e v r1 h
    have hdef : r.AddComponent c e v ≠ .error .undefined := by rw [h]; simp
    obtain ⟨sig, -, -, -, hcase⟩ := AddComponent_outcome r c e v hdef
    rcases hcase with ⟨-, hadd⟩ | ⟨sig1, hsig1, -⟩
    · rw [hadd] at h; simp at h
    · rw [hset] at hsig1; simp at hsig1
  · intro r e r1 h
    unfold Registry.RemoveComponent at h
    simp only at h
    split at h
    · simp at h
    · simp [hset] at h
  · intro r e b h
    exact absurd (HasComponent_eq_ok h).1 (by omega)
  · intro r e hr he
    have hinv := hr.inv
    obtain ⟨sig, hsig, -, -⟩ := hinv.signature_of_created he
    refine ⟨?_, ?_, ?_⟩
    · simp only [Registry.RemoveComponent, Entity.GetId, hsig, hset]
    · simp only [Registry.HasComponent, Entity.GetId, hsig, Signature.test_eq_none hc]
    · intro v
      obtain ⟨-, hlt, -⟩ := grownPool_of_created r c e he
      have hset1 : (r.grownPool c e).Set e.GetId v
          = some ⟨(r.grownPool c e).data.set e.id.toNat v⟩ :=
        Pool.Set_of_lt _ _ _ he.1 hlt
      refine ⟨{ r with
          componentPools := (r.poolsFor c).set c
            (some ⟨(r.grownPool c e).data.set e.id.toNat v⟩) }, ?_, rfl, rfl, rfl, rfl, ?_⟩
      · rw [AddComponent_eq, hset1]
        simp only [Entity.GetId, hsig, hset]
      · exact GetComponent_of_poolOf _ c e ⟨(r.grownPool c e).data.set e.id.toNat v⟩ v
          ((poolOf_set_poolsFor r c _ c).trans (if_pos rfl)) he.1
          (List.getElem?_set_self hlt)

/-- C16 on the type id 40 and the tank of `Game::Setup`. -/
theorem C16_witness :
    MAX_COMPONENTS ≤ 40 ∧
    System.new.RequireComponent 40 = .error (.outOfRange System.new) ∧
    (registryAfter tankSetup).RemoveComponent 40 ⟨0⟩
      = .error (.outOfRange (registryAfter tankSetup)) ∧
    (registryAfter tankSetup).HasComponent 40 ⟨0⟩
      = .error (.outOfRange (registryAfter tankSetup)) :=
  ⟨by decide, (@C16_type_id_out_of_range_throws Nat _ 40 (by decide)).1 System.new,
    by decide, by decide⟩



/-! ## Indexing in range -/

theorem poolsGrow_refl {V : Type} (r : Registry V) : r.poolsGrow r :=
  fun _ p h => ⟨p, h, le_refl _⟩

theorem poolsGrow_trans {V : Type} {r r1 r2 : Registry V} (h1 : r.poolsGrow r1)
    (h2 : r1.poolsGrow r2) : r.poolsGrow r2 := by
  intro c p hp
  obtain ⟨p1, hp1, hl1⟩ := h1 c p hp
  obtain ⟨p2, hp2, hl2⟩ := h2 c p1 hp1
  exact ⟨p2, hp2, le_trans hl1 hl2⟩

/-- Through a sequence of calls no pool is lost or gets shorter. -/
theorem run_pools_grow {V : Type} [Inhabited V] (ops : List (Op V)) :
    ∀ (r r1 : Registry V) (created : List Entity), r.Inv → r.PoolsInv →
      r.run ops = some (r1, created) → r.poolsGrow r1 := by
  induction ops with
  | nil =>
    intro r r1 created _ _ h
    simp only [Registry.run, Option.some.injEq, Prod.mk.injEq] at h
    rw [← h.1]
    exact poolsGrow_refl r
  | cons op ops ih =>
    intro r r1 created hinv hp h
    unfold Registry.run at h
    split at h
    · rename_i r2 ret hexec
      split at h
      · rename_i r3 c3 hrun
        simp only [Option.some.injEq, Prod.mk.injEq] at h
        rw [← h.1]
        obtain ⟨hp2, hg⟩ := exec_pools_grow hinv hp (Or.inl ⟨ret, hexec⟩)
        exact poolsGrow_trans hg (ih r2 r3 c3 (Inv_exec_ok hinv hexec) hp2 hrun)
      · simp at h
    · rename_i r2 hexec
      obtain ⟨hp2, hg⟩ := exec_pools_grow hinv hp (Or.inr hexec)
      exact poolsGrow_trans hg (ih r2 r1 created (Inv_exec_caught hinv hexec) hp2 h)
    · simp at h

/-- C20: in a reachable registry the signature table has `numEntities` entries, every
pool has at least 100 slots, and no call or sequence of calls loses a pool or makes one
shorter. So for a created entity and a type id below `MAX_COMPONENTS` the entity has a
signature entry, `AddComponent`, `RemoveComponent`, `HasComponent` and
`AddEntityToSystems` return, and in `AddComponent` the pool after the conditional
`Resize(numEntities)` is not shorter than before and has a slot at the id of the entity. -/
theorem C20_indexing_in_range {V : Type} [Inhabited V] (r : Registry V) (hr : Reachable r) :
    r.entityComponentSignatures.length = r.numEntities ∧
    (∀ c p, r.poolOf c = some p → 100 ≤ p.GetSize) ∧
    (∀ op r1, ((∃ ret, r.exec op = .ok (r1, ret)) ∨ r.exec op = .error (.outOfRange r1)) →
      r.poolsGrow r1) ∧
    (∀ ops r1 created, r.run ops = some (r1, created) → r.poolsGrow r1) ∧
    (∀ (e : Entity) (c : Nat), r.created e → c < MAX_COMPONENTS →
      (∃ sig, vectorAt r.entityComponentSignatures e.GetId = some sig) ∧
      (∀ v : V, ∃ r1, r.AddComponent c e v = .ok r1) ∧
      (∃ r1, r.RemoveComponent c e = .ok r1) ∧
      (∃ b, r.HasComponent c e = .ok b) ∧
      (∃ r1, r.AddEntityToSystems e = .ok r1) ∧
      (r.poolFor c).GetSize ≤ (r.grownPool c e).GetSize ∧
      e.GetId < ((r.grownPool c e).GetSize : Int) ∧
      ∀ v : V, ∃ p, (r.grownPool c e).Set e.GetId v = some p) := by
  have hinv := hr.inv
  have hp := hr.poolsInv
  refine ⟨hinv.signatures, hp, ?_, ?_, ?_⟩
  · intro op r1 h
    exact (exec_pools_grow hinv hp h).2
  · intro ops r1 created h
    exact run_pools_grow ops r r1 created hinv hp h
  · intro e c he hc
    obtain ⟨sig, hsig, hsig2, -⟩ := hinv.signature_of_created he
    obtain ⟨hge, hlt, -⟩ := grownPool_of_created r c e he
    refine ⟨⟨sig, hsig⟩, ?_, ?_, ?_, ?_, hge, ?_, ?_⟩
    · intro v
      obtain ⟨r1, hadd, -⟩ := AddComponent_then_get r hinv e he c hc v
      exact ⟨r1, hadd⟩
    · obtain ⟨r1, hrem, -⟩ := RemoveComponent_then_has r hinv e he c hc
      exact ⟨r1, hrem⟩
    · exact ⟨_, HasComponent_of_signature r e c sig he.1 hsig2 hc⟩
    · exact ⟨{ r with systems := r.systems.map (visitSystem sig e) },
        by simp only [Registry.AddEntityToSystems, Entity.GetId, hsig]⟩
    · simp only [Pool.GetSize, Entity.GetId]
      exact (Int.toNat_lt he.1).mp hlt
    · intro v
      exact ⟨_, Pool.Set_of_lt _ _ _ he.1 hlt⟩

/-- C20 on the registry of 101 entities with a pool of 100 slots: `AddComponent` for the
last entity returns. -/
theorem C20_witness :
    Reachable (registryAfter crowd) ∧ (registryAfter crowd).created ⟨100⟩ ∧
    0 < MAX_COMPONENTS ∧
    ∃ r1, (registryAfter crowd).AddComponent 0 ⟨100⟩ 9 = .ok r1 :=
  ⟨reachable_registryAfter _, by set_option maxRecDepth 100000 in decide, by decide,
    ((C20_indexing_in_range (registryAfter crowd) (reachable_registryAfter _)).2.2.2.2
      ⟨100⟩ 0 (by set_option maxRecDepth 100000 in decide) (by decide)).2.1 9⟩



/-! ## The lists of the systems -/

theorem CoreReachable.reachable {V : Type} [Inhabited V] {r : Registry V}
    (h : CoreReachable r) : Reachable r := by
  induction h with
  | new => exact Reachable.new
  | step r r1 op ret _ _ hs ih => exact Reachable.step r r1 op ret ih hs
  | caught r r1 op _ _ hs ih => exact Reachable.caught r r1 op ih hs

theorem mem_of_findSystem {systems : List (Nat × System)} {key : Nat} {s : System}
    (h : findSystem systems key = some s) : (key, s) ∈ systems := by
  induction systems with
  | nil => simp [findSystem] at h
  | cons p rest ih =>
    obtain ⟨k, s0⟩ := p
    simp only [findSystem] at h
    split at h
    · rename_i hk
      simp only [Option.some.injEq] at h
      subst hk; subst h
      simp
    · exact List.mem_cons_of_mem _ (ih h)

theorem mem_replaceSystem {systems : List (Nat × System)} {key : Nat} {s : System}
    {entry : Nat × System} (h : entry ∈ replaceSystem systems key s) :
    entry ∈ systems ∨ entry.2 = s := by
  induction systems with
  | nil => simp [replaceSystem] at h
  | cons p rest ih =>
    obtain ⟨k, s0⟩ := p
    simp only [replaceSystem] at h
    split at h
    · rcases List.mem_cons.mp h with h | h
      · right; rw [h]
      · left; exact List.mem_cons_of_mem _ h
    · rcases List.mem_cons.mp h with h | h
      · left; rw [h]; simp
      · rcases ih h with h | h
        · left; exact List.mem_cons_of_mem _ h
        · right; exact h

theorem MembersInv_of_same {V : Type} {r r1 : Registry V} (hm : r.MembersInv)
    (hs : r1.systems = r.systems) (hn : r1.numEntities = r.numEntities)
    (hp : r1.entitiesToBeAdded = r.entitiesToBeAdded) : r1.MembersInv := by
  intro entry he
  rw [hs] at he
  obtain ⟨h1, h2⟩ := hm entry he
  refine ⟨h1, fun x hx => ?_⟩
  obtain ⟨hc, hlt⟩ := h2 x hx
  exact ⟨⟨hc.1, by rw [hn]; exact hc.2⟩, by rw [hp]; exact hlt⟩

/-- A system whose list is a sublist of the list of a system of the registry. -/
theorem MembersInv_replace {V : Type} {r : Registry V} (hm : r.MembersInv) (key : Nat)
    (old s : System) (hold : (key, old) ∈ r.systems) (hsub : s.entities.Sublist old.entities) :
    Registry.MembersInv { r with systems := replaceSystem r.systems key s } := by
  intro entry he
  rcases mem_replaceSystem he with h | h
  · exact hm entry h
  · obtain ⟨h1, h2⟩ := hm (key, old) hold
    rw [h]
    exact ⟨h1.sublist hsub, fun x hx => h2 x (hsub.subset hx)⟩

theorem exec_core_members {V : Type} [Inhabited V] {r r1 : Registry V} {op : Op V}
    {ret : Option Entity} (hinv : r.Inv) (hm : r.MembersInv) (hcore : op.isCore)
    (h : r.exec op = .ok (r1, ret)) : r1.MembersInv := by
  cases op with
  | createEntity =>
    rcases exec_ok h with ⟨-, e, -, hc⟩ | ⟨ho, -⟩ | ⟨ho, -⟩
    · have hlt := (CreateEntity_ok hc).1
      rw [CreateEntity_of_inv r hinv hlt] at hc
      simp only [Except.ok.injEq, Prod.mk.injEq] at hc
      rw [← hc.2]
      intro entry he
      obtain ⟨h1, h2⟩ := hm entry he
      refine ⟨h1, fun x hx => ?_⟩
      obtain ⟨hcr, hpend⟩ := h2 x hx
      refine ⟨⟨hcr.1, ?_⟩, ?_⟩
      · show x.id < ((r.numEntities + 1 : Nat) : Int)
        have := hcr.2
        omega
      · intro p hp
        have hp : p ∈ r.entitiesToBeAdded ++ [Entity.mk r.numEntities] := hp
        simp only [List.mem_append, List.mem_singleton] at hp
        rcases hp with hp | hp
        · exact hpend p hp
        · rw [hp]; exact hcr.2
    · cases ho
    · simp [Op.isCreateEntity] at ho
  | update =>
    obtain ⟨a, ha, hf⟩ := Except.map_eq_ok h
    simp only [Prod.mk.injEq] at hf
    rw [← hf.1, Update_ok ha]
    intro entry he
    simp only [List.mem_map] at he
    obtain ⟨old, hold, hentry⟩ := he
    obtain ⟨h1, h2⟩ := hm old hold
    have hsub := interestedPending_sublist r.entityComponentSignatures
      old.2.componentSignature r.entitiesToBeAdded
    rw [← hentry]
    simp only [withAdded]
    constructor
    · rw [List.pairwise_append]
      refine ⟨h1, hinv.pendingSorted.sublist hsub, ?_⟩
      intro a ha b hb
      exact (h2 a ha).2 b (hsub.subset hb)
    · intro x hx
      rcases List.mem_append.mp hx with hx | hx
      · exact ⟨(h2 x hx).1, by simp⟩
      · exact ⟨hinv.pendingCreated x (hsub.subset hx), by simp⟩
  | addComponent c e v =>
    obtain ⟨a, ha, hf⟩ := Except.map_eq_ok h
    simp only [Prod.mk.injEq] at hf
    obtain ⟨q1, q2, -, q4, -⟩ := AddComponent_ok ha
    rw [← hf.1]
    exact MembersInv_of_same hm q4 q1 q2
  | removeComponent c e =>
    obtain ⟨a, ha, hf⟩ := Except.map_eq_ok h
    simp only [Prod.mk.injEq] at hf
    obtain ⟨q1, q2, -, q4, -⟩ := RemoveComponent_ok ha
    rw [← hf.1]
    exact MembersInv_of_same hm q4 q1 q2
  | addSystem key s =>
    simp only [Registry.exec, Except.ok.injEq, Prod.mk.injEq] at h
    rw [← h.1]
    unfold Registry.AddSystem
    split
    · exact hm
    · intro entry he
      have he : entry ∈ r.systems ++ [(key, s)] := he
      simp only [List.mem_append, List.mem_singleton] at he
      rcases he with he | he
      · exact hm entry he
      · have hnil : s.entities = [] := hcore
        rw [he]
        simp [hnil]
  | removeSystem key =>
    obtain ⟨a, ha, hf⟩ := Except.map_eq_ok h
    simp only [Prod.mk.injEq] at hf
    rw [← hf.1, RemoveSystem_ok ha]
    intro entry he
    exact hm entry (List.mem_filter.mp he).1
  | addEntityToSystems e => exact hcore.elim
  | systemAddEntity key e => exact hcore.elim
  | systemRemoveEntity key e =>
    obtain ⟨a, ha, hf⟩ := Except.map_eq_ok h
    simp only [Prod.mk.injEq] at hf
    rw [← hf.1]
    unfold Registry.systemRemoveEntity Registry.GetSystem at ha
    cases hfind : findSystem r.systems key with
    | none => rw [hfind] at ha; simp at ha
    | some s =>
      rw [hfind] at ha
      simp only [Except.ok.injEq] at ha
      rw [← ha]
      exact MembersInv_replace hm key s _ (mem_of_findSystem hfind) (List.filter_sublist _)
  | systemRequireComponent key c =>
    obtain ⟨a, ha, hf⟩ := Except.map_eq_ok h
    simp only [Prod.mk.injEq] at hf
    rw [← hf.1]
    unfold Registry.systemRequireComponent Registry.GetSystem at ha
    cases hfind : findSystem r.systems key with
    | none => rw [hfind] at ha; simp at ha
    | some s =>
      rw [hfind] at ha
      simp only [System.RequireComponent] at ha
      cases hset : s.componentSignature.set c true with
      | none => rw [hset] at ha; simp at ha
      | some sig =>
        rw [hset] at ha
        simp only [Except.ok.injEq] at ha
        rw [← ha]
        exact MembersInv_replace hm key s _ (mem_of_findSystem hfind) (List.Sublist.refl _)

theorem CoreReachable.membersInv {V : Type} [Inhabited V] {r : Registry V}
    (h : CoreReachable r) : r.MembersInv := by
  induction h with
  | new => intro entry he; simp [Registry.new] at he
  | step r r1 op ret hr hcore hs ih => exact exec_core_members hr.reachable.inv ih hcore hs
  | caught r r1 op hr _ hs ih =>
    obtain ⟨-, h1, h2, -, h4⟩ := exec_caught hs
    exact MembersInv_of_same ih h4 h1 h2



theorem run_coreReachable {V : Type} [Inhabited V] (ops : List (Op V)) :
    ∀ (r r1 : Registry V) (created : List Entity), (∀ op ∈ ops, op.isCore) →
      CoreReachable r → r.run ops = some (r1, created) → CoreReachable r1 := by
  induction ops with
  | nil =>
    intro r r1 created _ hr h
    simp only [Registry.run, Option.some.injEq, Prod.mk.injEq] at h
    rw [← h.1]; exact hr
  | cons op ops ih =>
    intro r r1 created hcore hr h
    have hop : op.isCore := hcore op (by simp)
    have hrest : ∀ o ∈ ops, o.isCore := fun o ho => hcore o (by simp [ho])
    unfold Registry.run at h
    split at h
    · rename_i r2 ret hexec
      split at h
      · rename_i r3 c3 hrun
        simp only [Option.some.injEq, Prod.mk.injEq] at h
        rw [← h.1]
        exact ih r2 r3 c3 hrest (CoreReachable.step r r2 op ret hr hop hexec) hrun
      · simp at h
    · rename_i r2 hexec
      exact ih r2 r1 created hrest (CoreReachable.caught r r2 op hr hop hexec) h
    · simp at h

theorem coreReachable_registryAfter (ops : List (Op Nat)) (h : ∀ op ∈ ops, op.isCore) :
    CoreReachable (registryAfter ops) := by
  unfold registryAfter
  split
  · rename_i r created hrun
    exact run_coreReachable ops Registry.new r created h CoreReachable.new hrun
  · exact CoreReachable.new

/-- C19 as stated fails: `AddSystem` with a system that already lists entity 0 (a copy of
a system of another registry), `CreateEntity` and `Update` are calls on a fresh registry
without a direct `AddEntityToSystems` or `System::AddEntity`, and they leave the system
with the id 0 listed twice. Registered on its own, such a system lists an id that is not
below `numEntities`. -/
theorem C19_counterexample :
    (∀ op ∈ copiedSystem, op.isRegistryCall = true) ∧
    (Registry.new : Registry Nat).run copiedSystem
      = some (registryAfter copiedSystem, [⟨0⟩]) ∧
    (registryAfter copiedSystem).GetSystem 7 = .ok ⟨Signature.zero, [⟨0⟩, ⟨0⟩]⟩ ∧
    ¬ ((System.mk Signature.zero [⟨0⟩, ⟨0⟩]).GetEntities.map Entity.GetId).Nodup ∧
    (registryAfter [.addSystem 7 ⟨Signature.zero, [⟨0⟩]⟩]).GetSystem 7
      = .ok ⟨Signature.zero, [⟨0⟩]⟩ ∧
    (registryAfter [.addSystem 7 ⟨Signature.zero, [⟨0⟩]⟩]).numEntities = 0 := by
  decide

/-- C19 (amended): in a registry reached from a fresh one without a direct call of
`AddEntityToSystems` or `System::AddEntity`, and with every system handed to `AddSystem`
having an empty list of entities, the list of every system in the map, and so of every
system that `GetSystem` returns, has pairwise distinct ids, in ascending order, each of
them the id of a created entity: at least 0 and below `numEntities`. -/
theorem C19_no_entity_listed_twice {V : Type} [Inhabited V] (r : Registry V)
    (hr : CoreReachable r) :
    (∀ key s, (key, s) ∈ r.systems →
      (s.GetEntities.map Entity.GetId).Nodup ∧
      s.GetEntities.Pairwise (fun a b => a.GetId < b.GetId) ∧
      ∀ x ∈ s.GetEntities, 0 ≤ x.GetId ∧ x.GetId < r.numEntities) ∧
    (∀ key s, r.GetSystem key = .ok s →
      (s.GetEntities.map Entity.GetId).Nodup ∧
      s.GetEntities.Pairwise (fun a b => a.GetId < b.GetId) ∧
      ∀ x ∈ s.GetEntities, 0 ≤ x.GetId ∧ x.GetId < r.numEntities) := by
  have hm := hr.membersInv
  have hall : ∀ key s, (key, s) ∈ r.systems →
      (s.GetEntities.map Entity.GetId).Nodup ∧
      s.GetEntities.Pairwise (fun a b => a.GetId < b.GetId) ∧
      ∀ x ∈ s.GetEntities, 0 ≤ x.GetId ∧ x.GetId < r.numEntities := by
    intro key s hs
    obtain ⟨h1, h2⟩ := hm (key, s) hs
    refine ⟨?_, h1, fun x hx => (h2 x hx).1⟩
    rw [List.Nodup, List.pairwise_map]
    exact h1.imp (fun hab => ne_of_lt hab)
  refine ⟨hall, ?_⟩
  intro key s h
  apply hall key s
  apply mem_of_findSystem
  unfold Registry.GetSystem at h
  cases hf : findSystem r.systems key with
  | none => rw [hf] at h; simp at h
  | some s0 => rw [hf] at h; simp only [Except.ok.injEq] at h; rw [h]

/-- C19 (amended) on two systems, registered with empty lists, filled by two updates. -/
theorem C19_witness :
    CoreReachable (registryAfter twoUpdates) ∧
    (registryAfter twoUpdates).GetSystem 7
      = .ok ⟨(systemRequiring [0]).componentSignature, [⟨0⟩, ⟨1⟩, ⟨2⟩]⟩ ∧
    (registryAfter twoUpdates).GetSystem 8 = .ok ⟨Signature.zero, [⟨2⟩]⟩ ∧
    ((([⟨0⟩, ⟨1⟩, ⟨2⟩] : List Entity).map Entity.GetId).Nodup ∧
      ([⟨0⟩, ⟨1⟩, ⟨2⟩] : List Entity).Pairwise (fun a b => a.GetId < b.GetId) ∧
      ∀ x ∈ ([⟨0⟩, ⟨1⟩, ⟨2⟩] : List Entity),
        0 ≤ x.GetId ∧ x.GetId < (registryAfter twoUpdates).numEntities) :=
  ⟨coreReachable_registryAfter _ (by decide), by decide, by decide,
    (C19_no_entity_listed_twice (registryAfter twoUpdates)
      (coreReachable_registryAfter _ (by decide))).2 7
      ⟨(systemRequiring [0]).componentSignature, [⟨0⟩, ⟨1⟩, ⟨2⟩]⟩ (by decide)⟩



/-! ## Component type ids -/

theorem findId_eq_none_iff (ids : List (Nat × Nat)) (T : Nat) :
    findId ids T = none ↔ T ∉ ids.map Prod.fst := by
  induction ids with
  | nil => simp [findId]
  | cons p rest ih =>
    obtain ⟨t, i⟩ := p
    simp only [findId, List.map_cons, List.mem_cons, not_or]
    split
    · rename_i ht
      simp [ht]
    · rename_i ht
      rw [ih]
      exact ⟨fun h => ⟨fun e => ht e.symm, h⟩, fun h => h.2⟩

theorem mem_of_findId {ids : List (Nat × Nat)} {T i : Nat} (h : findId ids T = some i) :
    (T, i) ∈ ids := by
  induction ids with
  | nil => simp [findId] at h
  | cons p rest ih =>
    obtain ⟨t, j⟩ := p
    simp only [findId] at h
    split at h
    · rename_i ht
      simp only [Option.some.injEq] at h
      subst ht; subst h
      simp
    · exact List.mem_cons_of_mem _ (ih h)

theorem findId_append (ids : List (Nat × Nat)) (t i T : Nat) :
    findId (ids ++ [(t, i)]) T =
      match findId ids T with
      | some j => some j
      | none => if t = T then some i else none := by
  induction ids with
  | nil => simp [findId]
  | cons p rest ih =>
    obtain ⟨t0, j0⟩ := p
    simp only [findId, List.cons_append]
    split
    · rfl
    · exact ih

theorem Inv_start : ComponentIds.start.Inv := by
  constructor <;> simp [ComponentIds.start]

/-- What one `GetId` call does: it returns the `id` of an initialised type and changes
nothing, or it hands out `nextId` to a new type. -/
theorem GetId_cases {s s1 : ComponentIds} {T id : Nat} (h : Component.GetId s T = some (id, s1)) :
    (findId s.ids T = some id ∧ s1 = s) ∨
    (findId s.ids T = none ∧ id = s.nextId ∧ s.nextId < INT_MAX ∧
      s1 = ⟨s.nextId + 1, s.ids ++ [(T, s.nextId)]⟩) := by
  unfold Component.GetId at h
  cases hf : findId s.ids T with
  | some j =>
    rw [hf] at h
    simp only [Option.some.injEq, Prod.mk.injEq] at h
    left
    exact ⟨by rw [h.1], h.2.symm⟩
  | none =>
    rw [hf] at h
    simp only at h
    split at h
    · rename_i hlt
      simp only [Option.some.injEq, Prod.mk.injEq] at h
      right
      exact ⟨rfl, h.1.symm, hlt, h.2.symm⟩
    · simp at h

theorem GetId_inv {s s1 : ComponentIds} {T id : Nat} (hinv : s.Inv)
    (h : Component.GetId s T = some (id, s1)) :
    s1.Inv ∧ findId s1.ids T = some id ∧
      (∀ U j, findId s.ids U = some j → findId s1.ids U = some j) ∧
      (∀ U, U ∈ s1.ids.map Prod.fst ↔ U ∈ s.ids.map Prod.fst ∨ U = T) := by
  rcases GetId_cases h with ⟨hf, hs⟩ | ⟨hf, hid, -, hs⟩
  · subst hs
    refine ⟨hinv, hf, fun _ _ h => h, ?_⟩
    intro U
    constructor
    · exact fun h => Or.inl h
    · rintro (h | h)
      · exact h
      · subst h
        exact List.mem_map_of_mem Prod.fst (mem_of_findId hf)
  · subst hs; subst hid
    refine ⟨⟨?_, ?_⟩, ?_, ?_, ?_⟩
    · simp only [List.map_append, List.map_cons, List.map_nil, hinv.values, List.range_succ]
    · simp only [List.map_append, List.map_cons, List.map_nil]
      rw [List.nodup_append]
      refine ⟨hinv.types, by simp, ?_⟩
      intro a ha hb
      simp only [List.mem_singleton] at hb
      subst hb
      exact (findId_eq_none_iff _ _).mp hf ha
    · simp only [findId_append, hf, if_true]
    · intro U j hU
      simp only [findId_append, hU]
    · intro U
      simp only [List.map_append, List.map_cons, List.map_nil, List.mem_append,
        List.mem_singleton]


theorem GetIds_cons {s s2 : ComponentIds} {T : Nat} {rest rets : List Nat}
    (h : Component.GetIds s (T :: rest) = some (rets, s2)) :
    ∃ id s1 ids, Component.GetId s T = some (id, s1) ∧
      Component.GetIds s1 rest = some (ids, s2) ∧ rets = id :: ids := by
  unfold Component.GetIds at h
  cases h1 : Component.GetId s T with
  | none => rw [h1] at h; simp at h
  | some p =>
    obtain ⟨id, s1⟩ := p
    rw [h1] at h
    simp only at h
    cases h2 : Component.GetIds s1 rest with
    | none => rw [h2] at h; simp at h
    | some q =>
      obtain ⟨ids, s3⟩ := q
      rw [h2] at h
      simp only [Option.some.injEq, Prod.mk.injEq] at h
      exact ⟨id, s1, ids, rfl, h.2 ▸ h2, h.1.symm⟩

/-- What a sequence of `GetId` calls does to the static data. -/
theorem GetIds_inv (ts : List Nat) :
    ∀ (s s2 : ComponentIds) (rets : List Nat), s.Inv →
      Component.GetIds s ts = some (rets, s2) →
      s2.Inv ∧
      (∀ U j, findId s.ids U = some j → findId s2.ids U = some j) ∧
      rets.length = ts.length ∧
      (∀ (n : Nat) (T : Nat), ts[n]? = some T →
        ∃ id, rets[n]? = some id ∧ findId s2.ids T = some id) ∧
      (∀ U, U ∈ s2.ids.map Prod.fst ↔ U ∈ s.ids.map Prod.fst ∨ U ∈ ts) := by
  induction ts with
  | nil =>
    intro s s2 rets hinv h
    simp only [Component.GetIds, Option.some.injEq, Prod.mk.injEq] at h
    obtain ⟨h1, h2⟩ := h
    subst h1; subst h2
    exact ⟨hinv, fun _ _ h => h, rfl, by simp, by simp⟩
  | cons T rest ih =>
    intro s s2 rets hinv h
    obtain ⟨id, s1, ids, hget, hrest, hrets⟩ := GetIds_cons h
    obtain ⟨hinv1, hfind1, hkeep1, hkeys1⟩ := GetId_inv hinv hget
    obtain ⟨hinv2, hkeep2, hlen2, hret2, hkeys2⟩ := ih s1 s2 ids hinv1 hrest
    subst hrets
    refine ⟨hinv2, fun U j hU => hkeep2 U j (hkeep1 U j hU), by simp [hlen2], ?_, ?_⟩
    · intro n U hn
      cases n with
      | zero =>
        simp only [List.getElem?_cons_zero, Option.some.injEq] at hn
        subst hn
        exact ⟨id, by simp, hkeep2 _ _ hfind1⟩
      | succ m =>
        simp only [List.getElem?_cons_succ] at hn ⊢
        exact hret2 m U hn
    · intro U
      rw [hkeys2, hkeys1]
      simp only [List.mem_cons]
      constructor
      · rintro ((h | h) | h)
        · exact Or.inl h
        · exact Or.inr (Or.inl h)
        · exact Or.inr (Or.inr h)
      · rintro (h | h | h)
        · exact Or.inl (Or.inl h)
        · exact Or.inl (Or.inr h)
        · exact Or.inr h

theorem GetIds_append (a b : List Nat) :
    ∀ s : ComponentIds, Component.GetIds s (a ++ b) =
      match Component.GetIds s a with
      | none => none
      | some (ra, s1) =>
        match Component.GetIds s1 b with
        | none => none
        | some (rb, s2) => some (ra ++ rb, s2) := by
  induction a with
  | nil =>
    intro s
    simp only [List.nil_append, Component.GetIds]
    cases Component.GetIds s b with
    | none => rfl
    | some q => rfl
  | cons T rest ih =>
    intro s
    rw [List.cons_append]
    simp only [Component.GetIds]
    cases h1 : Component.GetId s T with
    | none => rfl
    | some p =>
      obtain ⟨id, s1⟩ := p
      simp only
      rw [ih s1]
      cases h2 : Component.GetIds s1 rest with
      | none => rfl
      | some q =>
        obtain ⟨ra, s2⟩ := q
        simp only
        cases h3 : Component.GetIds s2 b with
        | none => rfl
        | some q3 => rfl

theorem ComponentIds.Inv.length_ids {s : ComponentIds} (hinv : s.Inv) :
    s.ids.length = s.nextId := by
  have := congrArg List.length hinv.values
  simpa using this

/-- From program start, `nextId` counts the distinct types queried. -/
theorem GetIds_nextId {ts rets : List Nat} {s : ComponentIds}
    (h : Component.GetIds ComponentIds.start ts = some (rets, s)) :
    s.Inv ∧ s.nextId = ts.dedup.length ∧ ∀ U, U ∈ s.ids.map Prod.fst ↔ U ∈ ts := by
  obtain ⟨hinv, -, -, -, hkeys⟩ := GetIds_inv ts _ s rets Inv_start h
  have hkeys1 : ∀ U, U ∈ s.ids.map Prod.fst ↔ U ∈ ts := by
    intro U
    rw [hkeys U]
    simp [ComponentIds.start]
  refine ⟨hinv, ?_, hkeys1⟩
  have hperm : (s.ids.map Prod.fst).Perm ts.dedup :=
    (List.perm_ext_iff_of_nodup hinv.types (List.nodup_dedup ts)).mpr
      (fun U => by rw [hkeys1 U, List.mem_dedup])
  rw [← hinv.length_ids, ← hperm.length_eq, List.length_map]



/-- A sequence of `GetId` calls returns when the types it names, with those already
initialised, are at most `INT_MAX`. -/
theorem GetIds_returns (D : List Nat) (hD : D.length ≤ INT_MAX) (ts : List Nat) :
    ∀ s : ComponentIds, s.Inv → (∀ U ∈ s.ids.map Prod.fst, U ∈ D) → (∀ U ∈ ts, U ∈ D) →
      ∃ rets s2, Component.GetIds s ts = some (rets, s2) := by
  induction ts with
  | nil => intro s _ _ _; exact ⟨[], s, rfl⟩
  | cons T rest ih =>
    intro s hinv hkeys hts
    have hT : T ∈ D := hts T (by simp)
    have hget : ∃ id s1, Component.GetId s T = some (id, s1) := by
      unfold Component.GetId
      cases hf : findId s.ids T with
      | some j => exact ⟨j, s, rfl⟩
      | none =>
        have hnot : T ∉ s.ids.map Prod.fst := (findId_eq_none_iff _ _).mp hf
        have hnd : (T :: s.ids.map Prod.fst).Nodup := List.nodup_cons.mpr ⟨hnot, hinv.types⟩
        have hsub : T :: s.ids.map Prod.fst ⊆ D := by
          intro U hU
          rcases List.mem_cons.mp hU with h | h
          · rw [h]; exact hT
          · exact hkeys U h
        have hlen := (List.subperm_of_subset hnd hsub).length_le
        simp only [List.length_cons, List.length_map, hinv.length_ids] at hlen
        have hlt : s.nextId < INT_MAX := by omega
        simp only [hlt, if_true]
        exact ⟨_, _, rfl⟩
    obtain ⟨id, s1, hget⟩ := hget
    obtain ⟨hinv1, -, -, hkeys1⟩ := GetId_inv hinv hget
    have hk1 : ∀ U ∈ s1.ids.map Prod.fst, U ∈ D := by
      intro U hU
      rcases (hkeys1 U).mp hU with h | h
      · exact hkeys U h
      · rw [h]; exact hT
    obtain ⟨rets, s2, hrest⟩ := ih s1 hinv1 hk1 (fun U hU => hts U (by simp [hU]))
    exact ⟨id :: rets, s2, by simp only [Component.GetIds, hget, hrest]⟩

/-- C14: over any sequence of `Component<T>::GetId` calls from program start, two calls
return the same integer exactly when they are for the same type; the call that first
names a type, after k distinct types were named, returns k; the counter `nextId` ends as
the number of distinct types, so repeated queries do not advance it; a further call for
a type already named returns its id again and changes nothing; and the sequence returns
when it names at most `INT_MAX` distinct types. -/
theorem C14_component_type_ids (ts rets : List Nat) (s : ComponentIds)
    (h : Component.GetIds ComponentIds.start ts = some (rets, s)) :
    rets.length = ts.length ∧
    (∀ (i j T U a b : Nat), ts[i]? = some T → ts[j]? = some U →
      rets[i]? = some a → rets[j]? = some b → (a = b ↔ T = U)) ∧
    (∀ (i T : Nat), ts[i]? = some T → T ∉ ts.take i →
      rets[i]? = some (ts.take i).dedup.length) ∧
    s.nextId = ts.dedup.length ∧
    (∀ (i T a : Nat), ts[i]? = some T → rets[i]? = some a →
      Component.GetId s T = some (a, s)) ∧
    (∀ us : List Nat, us.dedup.length ≤ INT_MAX →
      ∃ r1 s1, Component.GetIds ComponentIds.start us = some (r1, s1)) := by
  obtain ⟨hinv, -, hlen, hret, -⟩ := GetIds_inv ts _ s rets Inv_start h
  obtain ⟨-, hnext, -⟩ := GetIds_nextId h
  have hfind : ∀ (i T a : Nat), ts[i]? = some T → rets[i]? = some a →
      findId s.ids T = some a := by
    intro i T a hT ha
    obtain ⟨id, hid, hf⟩ := hret i T hT
    rw [hid] at ha
    simp only [Option.some.injEq] at ha
    rw [← ha]; exact hf
  refine ⟨hlen, ?_, ?_, hnext, ?_, ?_⟩
  · intro i j T U a b hT hU ha hb
    have hfa := hfind i T a hT ha
    have hfb := hfind j U b hU hb
    constructor
    · intro hab
      subst hab
      have hma := mem_of_findId hfa
      have hmb := mem_of_findId hfb
      have hnd : (s.ids.map Prod.snd).Nodup := by
        rw [hinv.values]; exact List.nodup_range _
      have := List.inj_on_of_nodup_map hnd hma hmb rfl
      exact (Prod.mk.injEq _ _ _ _ ▸ this).1
    · intro hTU
      subst hTU
      rw [hfa] at hfb
      exact Option.some.inj hfb
  · intro i T hT hnew
    have hi : i < ts.length := (List.getElem?_eq_some_iff.mp hT).1
    have hsplit : ts = ts.take i ++ T :: ts.drop (i + 1) := by
      have hTi : ts[i] = T := (List.getElem?_eq_some_iff.mp hT).2
      rw [← hTi, ← List.drop_eq_getElem_cons hi, List.take_append_drop]
    have h1 := h
    rw [hsplit, GetIds_append] at h1
    cases ha : Component.GetIds ComponentIds.start (ts.take i) with
    | none => rw [ha] at h1; simp at h1
    | some q =>
      obtain ⟨ra, sa⟩ := q
      rw [ha] at h1
      simp only at h1
      cases hb : Component.GetIds sa (T :: ts.drop (i + 1)) with
      | none => rw [hb] at h1; simp at h1
      | some q2 =>
        obtain ⟨rb, sb⟩ := q2
        rw [hb] at h1
        simp only [Option.some.injEq, Prod.mk.injEq] at h1
        obtain ⟨id, s1, ids, hget, -, hrb⟩ := GetIds_cons hb
        obtain ⟨hinva, hnexta, hkeysa⟩ := GetIds_nextId ha
        have hlena := (GetIds_inv _ _ sa ra Inv_start ha).2.2.1
        have hnone : findId sa.ids T = none :=
          (findId_eq_none_iff _ _).mpr (fun hm => hnew ((hkeysa T).mp hm))
        rcases GetId_cases hget with ⟨hf, -⟩ | ⟨-, hid, -, -⟩
        · rw [hnone] at hf; simp at hf
        · rw [← h1.1, hrb, List.getElem?_append_right (by rw [hlena]; simp), hlena]
          simp only [List.length_take, Nat.min_eq_left (Nat.le_of_lt hi), Nat.sub_self,
            List.getElem?_cons_zero, hid, hnexta]
  · intro i T a hT ha
    simp only [Component.GetId, hfind i T a hT ha]
  · intro us hus
    exact GetIds_returns us.dedup hus us ComponentIds.start Inv_start
      (by simp [ComponentIds.start]) (fun U hU => List.mem_dedup.mpr hU)

/-- C14 on six queries of three types. -/
theorem C14_witness :
    Component.GetIds ComponentIds.start [5, 3, 5, 9, 3, 5]
      = some ([0, 1, 0, 2, 1, 0], ⟨3, [(5, 0), (3, 1), (9, 2)]⟩) ∧
    ([0, 1, 0, 2, 1, 0] : List Nat).length = ([5, 3, 5, 9, 3, 5] : List Nat).length ∧
    (ComponentIds.mk 3 [(5, 0), (3, 1), (9, 2)]).nextId
      = ([5, 3, 5, 9, 3, 5] : List Nat).dedup.length :=
  ⟨by decide,
    (C14_component_type_ids [5, 3, 5, 9, 3, 5] [0, 1, 0, 2, 1, 0]
      ⟨3, [(5, 0), (3, 1), (9, 2)]⟩ (by decide)).1,
    (C14_component_type_ids [5, 3, 5, 9, 3, 5] [0, 1, 0, 2, 1, 0]
      ⟨3, [(5, 0), (3, 1), (9, 2)]⟩ (by decide)).2.2.2.1⟩


end ECS
